import Mathlib

/-!
# IronBee key-value store: value lifetime and the get/merge protocol

A shallow embedding of `util/kvstore.c`.  Memory is explicit: arenas
(`ib_mpool_lite_t`) are numbered and hold typed blocks, the process heap holds
byte buffers, and every function that dereferences a pointer returns `none`
when the C code would hit an assertion or touch released memory.
The engine functions additionally append to a call log each call they make to
a callback or to a value operation, so that "called exactly once" is a
statement about that log.
-/

namespace IronBee

/-- Modelled from the spec: the status codes of `ironbee/types.h`, which is not
among the sources.  Section 6 lists Ok, NotFound, AllocationError and a
backend-defined failure passed through unchanged. -/
inductive ib_status_t where
  | IB_OK
  | IB_ENOENT
  | IB_EALLOC
  | IB_EOTHER (code : Nat)
  deriving DecidableEq, Repr

open ib_status_t

/-- A C pointer.  `null` is `NULL`; `empty_str` is the address of the string
literal `""`; `heap id` is a buffer of the process heap; `pool mp idx` is the
`idx`-th allocation made from arena `mp`. -/
inductive Ptr where
  | null
  | empty_str
  | heap (id : Nat)
  | pool (mp : Nat) (idx : Nat)
  deriving DecidableEq, Repr

/-- The fields of `struct ib_kvstore_value_t`, in declaration order.  `mp` is
the owning arena (`none` is a `NULL` arena pointer). -/
structure ib_kvstore_value_t where
  mp : Option Nat
  value : Ptr
  value_length : Nat
  type : Ptr
  type_length : Nat
  expiration : Nat
  creation : Nat
  deriving DecidableEq, Repr

/-- What one allocation of an arena holds: a byte buffer or a value struct. -/
inductive Block where
  | bytes (bs : List Nat)
  | value (v : ib_kvstore_value_t)
  deriving DecidableEq, Repr

/-- The process heap: buffer `id` is `some bytes` while allocated and `none`
once freed. -/
abbrev Heap := List (Option (List Nat))

/-- Memory.  `pools[mp]` is `some blocks` while arena `mp` is live and `none`
once it has been released; `allocs` lists the outcomes of the coming
allocation attempts (`false` is a failed allocation, an exhausted list means
every further attempt succeeds). -/
structure Mem where
  pools : List (Option (List Block))
  heap : Heap
  allocs : List Bool
  deriving DecidableEq, Repr

/-- Consume the outcome of the next allocation attempt. -/
def Mem.take_alloc (m : Mem) : Bool × Mem :=
  (m.allocs.headD true, { m with allocs := m.allocs.tail })

/-- The blocks of arena `mp`, when it is live. -/
def Mem.pool (m : Mem) (mp : Nat) : Option (List Block) :=
  match m.pools[mp]? with
  | some (some bs) => some bs
  | _ => none

/-- Read `n` bytes at `p`; `none` when fewer than `n` bytes are readable there. -/
def read_bytes (m : Mem) (p : Ptr) (n : Nat) : Option (List Nat) :=
  match p with
  | Ptr.null => none
  | Ptr.empty_str => if n ≤ 1 then some (List.take n [0]) else none
  | Ptr.heap id =>
    match m.heap[id]? with
    | some (some bs) => if n ≤ bs.length then some (bs.take n) else none
    | _ => none
  | Ptr.pool mp idx =>
    match m.pool mp with
    | some blocks =>
      match blocks[idx]? with
      | some (Block.bytes bs) => if n ≤ bs.length then some (bs.take n) else none
      | _ => none
    | none => none

/-- Dereference a value pointer; `none` when it does not point to a value
struct in a live arena. -/
def load_value (m : Mem) (p : Ptr) : Option ib_kvstore_value_t :=
  match p with
  | Ptr.pool mp idx =>
    match m.pool mp with
    | some blocks =>
      match blocks[idx]? with
      | some (Block.value v) => some v
      | _ => none
    | none => none
  | _ => none

/-- Overwrite the value struct at `p`. -/
def store_value (p : Ptr) (v : ib_kvstore_value_t) (m : Mem) : Option Mem :=
  match p with
  | Ptr.pool mp idx =>
    match m.pool mp with
    | some blocks =>
      match blocks[idx]? with
      | some (Block.value _) =>
        some { m with pools := m.pools.set mp (some (blocks.set idx (Block.value v))) }
      | _ => none
    | none => none
  | _ => none

/-- Modelled from the spec: `ib_mpool_lite_create` of the arena library, which
is not among the sources.  Allocates a fresh, empty arena; fails with
AllocationError when the arena cannot be allocated. -/
def ib_mpool_lite_create (m : Mem) : ib_status_t × Nat × Mem :=
  let (ok, m1) := m.take_alloc
  if ok then (IB_OK, m1.pools.length, { m1 with pools := m1.pools ++ [some []] })
  else (IB_EALLOC, 0, m1)

/-- Modelled from the spec: `ib_mpool_lite_destroy` of the arena library.
Releases the whole arena in one step; releasing an arena that is not live is
undefined. -/
def ib_mpool_lite_destroy (mp : Nat) (m : Mem) : Option Mem :=
  match m.pool mp with
  | some _ => some { m with pools := m.pools.set mp none }
  | none => none

/-- Modelled from the spec: `ib_mm_mpool_lite`, the memory-manager view of an
arena. -/
def ib_mm_mpool_lite (mp : Nat) : Nat := mp

/-- The all-zero value struct that `calloc` produces. -/
def zero_value : ib_kvstore_value_t :=
  { mp := none, value := Ptr.null, value_length := 0, type := Ptr.null,
    type_length := 0, expiration := 0, creation := 0 }

/-- Modelled from the spec: `ib_mm_calloc(mm, 1, sizeof(ib_kvstore_value_t))`.
Allocates one zeroed value struct from arena `mm`; returns `NULL` when the
allocation fails. -/
def ib_mm_calloc (mm : Nat) (m : Mem) : Option (Ptr × Mem) :=
  match m.pool mm with
  | none => none
  | some blocks =>
    let (ok, m1) := m.take_alloc
    if ok then
      some (Ptr.pool mm blocks.length,
        { m1 with pools := m1.pools.set mm (some (blocks ++ [Block.value zero_value])) })
    else some (Ptr.null, m1)

/-- Modelled from the spec: `ib_mm_memdup(mm, src, size)`.  Allocates `size`
bytes from arena `mm` and copies them from `src`; returns `NULL` when the
allocation fails. -/
def ib_mm_memdup (mm : Nat) (src : Ptr) (size : Nat) (m : Mem) : Option (Ptr × Mem) :=
  match m.pool mm with
  | none => none
  | some blocks =>
    let (ok, m1) := m.take_alloc
    if ok then
      match read_bytes m src size with
      | none => none
      | some bs =>
        some (Ptr.pool mm blocks.length,
          { m1 with pools := m1.pools.set mm (some (blocks ++ [Block.bytes bs])) })
    else some (Ptr.null, m1)

/-- The function `ib_kvstore_value_create`.  `kvstore_value` is what the
caller's output slot holds before the call; the second component of the result
is what it holds afterwards.  The seven field assignments are one store. -/
def ib_kvstore_value_create (kvstore_value : Ptr) (m : Mem) :
    Option (ib_status_t × Ptr × Mem) :=
  let (rc, mp, m1) := ib_mpool_lite_create m
  if rc ≠ IB_OK then some (rc, kvstore_value, m1)
  else
    match ib_mm_calloc (ib_mm_mpool_lite mp) m1 with
    | none => none
    | some (val, m2) =>
      if val = Ptr.null then
        match ib_mpool_lite_destroy mp m2 with
        | none => none
        | some m3 => some (IB_EALLOC, kvstore_value, m3)
      else
        match store_value val
            { mp := some mp, value := Ptr.empty_str, value_length := 0,
              type := Ptr.empty_str, type_length := 0, expiration := 0, creation := 0 } m2 with
        | none => none
        | some m3 => some (IB_OK, val, m3)

/-- The function `ib_kvstore_value_destroy`: both assertions, then the arena
is released. -/
def ib_kvstore_value_destroy (value : Ptr) (m : Mem) : Option Mem :=
  match load_value m value with
  | none => none
  | some v =>
    match v.mp with
    | none => none
    | some mp => ib_mpool_lite_destroy mp m

/-- The function `ib_kvstore_value_mm`. -/
def ib_kvstore_value_mm (val : Ptr) (m : Mem) : Option Nat :=
  match load_value m val with
  | none => none
  | some v =>
    match v.mp with
    | none => none
    | some mp => some (ib_mm_mpool_lite mp)

/-- Apply `f` to the value struct at `p` (one or more field assignments). -/
def modify_value (p : Ptr) (f : ib_kvstore_value_t → ib_kvstore_value_t) (m : Mem) :
    Option Mem :=
  match load_value m p with
  | none => none
  | some v => store_value p (f v) m

/-- The function `ib_kvstore_value_value_set`. -/
def ib_kvstore_value_value_set (kvstore_value : Ptr) (value : Ptr) (value_length : Nat)
    (m : Mem) : Option Mem :=
  if value = Ptr.null then none
  else modify_value kvstore_value
    (fun v => { v with value := value, value_length := value_length }) m

/-- The function `ib_kvstore_value_value_get`: the pointer and the length
written to the two output slots. -/
def ib_kvstore_value_value_get (kvstore_value : Ptr) (m : Mem) : Option (Ptr × Nat) :=
  match load_value m kvstore_value with
  | none => none
  | some v => some (v.value, v.value_length)

/-- The function `ib_kvstore_value_type_get`. -/
def ib_kvstore_value_type_get (kvstore_value : Ptr) (m : Mem) : Option (Ptr × Nat) :=
  match load_value m kvstore_value with
  | none => none
  | some v => some (v.type, v.type_length)

/-- The function `ib_kvstore_value_type_set`. -/
def ib_kvstore_value_type_set (kvstore_value : Ptr) (type : Ptr) (type_length : Nat)
    (m : Mem) : Option Mem :=
  if type = Ptr.null then none
  else modify_value kvstore_value
    (fun v => { v with type := type, type_length := type_length }) m

/-- The function `ib_kvstore_value_expiration_set`. -/
def ib_kvstore_value_expiration_set (kvstore_value : Ptr) (expiration : Nat) (m : Mem) :
    Option Mem :=
  modify_value kvstore_value (fun v => { v with expiration := expiration }) m

/-- The function `ib_kvstore_value_expiration_get`. -/
def ib_kvstore_value_expiration_get (kvstore_value : Ptr) (m : Mem) : Option Nat :=
  match load_value m kvstore_value with
  | none => none
  | some v => some v.expiration

/-- The function `ib_kvstore_value_creation_set`. -/
def ib_kvstore_value_creation_set (kvstore_value : Ptr) (creation : Nat) (m : Mem) :
    Option Mem :=
  modify_value kvstore_value (fun v => { v with creation := creation }) m

/-- The function `ib_kvstore_value_creation_get`. -/
def ib_kvstore_value_creation_get (kvstore_value : Ptr) (m : Mem) : Option Nat :=
  match load_value m kvstore_value with
  | none => none
  | some v => some v.creation

/-- The function `ib_kvstore_value_dup`.  `pnew_value` is what the caller's
output slot holds before the call; the second component of the result is what
it holds afterwards.  The source value is read through `value` at each use,
as in the C code. -/
def ib_kvstore_value_dup (value : Ptr) (pnew_value : Ptr) (m : Mem) :
    Option (ib_status_t × Ptr × Mem) :=
  if value = Ptr.null then none
  else
    match ib_kvstore_value_create Ptr.null m with
    | none => none
    | some (rc, new_value, m1) =>
    if rc ≠ IB_OK then some (IB_EALLOC, pnew_value, m1)
    else
    match ib_kvstore_value_mm new_value m1 with
    | none => none
    | some mm =>
    match load_value m1 value with
    | none => none
    | some src1 =>
    match ib_mm_memdup mm src1.value src1.value_length m1 with
    | none => none
    | some (p, m2) =>
    match modify_value new_value (fun v => { v with value := p }) m2 with
    | none => none
    | some m3 =>
    if p = Ptr.null then
      match ib_kvstore_value_destroy new_value m3 with
      | none => none
      | some m4 => some (IB_EALLOC, pnew_value, m4)
    else
    match load_value m3 value with
    | none => none
    | some src2 =>
    match ib_mm_memdup mm src2.type src2.type_length m3 with
    | none => none
    | some (t, m4) =>
    match modify_value new_value (fun v => { v with type := t }) m4 with
    | none => none
    | some m5 =>
    if t = Ptr.null then
      match ib_kvstore_value_destroy new_value m5 with
      | none => none
      | some m6 => some (IB_EALLOC, pnew_value, m6)
    else
    match load_value m5 value with
    | none => none
    | some src3 =>
    match modify_value new_value
        (fun v => { v with value_length := src3.value_length, type_length := src3.type_length,
                           expiration := src3.expiration, creation := src3.creation }) m5 with
    | none => none
    | some m6 => some (IB_OK, new_value, m6)

/-- What a caller can read from a value: the payload bytes and length, the
type bytes and length, and the two timestamps. -/
structure ValueData where
  payload : List Nat
  value_length : Nat
  type_bytes : List Nat
  type_length : Nat
  expiration : Nat
  creation : Nat
  deriving DecidableEq, Repr

/-- Read a value through its pointer: `none` when the struct, the payload
bytes or the type bytes are not readable. -/
def value_data (m : Mem) (p : Ptr) : Option ValueData :=
  match load_value m p with
  | none => none
  | some v =>
    match read_bytes m v.value v.value_length, read_bytes m v.type v.type_length with
    | some pb, some tb =>
      some { payload := pb, value_length := v.value_length, type_bytes := tb,
             type_length := v.type_length, expiration := v.expiration,
             creation := v.creation }
    | _, _ => none

/-- The arena field of the value at `p`. -/
def value_arena (m : Mem) (p : Ptr) : Option Nat :=
  match load_value m p with
  | none => none
  | some v => v.mp

/-- Modelled from the spec: a key is a byte sequence with an explicit length
(the struct is declared in `ironbee/kvstore.h`, not among the sources). -/
structure ib_kvstore_key_t where
  key : List Nat
  deriving DecidableEq, Repr

/-- The identity of a function, which is what a C function pointer compares:
the three static functions of `kvstore.c`, or a function supplied by a backend
or a caller. -/
inductive FnSym where
  | kvstore_malloc
  | kvstore_free
  | default_merge_policy
  | user (id : Nat)
  deriving DecidableEq, Repr

/-- A `ib_kvstore_value_t **`: the address of an array and the value pointers
held in its cells. -/
structure ValueArray where
  ptr : Ptr
  cells : List Ptr
  deriving DecidableEq, Repr

/-- A merge policy function pointer.  `run kvstore key values value_size
resultant cbdata` receives the address of the handle and what the output slot
`*resultant_value` holds, and returns the status and what the slot holds
afterwards; `none` is an assertion failure or an invalid access.  A policy
may allocate and release (it transforms memory) but receives the array cells
by value: as in section 3 of the spec it is a function of the key and the
ordered candidates, and does not rewrite the array.  Callbacks do not see the
call log. -/
structure ib_kvstore_merge_policy_fn_t where
  sym : FnSym
  run : Nat → ib_kvstore_key_t → ValueArray → Nat → Ptr → Nat → Mem →
    Option (ib_status_t × Ptr × Mem)

/-- The backend `get` callback: returns the status and what it wrote to
`*values` and `*values_length`. -/
structure ib_kvstore_get_fn_t where
  sym : FnSym
  run : Nat → ib_kvstore_key_t → Nat → Mem → (ib_status_t × ValueArray × Nat) × Mem

/-- The backend `set` callback. -/
structure ib_kvstore_set_fn_t where
  sym : FnSym
  run : Nat → ib_kvstore_merge_policy_fn_t → ib_kvstore_key_t → Ptr → Nat → Mem →
    ib_status_t × Mem

/-- The backend `connect` and `disconnect` callbacks. -/
structure ib_kvstore_connect_fn_t where
  sym : FnSym
  run : Nat → Nat → Mem → ib_status_t × Mem

/-- The backend `remove` callback. -/
structure ib_kvstore_remove_fn_t where
  sym : FnSym
  run : Nat → ib_kvstore_key_t → Nat → Mem → ib_status_t × Mem

/-- The backend `destroy` callback. -/
structure ib_kvstore_destroy_fn_t where
  sym : FnSym
  run : Nat → Nat → Mem → Mem

/-- The allocator `malloc` slot. -/
structure ib_kvstore_malloc_fn_t where
  sym : FnSym
  run : Nat → Nat → Nat → Mem → Ptr × Mem

/-- The allocator `free` slot.  A free function acts on the process heap
only (it releases no arena); `none` is an invalid free. -/
structure ib_kvstore_free_fn_t where
  sym : FnSym
  run : Nat → Ptr → Nat → Heap → Option Heap

/-- The store handle: the fields of `ib_kvstore_t` that `kvstore.c` uses
(declared in `ironbee/kvstore.h`), and the address of the handle, which is
what the callbacks receive. -/
structure ib_kvstore_t where
  addr : Nat
  malloc : ib_kvstore_malloc_fn_t
  free : ib_kvstore_free_fn_t
  free_cbdata : Nat
  connect : ib_kvstore_connect_fn_t
  connect_cbdata : Nat
  disconnect : ib_kvstore_connect_fn_t
  disconnect_cbdata : Nat
  get : ib_kvstore_get_fn_t
  get_cbdata : Nat
  set : ib_kvstore_set_fn_t
  set_cbdata : Nat
  remove : ib_kvstore_remove_fn_t
  remove_cbdata : Nat
  default_merge_policy : ib_kvstore_merge_policy_fn_t
  merge_policy_cbdata : Nat
  destroy : ib_kvstore_destroy_fn_t
  destroy_cbdata : Nat

/-- One call made by an engine function, with its arguments. -/
inductive Event where
  | connect (fn : FnSym) (kvstore : Nat) (cbdata : Nat)
  | disconnect (fn : FnSym) (kvstore : Nat) (cbdata : Nat)
  | get (fn : FnSym) (kvstore : Nat) (key : ib_kvstore_key_t) (cbdata : Nat)
  | merge_policy (fn : FnSym) (kvstore : Nat) (key : ib_kvstore_key_t) (values : ValueArray)
      (value_size : Nat) (cbdata : Nat)
  | value_dup (value : Ptr)
  | value_destroy (value : Ptr)
  | free (fn : FnSym) (kvstore : Nat) (ptr : Ptr) (cbdata : Nat)
  | set (fn : FnSym) (kvstore : Nat) (merge_policy : FnSym) (key : ib_kvstore_key_t)
      (val : Ptr) (cbdata : Nat)
  | remove (fn : FnSym) (kvstore : Nat) (key : ib_kvstore_key_t) (cbdata : Nat)
  | destroy (fn : FnSym) (kvstore : Nat) (cbdata : Nat)
  deriving DecidableEq, Repr

/-- Memory together with the log of the calls made so far. -/
structure World where
  mem : Mem
  log : List Event
  deriving DecidableEq, Repr

/-- The function `kvstore_malloc`: wraps `malloc`. -/
def kvstore_malloc (_kvstore : Nat) (size : Nat) (_cbdata : Nat) (m : Mem) : Ptr × Mem :=
  let (ok, m1) := m.take_alloc
  if ok then (Ptr.heap m1.heap.length, { m1 with heap := m1.heap ++ [some (List.replicate size 0)] })
  else (Ptr.null, m1)

/-- The function `kvstore_free`: wraps `free`, which accepts `NULL` and is
undefined on anything that is not a live heap buffer. -/
def kvstore_free (_kvstore : Nat) (ptr : Ptr) (_cbdata : Nat) (h : Heap) : Option Heap :=
  match ptr with
  | Ptr.null => some h
  | Ptr.heap id =>
    match h[id]? with
    | some (some _) => some (h.set id none)
    | _ => none
  | _ => none

/-- The function `default_merge_policy`. -/
def default_merge_policy (_kvstore : Nat) (_key : ib_kvstore_key_t) (values : ValueArray)
    (value_size : Nat) (resultant_value : Ptr) (_cbdata : Nat) (m : Mem) :
    Option (ib_status_t × Ptr × Mem) :=
  if values.ptr = Ptr.null then none
  else if value_size > 0 then
    match values.cells[0]? with
    | none => none
    | some v => some (IB_OK, v, m)
  else some (IB_OK, resultant_value, m)

/-- The function `ib_kvstore_init`: the status and the handle afterwards. -/
def ib_kvstore_init (kvstore : ib_kvstore_t) : ib_status_t × ib_kvstore_t :=
  (IB_OK,
   { kvstore with
     malloc := { sym := FnSym.kvstore_malloc, run := kvstore_malloc },
     free := { sym := FnSym.kvstore_free, run := kvstore_free },
     default_merge_policy :=
       { sym := FnSym.default_merge_policy, run := default_merge_policy } })

/-- Modelled from the spec: the handle as it lies in memory.  The struct
`ib_kvstore_t` is declared in `ironbee/kvstore.h`, not among the sources;
section 3 of the spec lists what it holds.  A handle is a buffer of the
process heap with one word per field, a function pointer or a context pointer
each, in the order of the fields of `ib_kvstore_t` above.  These are the
indices of the words that the delegating functions read. -/
def connect_field : Nat := 3

/-- The index of the word `connect_cbdata` of a handle. -/
def connect_cbdata_field : Nat := 4

/-- The index of the word `disconnect` of a handle. -/
def disconnect_field : Nat := 5

/-- The index of the word `disconnect_cbdata` of a handle. -/
def disconnect_cbdata_field : Nat := 6

/-- The index of the word `remove` of a handle. -/
def remove_field : Nat := 11

/-- The index of the word `remove_cbdata` of a handle. -/
def remove_cbdata_field : Nat := 12

/-- The index of the word `destroy` of a handle. -/
def destroy_field : Nat := 15

/-- The index of the word `destroy_cbdata` of a handle. -/
def destroy_cbdata_field : Nat := 16

/-- The words of the handle at `kvstore`; `none` when `kvstore` is `NULL` or
does not point to a live buffer of the heap (never allocated, or freed). -/
def load_handle (m : Mem) (kvstore : Ptr) : Option (List Nat) :=
  match kvstore with
  | Ptr.heap id =>
    match m.heap[id]? with
    | some (some ws) => some ws
    | _ => none
  | _ => none

/-- The program text: which function, if any, lies at the address that a
function pointer holds.  A callback acts on all of memory, the buffer of the
handle included. -/
structure Code where
  connect : Nat → Option ib_kvstore_connect_fn_t
  remove : Nat → Option ib_kvstore_remove_fn_t
  destroy : Nat → Option ib_kvstore_destroy_fn_t

/-- The function that the function pointer `fp` denotes: none for `NULL`
(the word 0) and for a word at which no function of that type lies. -/
def fn_at {α : Type} (table : Nat → Option α) (fp : Nat) : Option α :=
  if fp = 0 then none else table fp

/-- The function `ib_kvstore_connect`.  `kvstore` is the handle pointer;
`none` is the failure of `assert(kvstore != NULL)`, an invalid handle pointer
or a call through a pointer that is no function. -/
def ib_kvstore_connect (code : Code) (kvstore : Ptr) (w : World) :
    Option (ib_status_t × World) :=
  match kvstore with
  | Ptr.heap addr =>
    match load_handle w.mem kvstore with
    | none => none
    | some ws =>
      match ws[connect_field]?, ws[connect_cbdata_field]? with
      | some fp, some cbdata =>
        match fn_at code.connect fp with
        | none => none
        | some f =>
          let (rc, m) := f.run addr cbdata w.mem
          some (rc, { mem := m, log := w.log ++ [Event.connect f.sym addr cbdata] })
      | _, _ => none
  | _ => none

/-- The function `ib_kvstore_disconnect`. -/
def ib_kvstore_disconnect (code : Code) (kvstore : Ptr) (w : World) :
    Option (ib_status_t × World) :=
  match kvstore with
  | Ptr.heap addr =>
    match load_handle w.mem kvstore with
    | none => none
    | some ws =>
      match ws[disconnect_field]?, ws[disconnect_cbdata_field]? with
      | some fp, some cbdata =>
        match fn_at code.connect fp with
        | none => none
        | some f =>
          let (rc, m) := f.run addr cbdata w.mem
          some (rc, { mem := m, log := w.log ++ [Event.disconnect f.sym addr cbdata] })
      | _, _ => none
  | _ => none

/-- The loop at `exit_get`.  The first counter is `values_length - i`, the
number of iterations left; the result is `merged_value` after the loop. -/
def destroy_values (values : ValueArray) :
    Nat → Nat → Ptr → World → Option (Ptr × World)
  | 0, _, merged_value, w => some (merged_value, w)
  | k + 1, i, merged_value, w =>
    if values.ptr = Ptr.null then none
    else
      match values.cells[i]? with
      | none => none
      | some v =>
        match ib_kvstore_value_destroy v w.mem with
        | none => none
        | some m =>
          destroy_values values k (i + 1) (if merged_value = v then Ptr.null else merged_value)
            { mem := m, log := w.log ++ [Event.value_destroy v] }

/-- The code of `ib_kvstore_get` from the label `exit_get` to the return. -/
def exit_get (kvstore : ib_kvstore_t) (values : ValueArray) (values_length : Nat)
    (merged_value : Ptr) (rc : ib_status_t) (val : Ptr) (w : World) :
    Option (ib_status_t × Ptr × World) :=
  match destroy_values values values_length 0 merged_value w with
  | none => none
  | some (merged_value, w1) =>
    let freed : Option World :=
      if values.ptr ≠ Ptr.null then
        match kvstore.free.run kvstore.addr values.ptr kvstore.free_cbdata w1.mem.heap with
        | none => none
        | some h =>
          some { mem := { w1.mem with heap := h },
                 log := w1.log ++
                   [Event.free kvstore.free.sym kvstore.addr values.ptr kvstore.free_cbdata] }
      else some w1
    match freed with
    | none => none
    | some w2 =>
      if merged_value ≠ Ptr.null then
        match ib_kvstore_value_destroy merged_value w2.mem with
        | none => none
        | some m =>
          some (rc, val, { mem := m, log := w2.log ++ [Event.value_destroy merged_value] })
      else some (rc, val, w2)

/-- The function `ib_kvstore_get`.  `merge_policy` is `none` for a `NULL`
override; `val` is what the caller's output slot holds before the call and the
second component of the result is what it holds afterwards. -/
def ib_kvstore_get (kvstore : ib_kvstore_t)
    (merge_policy : Option ib_kvstore_merge_policy_fn_t) (key : ib_kvstore_key_t)
    (val : Ptr) (w : World) : Option (ib_status_t × Ptr × World) :=
  let merge_policy :=
    match merge_policy with
    | none => kvstore.default_merge_policy
    | some f => f
  let ((rc, values, values_length), m0) := kvstore.get.run kvstore.addr key kvstore.get_cbdata w.mem
  let w0 : World :=
    { mem := m0, log := w.log ++ [Event.get kvstore.get.sym kvstore.addr key kvstore.get_cbdata] }
  if rc ≠ IB_OK then some (rc, Ptr.null, w0)
  else if values_length > 1 then
    match merge_policy.run kvstore.addr key values values_length Ptr.null
        kvstore.merge_policy_cbdata w0.mem with
    | none => none
    | some (rc, merged_value, m1) =>
      let w1 : World :=
        { mem := m1,
          log := w0.log ++ [Event.merge_policy merge_policy.sym kvstore.addr key values
            values_length kvstore.merge_policy_cbdata] }
      if rc ≠ IB_OK then exit_get kvstore values values_length merged_value rc val w1
      else
        match ib_kvstore_value_dup merged_value val w1.mem with
        | none => none
        | some (rc, val, m2) =>
          exit_get kvstore values values_length merged_value rc val
            { mem := m2, log := w1.log ++ [Event.value_dup merged_value] }
  else if values_length = 1 then
    if values.ptr = Ptr.null then none
    else
      match values.cells[0]? with
      | none => none
      | some v0 =>
        match ib_kvstore_value_dup v0 val w0.mem with
        | none => none
        | some (rc, val, m2) =>
          exit_get kvstore values values_length Ptr.null rc val
            { mem := m2, log := w0.log ++ [Event.value_dup v0] }
  else exit_get kvstore values values_length Ptr.null IB_ENOENT Ptr.null w0

/-- The function `ib_kvstore_set`.  `val` is the value pointer that the
caller passes; `none` is the failure of `assert(val != NULL)`, before any
call is made. -/
def ib_kvstore_set (kvstore : ib_kvstore_t)
    (merge_policy : Option ib_kvstore_merge_policy_fn_t) (key : ib_kvstore_key_t)
    (val : Ptr) (w : World) : Option (ib_status_t × World) :=
  if val = Ptr.null then none
  else
    let merge_policy :=
      match merge_policy with
      | none => kvstore.default_merge_policy
      | some f => f
    let (rc, m) := kvstore.set.run kvstore.addr merge_policy key val kvstore.set_cbdata w.mem
    some (rc, { mem := m,
                log := w.log ++ [Event.set kvstore.set.sym kvstore.addr merge_policy.sym key val
                  kvstore.set_cbdata] })

/-- The function `ib_kvstore_remove`. -/
def ib_kvstore_remove (code : Code) (kvstore : Ptr) (key : ib_kvstore_key_t) (w : World) :
    Option (ib_status_t × World) :=
  match kvstore with
  | Ptr.heap addr =>
    match load_handle w.mem kvstore with
    | none => none
    | some ws =>
      match ws[remove_field]?, ws[remove_cbdata_field]? with
      | some fp, some cbdata =>
        match fn_at code.remove fp with
        | none => none
        | some f =>
          let (rc, m) := f.run addr key cbdata w.mem
          some (rc, { mem := m, log := w.log ++ [Event.remove f.sym addr key cbdata] })
      | _, _ => none
  | _ => none

/-- The function `ib_kvstore_destroy`: the world afterwards; `none` is the
failure of `assert(kvstore != NULL)` or of `assert(kvstore->destroy != NULL)`,
an invalid handle pointer or a call through a pointer that is no function. -/
def ib_kvstore_destroy (code : Code) (kvstore : Ptr) (w : World) : Option World :=
  match kvstore with
  | Ptr.heap addr =>
    match load_handle w.mem kvstore with
    | none => none
    | some ws =>
      match ws[destroy_field]?, ws[destroy_cbdata_field]? with
      | some fp, some cbdata =>
        if fp = 0 then none
        else
          match fn_at code.destroy fp with
          | none => none
          | some f =>
            some { mem := f.run addr cbdata w.mem,
                   log := w.log ++ [Event.destroy f.sym addr cbdata] }
      | _, _ => none
  | _ => none

/-- The arena that the value at `c` owns: `some id` when `c` points to a
value struct allocated from the live arena `id` whose `mp` field is `id`
(the data-model invariant: a value and its arena belong to each other). -/
def owned_arena (m : Mem) (c : Ptr) : Option Nat :=
  match c with
  | Ptr.pool id _ =>
    match load_value m c with
    | some v => if v.mp = some id then some id else none
    | none => none
  | _ => none

/-- The candidates are live values, each owning an arena of its own. -/
def Candidates (m : Mem) (cs : List Ptr) : Prop :=
  (∀ c ∈ cs, owned_arena m c ≠ none) ∧ (cs.map (owned_arena m)).Nodup

instance (m : Mem) (cs : List Ptr) : Decidable (Candidates m cs) := by
  unfold Candidates; infer_instance

/-- The arenas owned by the values at `cs`, in order. -/
def arenas_of (m : Mem) (cs : List Ptr) : List Nat := cs.filterMap (owned_arena m)

/-- Memory with the arenas `ids` released. -/
def release (ids : List Nat) (m : Mem) : Mem :=
  { m with pools := ids.foldl (fun P id => P.set id none) m.pools }

/-- Whether arena `id` is live. -/
def pool_live (m : Mem) (id : Nat) : Bool := (m.pool id).isSome

/-- How many times `get` destroyed the value at `p`, according to the log. -/
def destroy_count (log : List Event) (p : Ptr) : Nat :=
  log.count (Event.value_destroy p)

/-- Whether an event is a call of a merge policy. -/
def Event.is_merge : Event → Bool
  | Event.merge_policy _ _ _ _ _ _ => true
  | _ => false

/-- Whether an event is a call of `ib_kvstore_value_dup`. -/
def Event.is_dup : Event → Bool
  | Event.value_dup _ => true
  | _ => false

/-- Whether an event is a call of `ib_kvstore_value_destroy`. -/
def Event.is_destroy : Event → Bool
  | Event.value_destroy _ => true
  | _ => false

/-- Whether an event is a call of the backend `get` callback. -/
def Event.is_get : Event → Bool
  | Event.get _ _ _ _ => true
  | _ => false

/-- Whether an event is a call of the `free` callback. -/
def Event.is_free : Event → Bool
  | Event.free _ _ _ _ => true
  | _ => false

/-- The value that `get` still has to destroy after the loop: the merge
result, unless it is `NULL` or one of the candidates. -/
def residual (merged_value : Ptr) (cs : List Ptr) : List Ptr :=
  if merged_value = Ptr.null ∨ merged_value ∈ cs then [] else [merged_value]

/-- The events that the code from `exit_get` on appends for candidates `cs`
in an array at a non-null address. -/
def exit_events (kvstore : ib_kvstore_t) (values : ValueArray) (merged_value : Ptr) :
    List Event :=
  values.cells.map Event.value_destroy ++
    [Event.free kvstore.free.sym kvstore.addr values.ptr kvstore.free_cbdata] ++
    (residual merged_value values.cells).map Event.value_destroy

/-- Memory after the code from `exit_get` on: the candidates' arenas and the
residual value's arena are released, the heap is what `free` left. -/
def exit_mem (m : Mem) (values : ValueArray) (merged_value : Ptr) (h : Heap) : Mem :=
  { pools := (release (arenas_of m (residual merged_value values.cells))
               (release (arenas_of m values.cells) m)).pools,
    heap := h,
    allocs := m.allocs }

/-- The effective merge policy in the words of the spec: the override if one
is supplied, otherwise the default of the handle. -/
def effective_merge_policy (kvstore : ib_kvstore_t)
    (override : Option ib_kvstore_merge_policy_fn_t) : ib_kvstore_merge_policy_fn_t :=
  match override with
  | some f => f
  | none => kvstore.default_merge_policy

/-- The log entry of the backend `get` call that `ib_kvstore_get` makes. -/
def get_event (kvstore : ib_kvstore_t) (key : ib_kvstore_key_t) : Event :=
  Event.get kvstore.get.sym kvstore.addr key kvstore.get_cbdata

/-- The log entry of a call of merge policy `f` on the array `values`. -/
def merge_event (kvstore : ib_kvstore_t) (f : ib_kvstore_merge_policy_fn_t)
    (key : ib_kvstore_key_t) (values : ValueArray) (values_length : Nat) : Event :=
  Event.merge_policy f.sym kvstore.addr key values values_length kvstore.merge_policy_cbdata

/-! ## Concrete stores used as test inputs -/

/-- The key `"k"`. -/
def key_k : ib_kvstore_key_t := { key := [107] }

/-- The key `"missing"`. -/
def key_missing : ib_kvstore_key_t := { key := [109, 105, 115, 115, 105, 110, 103] }

/-- An arena holding one stored version: the value struct, its payload bytes
and its type bytes. -/
def stored_version (id : Nat) (payload type : List Nat) (expiration creation : Nat) :
    Option (List Block) :=
  some [Block.value
          { mp := some id, value := Ptr.pool id 1, value_length := payload.length,
            type := Ptr.pool id 2, type_length := type.length,
            expiration := expiration, creation := creation },
        Block.bytes payload, Block.bytes type]

/-- Memory in which two versions are stored, `"v1"` and `"vv2"`, and heap
buffer 0 is the candidate array. -/
def two_versions_mem : Mem :=
  { pools := [stored_version 0 [118, 49] [116] 10 1, stored_version 1 [118, 118, 50] [116] 20 2],
    heap := [some []],
    allocs := [] }

/-- A backend `get` that finds the two stored versions under `"k"` and
nothing under any other key. -/
def two_versions_get : ib_kvstore_get_fn_t :=
  { sym := FnSym.user 1,
    run := fun _ key _ m =>
      if key = key_k then
        ((IB_OK, { ptr := Ptr.heap 0, cells := [Ptr.pool 0 0, Ptr.pool 1 0] }, 2), m)
      else ((IB_OK, { ptr := Ptr.null, cells := [] }, 0), m) }

/-- A backend `get` of an empty store: no candidate under any key. -/
def empty_get : ib_kvstore_get_fn_t :=
  { sym := FnSym.user 2,
    run := fun _ _ _ m => ((IB_OK, { ptr := Ptr.null, cells := [] }, 0), m) }

/-- A backend `get` that fails with a backend-defined status. -/
def failing_get : ib_kvstore_get_fn_t :=
  { sym := FnSym.user 3,
    run := fun _ _ _ m => ((IB_EOTHER 7, { ptr := Ptr.null, cells := [] }, 0), m) }

/-- A backend `set` that stores nothing and reports OK. -/
def noop_set : ib_kvstore_set_fn_t :=
  { sym := FnSym.user 4, run := fun _ _ _ _ _ m => (IB_OK, m) }

/-- A backend `connect` or `disconnect` that reports OK. -/
def noop_connect : ib_kvstore_connect_fn_t :=
  { sym := FnSym.user 5, run := fun _ _ m => (IB_OK, m) }

/-- A backend `remove` that reports OK. -/
def noop_remove : ib_kvstore_remove_fn_t :=
  { sym := FnSym.user 6, run := fun _ _ _ m => (IB_OK, m) }

/-- A backend `destroy` that holds no resource. -/
def noop_destroy : ib_kvstore_destroy_fn_t :=
  { sym := FnSym.user 7, run := fun _ _ m => m }

/-- A handle on which `ib_kvstore_init` has run and whose backend slots hold
the given `get` and otherwise the do-nothing callbacks. -/
def store_with (get : ib_kvstore_get_fn_t) : ib_kvstore_t :=
  (ib_kvstore_init
    { addr := 1,
      malloc := { sym := FnSym.user 0, run := fun _ _ _ m => (Ptr.null, m) },
      free := { sym := FnSym.user 0, run := fun _ _ _ _ => none },
      free_cbdata := 0,
      connect := noop_connect, connect_cbdata := 0,
      disconnect := noop_connect, disconnect_cbdata := 0,
      get := get, get_cbdata := 0,
      set := noop_set, set_cbdata := 0,
      remove := noop_remove, remove_cbdata := 0,
      default_merge_policy := { sym := FnSym.user 0, run := fun _ _ _ _ _ _ _ => none },
      merge_policy_cbdata := 0,
      destroy := noop_destroy, destroy_cbdata := 0 }).2

/-- The world before a call: the two stored versions, nothing logged. -/
def two_versions_world : World := { mem := two_versions_mem, log := [] }

/-- Every arena that is live in `m` is live in `m2` with the same blocks, and
the heap is the same. -/
def Preserves (m m2 : Mem) : Prop :=
  (∀ a bs, m.pool a = some bs → m2.pool a = some bs) ∧ m2.heap = m.heap

/-- A merge policy that builds a fresh value: a duplicate of the last
candidate. -/
def copy_last_policy : ib_kvstore_merge_policy_fn_t :=
  { sym := FnSym.user 8,
    run := fun _ _ values value_size resultant_value _ m =>
      match values.cells[value_size - 1]? with
      | none => none
      | some c => ib_kvstore_value_dup c resultant_value m }

/-- Memory after `copy_last_policy` has run on the two stored versions: a
third arena holds the copy of `"vv2"`. -/
def two_versions_copied_mem : Mem :=
  { pools := [stored_version 0 [118, 49] [116] 10 1, stored_version 1 [118, 118, 50] [116] 20 2,
              stored_version 2 [118, 118, 50] [116] 20 2],
    heap := [some []],
    allocs := [] }

/-- A backend `get` that finds one stored version, the value at arena 0,
under every key. -/
def one_version_get : ib_kvstore_get_fn_t :=
  { sym := FnSym.user 9,
    run := fun _ _ _ m => ((IB_OK, { ptr := Ptr.heap 0, cells := [Ptr.pool 0 0] }, 1), m) }

/-- Memory in which one version is stored whose payload is empty, and heap
buffer 0 is the candidate array. -/
def empty_payload_mem : Mem :=
  { pools := [stored_version 0 [] [116] 5 6], heap := [some []], allocs := [] }

/-- Memory of an empty store. -/
def empty_mem : Mem := { pools := [], heap := [], allocs := [] }

/-- Memory holding only the five bytes `"hello"`, in heap buffer 0. -/
def hello_heap : Mem :=
  { pools := [], heap := [some [104, 101, 108, 108, 111]], allocs := [] }

/-- Memory after a value has been created in `hello_heap` and its payload set
to the five bytes `"hello"`, no type set. -/
def hello_mem : Mem :=
  { pools := [some [Block.value
      { mp := some 0, value := Ptr.heap 0, value_length := 5, type := Ptr.empty_str,
        type_length := 0, expiration := 0, creation := 0 }]],
    heap := [some [104, 101, 108, 108, 111]],
    allocs := [] }

/-- The two stored versions in a memory whose next allocation attempt fails. -/
def two_versions_no_memory : World :=
  { mem := { two_versions_mem with allocs := [false] }, log := [] }

/-- Every scheduled allocation attempt succeeds. -/
def AllocOk (m : Mem) : Prop := ∀ b ∈ m.allocs, b = true

instance (m : Mem) : Decidable (AllocOk m) := by
  unfold AllocOk; infer_instance

/-- The value struct that a successful duplicate of `v` builds in the fresh
arena `L`. -/
def dup_struct (L : Nat) (v : ib_kvstore_value_t) : ib_kvstore_value_t :=
  { mp := some L, value := Ptr.pool L 1, value_length := v.value_length,
    type := Ptr.pool L 2, type_length := v.type_length,
    expiration := v.expiration, creation := v.creation }

/-- Memory after a successful duplicate: one more arena, holding the new
struct, the payload copy and the type copy. -/
def dup_mem (m : Mem) (v : ib_kvstore_value_t) (pb tb : List Nat) : Mem :=
  { pools := m.pools ++
      [some [Block.value (dup_struct m.pools.length v), Block.bytes pb, Block.bytes tb]],
    heap := m.heap,
    allocs := m.allocs.tail.tail.tail.tail }

/-- Memory after a duplicate that failed at allocation attempt `k` (0 the
arena, 1 the struct, 2 the payload copy, 3 the type copy): the arena, if it
was created, has been released again. -/
def dup_fail_mem (m : Mem) (k : Nat) : Mem :=
  { pools := if k = 0 then m.pools else m.pools ++ [none],
    heap := m.heap,
    allocs := m.allocs.drop (k + 1) }

/-- What a caller reads from a successful duplicate of `v`. -/
def dup_data (v : ib_kvstore_value_t) (pb tb : List Nat) : ValueData :=
  { payload := pb, value_length := v.value_length, type_bytes := tb,
    type_length := v.type_length, expiration := v.expiration, creation := v.creation }

/-- The outcome of the `i`-th coming allocation attempt, counting from 0. -/
def alloc_outcome (m : Mem) (i : Nat) : Bool := (m.allocs.drop i).headD true

/-- Memory holding `"hello"` in which the first allocation attempt succeeds
and the second fails. -/
def hello_heap_one_alloc : Mem := { hello_heap with allocs := [true, false] }

/-- The memory `hello_mem` in which the first two allocation attempts succeed
and the third, the payload copy of a duplicate, fails. -/
def hello_mem_two_allocs : Mem := { hello_mem with allocs := [true, true, false] }

/-- Memory `m2` differs from `m` at most in the value struct at `p`: every
other value struct, every byte buffer, the heap, the coming allocation
outcomes and the set of live arenas are the same. -/
def SameExceptValue (p : Ptr) (m m2 : Mem) : Prop :=
  (∀ q, q ≠ p → load_value m2 q = load_value m q) ∧
  (∀ q k, read_bytes m2 q k = read_bytes m q k) ∧
  m2.heap = m.heap ∧ m2.allocs = m.allocs ∧
  (∀ a, pool_live m2 a = pool_live m a)

/-- A merge policy that builds a fresh copy of the last candidate, writes it
to the output slot, and then reports the failure status 9. -/
def failing_copy_policy : ib_kvstore_merge_policy_fn_t :=
  { sym := FnSym.user 10,
    run := fun _ _ values value_size resultant_value _ m =>
      match values.cells[value_size - 1]? with
      | none => none
      | some c =>
        match ib_kvstore_value_dup c resultant_value m with
        | none => none
        | some (_, out, m2) => some (IB_EOTHER 9, out, m2) }

/-- A backend `connect` that reports the backend-defined status 3. -/
def refusing_connect : ib_kvstore_connect_fn_t :=
  { sym := FnSym.user 11, run := fun _ _ m => (IB_EOTHER 3, m) }

/-- A backend `destroy` that frees its context, the heap buffer whose
number is the context data, and nothing else. -/
def freeing_destroy : ib_kvstore_destroy_fn_t :=
  { sym := FnSym.user 12, run := fun _ cbdata m => { m with heap := m.heap.set cbdata none } }

/-- A program text: `refusing_connect` lies at 111, `noop_connect` at 105,
`noop_remove` at 106 and `freeing_destroy` at 112. -/
def backend_code : Code :=
  { connect := fun fp =>
      if fp = 111 then some refusing_connect
      else if fp = 105 then some noop_connect else none,
    remove := fun fp => if fp = 106 then some noop_remove else none,
    destroy := fun fp => if fp = 112 then some freeing_destroy else none }

/-- The words of a handle whose backend refuses the connection (context data
42), disconnects and removes without effect (context data 43 and 44), and
whose `destroy` frees the backend context, heap buffer 1. -/
def refusing_handle : List Nat :=
  [101, 102, 0, 111, 42, 105, 43, 107, 0, 104, 0, 106, 44, 103, 0, 112, 1]

/-- Memory holding the handle `refusing_handle` in heap buffer 0 and the
backend context in heap buffer 1. -/
def refusing_mem : Mem :=
  { pools := [], heap := [some refusing_handle, some [7, 7]], allocs := [] }

/-! ## Memory lemmas -/

theorem getElem?_snoc_new {α : Type} (P : List α) (x : α) : (P ++ [x])[P.length]? = some x := by
  simp

theorem set_snoc_new {α : Type} (P : List α) (x y : α) : (P ++ [x]).set P.length y = P ++ [y] := by
  simp

theorem pool_snoc_old (m : Mem) (x : Option (List Block)) (a : List Bool) (id : Nat)
    (bs : List Block) (h : m.pool id = some bs) :
    Mem.pool { pools := m.pools ++ [x], heap := m.heap, allocs := a } id = some bs := by
  unfold Mem.pool at h ⊢
  have hlt : id < m.pools.length := by
    by_contra hc
    rw [List.getElem?_eq_none (Nat.le_of_not_lt hc)] at h
    simp at h
  simp only [List.getElem?_append_left hlt]
  exact h

theorem pool_snoc_new (P : List (Option (List Block))) (x : Option (List Block)) (H : Heap)
    (a : List Bool) :
    Mem.pool { pools := P ++ [x], heap := H, allocs := a } P.length = x := by
  unfold Mem.pool
  simp only [getElem?_snoc_new]
  cases x <;> rfl

theorem load_value_snoc_old (m : Mem) (x : Option (List Block)) (a : List Bool) (p : Ptr)
    (v : ib_kvstore_value_t) (h : load_value m p = some v) :
    load_value { pools := m.pools ++ [x], heap := m.heap, allocs := a } p = some v := by
  cases p with
  | pool mp idx =>
    unfold load_value at h ⊢
    simp only at h ⊢
    cases hp : m.pool mp with
    | none => simp [hp] at h
    | some bs =>
      rw [pool_snoc_old m x a mp bs hp]
      simpa [hp] using h
  | _ => simp [load_value] at h

theorem read_bytes_snoc_old (m : Mem) (x : Option (List Block)) (a : List Bool) (p : Ptr)
    (n : Nat) (bs : List Nat) (h : read_bytes m p n = some bs) :
    read_bytes { pools := m.pools ++ [x], heap := m.heap, allocs := a } p n = some bs := by
  cases p with
  | pool mp idx =>
    unfold read_bytes at h ⊢
    simp only at h ⊢
    cases hp : m.pool mp with
    | none => simp [hp] at h
    | some blocks =>
      rw [pool_snoc_old m x a mp blocks hp]
      simpa [hp] using h
  | null => simp [read_bytes] at h
  | empty_str => simpa [read_bytes] using h
  | heap id => simpa [read_bytes] using h

theorem read_bytes_length (m : Mem) (p : Ptr) (n : Nat) (bs : List Nat)
    (h : read_bytes m p n = some bs) : bs.length = n := by
  cases p with
  | null => simp [read_bytes] at h
  | empty_str =>
    simp only [read_bytes] at h
    split at h
    · cases h; simp; omega
    · cases h
  | heap id =>
    simp only [read_bytes] at h
    split at h
    · split at h
      · cases h; simp; omega
      · cases h
    · cases h
  | pool mp idx =>
    simp only [read_bytes] at h
    split at h
    · split at h
      · split at h
        · cases h; simp; omega
        · cases h
      · cases h
    · cases h

theorem all_true_headD (l : List Bool) (h : ∀ b ∈ l, b = true) : l.headD true = true := by
  cases l with
  | nil => rfl
  | cons b bs => exact h b (List.mem_cons_self b bs)

theorem all_true_tail (l : List Bool) (h : ∀ b ∈ l, b = true) : ∀ b ∈ l.tail, b = true :=
  fun b hb => h b (List.mem_of_mem_tail hb)

theorem take_alloc_eq (m : Mem) (b : Bool) (h : m.allocs.headD true = b) :
    m.take_alloc = (b, { pools := m.pools, heap := m.heap, allocs := m.allocs.tail }) := by
  unfold Mem.take_alloc
  rw [h]

theorem mpool_lite_create_ok (m : Mem) (h0 : m.allocs.headD true = true) :
    ib_mpool_lite_create m = (IB_OK, m.pools.length,
      { pools := m.pools ++ [some []], heap := m.heap, allocs := m.allocs.tail }) := by
  unfold ib_mpool_lite_create
  rw [take_alloc_eq m true h0]
  rfl

theorem mpool_lite_create_fail (m : Mem) (h0 : m.allocs.headD true = false) :
    ib_mpool_lite_create m = (IB_EALLOC, 0,
      { pools := m.pools, heap := m.heap, allocs := m.allocs.tail }) := by
  unfold ib_mpool_lite_create
  rw [take_alloc_eq m false h0]
  rfl

theorem mm_calloc_ok (m : Mem) (mm : Nat) (blocks : List Block)
    (h0 : m.allocs.headD true = true) (hp : m.pool mm = some blocks) :
    ib_mm_calloc mm m = some (Ptr.pool mm blocks.length,
      { pools := m.pools.set mm (some (blocks ++ [Block.value zero_value])),
        heap := m.heap, allocs := m.allocs.tail }) := by
  unfold ib_mm_calloc
  rw [hp, take_alloc_eq m true h0]
  rfl

theorem mm_calloc_fail (m : Mem) (mm : Nat) (blocks : List Block)
    (h0 : m.allocs.headD true = false) (hp : m.pool mm = some blocks) :
    ib_mm_calloc mm m = some (Ptr.null,
      { pools := m.pools, heap := m.heap, allocs := m.allocs.tail }) := by
  unfold ib_mm_calloc
  rw [hp, take_alloc_eq m false h0]
  rfl

theorem mm_memdup_ok (m : Mem) (mm : Nat) (blocks : List Block) (src : Ptr) (size : Nat)
    (bs : List Nat) (h0 : m.allocs.headD true = true) (hp : m.pool mm = some blocks)
    (hr : read_bytes m src size = some bs) :
    ib_mm_memdup mm src size m = some (Ptr.pool mm blocks.length,
      { pools := m.pools.set mm (some (blocks ++ [Block.bytes bs])),
        heap := m.heap, allocs := m.allocs.tail }) := by
  unfold ib_mm_memdup
  rw [hp, take_alloc_eq m true h0]
  simp only [hr, if_true]

theorem mm_memdup_fail (m : Mem) (mm : Nat) (blocks : List Block) (src : Ptr) (size : Nat)
    (h0 : m.allocs.headD true = false) (hp : m.pool mm = some blocks) :
    ib_mm_memdup mm src size m = some (Ptr.null,
      { pools := m.pools, heap := m.heap, allocs := m.allocs.tail }) := by
  unfold ib_mm_memdup
  rw [hp, take_alloc_eq m false h0]
  rfl

theorem create_ok (m : Mem) (slot : Ptr) (h0 : m.allocs.headD true = true)
    (h1 : m.allocs.tail.headD true = true) :
    ib_kvstore_value_create slot m = some (IB_OK, Ptr.pool m.pools.length 0,
      { pools := m.pools ++ [some [Block.value
          { mp := some m.pools.length, value := Ptr.empty_str, value_length := 0,
            type := Ptr.empty_str, type_length := 0, expiration := 0, creation := 0 }]],
        heap := m.heap, allocs := m.allocs.tail.tail }) := by
  unfold ib_kvstore_value_create
  rw [mpool_lite_create_ok m h0]
  simp only [ib_mm_mpool_lite, ne_eq, not_true_eq_false, if_false]
  rw [mm_calloc_ok { pools := m.pools ++ [some []], heap := m.heap, allocs := m.allocs.tail }
    m.pools.length [] h1 (pool_snoc_new _ _ _ _)]
  simp [store_value, pool_snoc_new, set_snoc_new, Mem.pool]

theorem create_fail0 (m : Mem) (slot : Ptr) (h0 : m.allocs.headD true = false) :
    ib_kvstore_value_create slot m = some (IB_EALLOC, slot,
      { pools := m.pools, heap := m.heap, allocs := m.allocs.tail }) := by
  unfold ib_kvstore_value_create
  rw [mpool_lite_create_fail m h0]
  simp

theorem create_fail1 (m : Mem) (slot : Ptr) (h0 : m.allocs.headD true = true)
    (h1 : m.allocs.tail.headD true = false) :
    ib_kvstore_value_create slot m = some (IB_EALLOC, slot,
      { pools := m.pools ++ [none], heap := m.heap, allocs := m.allocs.tail.tail }) := by
  unfold ib_kvstore_value_create
  rw [mpool_lite_create_ok m h0]
  simp only [ib_mm_mpool_lite, ne_eq, not_true_eq_false, if_false]
  rw [mm_calloc_fail { pools := m.pools ++ [some []], heap := m.heap, allocs := m.allocs.tail }
    m.pools.length [] h1 (pool_snoc_new _ _ _ _)]
  simp [ib_mpool_lite_destroy, pool_snoc_new, set_snoc_new]

theorem load_value_snoc_new (P : List (Option (List Block))) (v : ib_kvstore_value_t)
    (rest : List Block) (H : Heap) (a : List Bool) :
    load_value { pools := P ++ [some (Block.value v :: rest)], heap := H, allocs := a }
      (Ptr.pool P.length 0) = some v := by
  simp [load_value, pool_snoc_new]

theorem modify_value_snoc_new (P : List (Option (List Block))) (v : ib_kvstore_value_t)
    (f : ib_kvstore_value_t → ib_kvstore_value_t) (rest : List Block) (H : Heap)
    (a : List Bool) :
    modify_value (Ptr.pool P.length 0) f
      { pools := P ++ [some (Block.value v :: rest)], heap := H, allocs := a } =
    some { pools := P ++ [some (Block.value (f v) :: rest)], heap := H, allocs := a } := by
  simp [modify_value, load_value_snoc_new, store_value, pool_snoc_new, set_snoc_new]

theorem destroy_snoc_new (P : List (Option (List Block))) (v : ib_kvstore_value_t)
    (rest : List Block) (H : Heap) (a : List Bool) (hmp : v.mp = some P.length) :
    ib_kvstore_value_destroy (Ptr.pool P.length 0)
      { pools := P ++ [some (Block.value v :: rest)], heap := H, allocs := a } =
    some { pools := P ++ [none], heap := H, allocs := a } := by
  simp [ib_kvstore_value_destroy, load_value_snoc_new, hmp, ib_mpool_lite_destroy,
    pool_snoc_new, set_snoc_new]

theorem mm_memdup_snoc_new (P : List (Option (List Block))) (blocks : List Block) (H : Heap)
    (a : List Bool) (src : Ptr) (size : Nat) (bs : List Nat)
    (h0 : a.headD true = true)
    (hr : read_bytes { pools := P ++ [some blocks], heap := H, allocs := a } src size = some bs) :
    ib_mm_memdup P.length src size { pools := P ++ [some blocks], heap := H, allocs := a } =
    some (Ptr.pool P.length blocks.length,
      { pools := P ++ [some (blocks ++ [Block.bytes bs])], heap := H, allocs := a.tail }) := by
  rw [mm_memdup_ok _ P.length blocks src size bs h0 (pool_snoc_new _ _ _ _) hr]
  simp [set_snoc_new]

theorem mm_memdup_snoc_fail (P : List (Option (List Block))) (blocks : List Block) (H : Heap)
    (a : List Bool) (src : Ptr) (size : Nat) (h0 : a.headD true = false) :
    ib_mm_memdup P.length src size { pools := P ++ [some blocks], heap := H, allocs := a } =
    some (Ptr.null, { pools := P ++ [some blocks], heap := H, allocs := a.tail }) :=
  mm_memdup_fail _ P.length blocks src size h0 (pool_snoc_new _ _ _ _)

theorem dup_ok4 (m : Mem) (src slot : Ptr) (v : ib_kvstore_value_t) (pb tb : List Nat)
    (h0 : m.allocs.headD true = true) (h1 : m.allocs.tail.headD true = true)
    (h2 : m.allocs.tail.tail.headD true = true)
    (h3 : m.allocs.tail.tail.tail.headD true = true)
    (hv : load_value m src = some v)
    (hp : read_bytes m v.value v.value_length = some pb)
    (ht : read_bytes m v.type v.type_length = some tb) :
    ib_kvstore_value_dup src slot m =
      some (IB_OK, Ptr.pool m.pools.length 0, dup_mem m v pb tb) := by
  have hsrc : src ≠ Ptr.null := by
    intro h; rw [h] at hv; simp [load_value] at hv
  unfold ib_kvstore_value_dup
  rw [if_neg hsrc, create_ok m Ptr.null h0 h1]
  simp only [ne_eq, not_true_eq_false, if_false, ib_kvstore_value_mm, load_value_snoc_new,
    ib_mm_mpool_lite]
  rw [load_value_snoc_old m _ _ src v hv]
  simp only
  rw [mm_memdup_snoc_new m.pools _ m.heap _ v.value v.value_length pb
    h2 (read_bytes_snoc_old m _ _ _ _ _ hp)]
  simp only [List.cons_append, List.nil_append, modify_value_snoc_new, List.length_singleton,
    reduceCtorEq, if_false]
  rw [load_value_snoc_old m _ _ src v hv]
  simp only
  rw [mm_memdup_snoc_new m.pools _ m.heap _ v.type v.type_length tb
    h3 (read_bytes_snoc_old m _ _ _ _ _ ht)]
  simp only [modify_value_snoc_new, List.length_cons, List.length_singleton, List.length_nil,
    reduceCtorEq, if_false, List.cons_append, List.nil_append]
  rw [load_value_snoc_old m _ _ src v hv]
  simp only [modify_value_snoc_new]
  rfl

theorem dup_ok (m : Mem) (src slot : Ptr) (v : ib_kvstore_value_t) (pb tb : List Nat)
    (hA : AllocOk m) (hv : load_value m src = some v)
    (hp : read_bytes m v.value v.value_length = some pb)
    (ht : read_bytes m v.type v.type_length = some tb) :
    ib_kvstore_value_dup src slot m =
      some (IB_OK, Ptr.pool m.pools.length 0, dup_mem m v pb tb) := by
  unfold AllocOk at hA
  have t1 := all_true_tail _ hA
  have t2 := all_true_tail _ t1
  have t3 := all_true_tail _ t2
  exact dup_ok4 m src slot v pb tb (all_true_headD _ hA) (all_true_headD _ t1)
    (all_true_headD _ t2) (all_true_headD _ t3) hv hp ht

theorem tail_tail_eq_drop (l : List Bool) : l.tail.tail = l.drop 2 := by
  cases l with
  | nil => rfl
  | cons a l => cases l <;> rfl

theorem tail_tail_tail_eq_drop (l : List Bool) : l.tail.tail.tail = l.drop 3 := by
  cases l with
  | nil => rfl
  | cons a l =>
    cases l with
    | nil => rfl
    | cons b l => cases l <;> rfl

theorem tail4_eq_drop (l : List Bool) : l.tail.tail.tail.tail = l.drop 4 := by
  rw [tail_tail_tail_eq_drop]
  cases l with
  | nil => rfl
  | cons a l =>
    cases l with
    | nil => rfl
    | cons b l =>
      cases l with
      | nil => rfl
      | cons c l => cases l <;> rfl

theorem dup_fail0 (m : Mem) (src slot : Ptr) (hsrc : src ≠ Ptr.null)
    (h0 : m.allocs.headD true = false) :
    ib_kvstore_value_dup src slot m = some (IB_EALLOC, slot, dup_fail_mem m 0) := by
  unfold ib_kvstore_value_dup
  rw [if_neg hsrc, create_fail0 m Ptr.null h0]
  simp [dup_fail_mem]

theorem dup_fail1 (m : Mem) (src slot : Ptr) (hsrc : src ≠ Ptr.null)
    (h0 : m.allocs.headD true = true) (h1 : m.allocs.tail.headD true = false) :
    ib_kvstore_value_dup src slot m = some (IB_EALLOC, slot, dup_fail_mem m 1) := by
  unfold ib_kvstore_value_dup
  rw [if_neg hsrc, create_fail1 m Ptr.null h0 h1]
  simp [dup_fail_mem, tail_tail_eq_drop]

theorem dup_fail2 (m : Mem) (src slot : Ptr) (v : ib_kvstore_value_t)
    (h0 : m.allocs.headD true = true) (h1 : m.allocs.tail.headD true = true)
    (h2 : m.allocs.tail.tail.headD true = false)
    (hv : load_value m src = some v) :
    ib_kvstore_value_dup src slot m = some (IB_EALLOC, slot, dup_fail_mem m 2) := by
  have hsrc : src ≠ Ptr.null := by
    intro h; rw [h] at hv; simp [load_value] at hv
  unfold ib_kvstore_value_dup
  rw [if_neg hsrc, create_ok m Ptr.null h0 h1]
  simp only [ne_eq, not_true_eq_false, if_false, ib_kvstore_value_mm, load_value_snoc_new,
    ib_mm_mpool_lite]
  rw [load_value_snoc_old m _ _ src v hv]
  simp only
  rw [mm_memdup_snoc_fail m.pools _ m.heap _ v.value v.value_length h2]
  simp only [modify_value_snoc_new, if_true]
  rw [destroy_snoc_new _ _ _ _ _ rfl]
  simp [dup_fail_mem, tail_tail_tail_eq_drop]

theorem dup_fail3 (m : Mem) (src slot : Ptr) (v : ib_kvstore_value_t) (pb : List Nat)
    (h0 : m.allocs.headD true = true) (h1 : m.allocs.tail.headD true = true)
    (h2 : m.allocs.tail.tail.headD true = true)
    (h3 : m.allocs.tail.tail.tail.headD true = false)
    (hv : load_value m src = some v)
    (hp : read_bytes m v.value v.value_length = some pb) :
    ib_kvstore_value_dup src slot m = some (IB_EALLOC, slot, dup_fail_mem m 3) := by
  have hsrc : src ≠ Ptr.null := by
    intro h; rw [h] at hv; simp [load_value] at hv
  unfold ib_kvstore_value_dup
  rw [if_neg hsrc, create_ok m Ptr.null h0 h1]
  simp only [ne_eq, not_true_eq_false, if_false, ib_kvstore_value_mm, load_value_snoc_new,
    ib_mm_mpool_lite]
  rw [load_value_snoc_old m _ _ src v hv]
  simp only
  rw [mm_memdup_snoc_new m.pools _ m.heap _ v.value v.value_length pb
    h2 (read_bytes_snoc_old m _ _ _ _ _ hp)]
  simp only [List.cons_append, List.nil_append, modify_value_snoc_new, List.length_singleton,
    reduceCtorEq, if_false]
  rw [load_value_snoc_old m _ _ src v hv]
  simp only
  rw [mm_memdup_snoc_fail m.pools _ m.heap _ v.type v.type_length h3]
  simp only [modify_value_snoc_new, if_true]
  rw [destroy_snoc_new _ _ _ _ _ rfl]
  simp [dup_fail_mem, tail4_eq_drop]

theorem owned_arena_spec (m : Mem) (c : Ptr) (a : Nat) (h : owned_arena m c = some a) :
    ∃ idx v bs, c = Ptr.pool a idx ∧ m.pool a = some bs ∧ load_value m c = some v ∧
      v.mp = some a := by
  cases c with
  | pool id idx =>
    simp only [owned_arena] at h
    cases hv : load_value m (Ptr.pool id idx) with
    | none => simp [hv] at h
    | some v =>
      simp only [hv] at h
      split at h
      · rename_i hmp
        have ha : id = a := by simpa using h
        subst ha
        cases hp : m.pool id with
        | none => simp [load_value, hp] at hv
        | some bs => exact ⟨idx, v, bs, rfl, rfl, rfl, hmp⟩
      · cases h
  | _ => simp [owned_arena] at h

theorem pool_set_ne (m : Mem) (a b : Nat) (x : Option (List Block)) (H : Heap)
    (al : List Bool) (hab : a ≠ b) :
    Mem.pool { pools := m.pools.set a x, heap := H, allocs := al } b = m.pool b := by
  unfold Mem.pool
  simp only [List.getElem?_set_ne hab]

theorem pool_set_self_none (m : Mem) (a : Nat) (H : Heap) (al : List Bool) :
    Mem.pool { pools := m.pools.set a none, heap := H, allocs := al } a = none := by
  unfold Mem.pool
  by_cases h : a < m.pools.length
  · simp [List.getElem?_set_self h]
  · rw [List.getElem?_eq_none (by simpa using h)]

theorem load_value_congr (m m2 : Mem) (b i : Nat) (h : m2.pool b = m.pool b) :
    load_value m2 (Ptr.pool b i) = load_value m (Ptr.pool b i) := by
  simp only [load_value, h]

theorem owned_arena_congr (m m2 : Mem) (c : Ptr) (a : Nat) (ho : owned_arena m c = some a)
    (h : m2.pool a = m.pool a) : owned_arena m2 c = some a := by
  obtain ⟨idx, v, bs, rfl, _, hv, hmp⟩ := owned_arena_spec m c a ho
  simp only [owned_arena, load_value_congr m m2 a idx h, hv, hmp, if_true]

theorem destroy_owned (m : Mem) (c : Ptr) (a : Nat) (ho : owned_arena m c = some a) :
    ib_kvstore_value_destroy c m =
      some { pools := m.pools.set a none, heap := m.heap, allocs := m.allocs } := by
  obtain ⟨idx, v, bs, rfl, hp, hv, hmp⟩ := owned_arena_spec m c a ho
  simp only [ib_kvstore_value_destroy, hv, hmp, ib_mpool_lite_destroy, hp]

theorem owned_arena_after_destroy (m : Mem) (c : Ptr) (cs : List Ptr) (a : Nat)
    (hc : Candidates m (c :: cs)) (ha : owned_arena m c = some a) :
    ∀ p ∈ cs, owned_arena { pools := m.pools.set a none, heap := m.heap, allocs := m.allocs } p =
      owned_arena m p := by
  intro p hp
  obtain ⟨hall, hnd⟩ := hc
  have hne : owned_arena m p ≠ none := hall p (List.mem_cons_of_mem c hp)
  obtain ⟨b, hb⟩ := Option.ne_none_iff_exists'.mp hne
  have hab : a ≠ b := by
    intro hab
    subst hab
    simp only [List.map_cons, List.nodup_cons, List.mem_map] at hnd
    exact hnd.1 ⟨p, hp, by rw [hb, ha]⟩
  rw [hb]
  exact owned_arena_congr m _ p b hb (pool_set_ne m a b none m.heap m.allocs hab)

theorem candidates_after_destroy (m : Mem) (c : Ptr) (cs : List Ptr) (a : Nat)
    (hc : Candidates m (c :: cs)) (ha : owned_arena m c = some a) :
    Candidates { pools := m.pools.set a none, heap := m.heap, allocs := m.allocs } cs ∧
    arenas_of { pools := m.pools.set a none, heap := m.heap, allocs := m.allocs } cs =
      arenas_of m cs := by
  have hfr := owned_arena_after_destroy m c cs a hc ha
  have hmap : cs.map (owned_arena
      { pools := m.pools.set a none, heap := m.heap, allocs := m.allocs }) =
      cs.map (owned_arena m) := List.map_congr_left hfr
  refine ⟨⟨?_, ?_⟩, ?_⟩
  · intro p hp
    rw [hfr p hp]
    exact hc.1 p (List.mem_cons_of_mem c hp)
  · rw [hmap]
    exact (List.nodup_cons.mp hc.2).2
  · unfold arenas_of
    exact List.filterMap_congr hfr

theorem release_nil (m : Mem) : release [] m = m := rfl

theorem release_cons (a : Nat) (ids : List Nat) (m : Mem) :
    release (a :: ids) m =
      release ids { pools := m.pools.set a none, heap := m.heap, allocs := m.allocs } := rfl

theorem destroy_values_ok (ptr : Ptr) (hptr : ptr ≠ Ptr.null) :
    ∀ (cs pre : List Ptr) (merged : Ptr) (w : World), Candidates w.mem cs →
      destroy_values { ptr := ptr, cells := pre ++ cs } cs.length pre.length merged w =
        some (if merged ∈ cs then Ptr.null else merged,
          { mem := release (arenas_of w.mem cs) w.mem,
            log := w.log ++ cs.map Event.value_destroy }) := by
  intro cs
  induction cs with
  | nil =>
    intro pre merged w _
    simp [destroy_values, arenas_of, release_nil]
  | cons c cs ih =>
    intro pre merged w hc
    have hne : owned_arena w.mem c ≠ none := hc.1 c (List.mem_cons_self c cs)
    obtain ⟨a, ha⟩ := Option.ne_none_iff_exists'.mp hne
    obtain ⟨hc2, har⟩ := candidates_after_destroy w.mem c cs a hc ha
    have hcell : (pre ++ c :: cs)[pre.length]? = some c := by
      rw [List.getElem?_append_right (Nat.le_refl _)]
      simp
    have hpre : pre ++ c :: cs = (pre ++ [c]) ++ cs := by simp
    have hlen : pre.length + 1 = (pre ++ [c]).length := by simp
    simp only [List.length_cons, destroy_values, if_neg hptr, hcell, destroy_owned w.mem c a ha]
    rw [hpre, hlen, ih (pre ++ [c]) _ _ hc2]
    simp only [har]
    have hars : arenas_of w.mem (c :: cs) = a :: arenas_of w.mem cs := by
      simp [arenas_of, List.filterMap_cons, ha]
    rw [hars, release_cons]
    congr 2
    · by_cases hm : merged = c
      · subst hm; simp
      · simp [hm]
    · simp

theorem release_heap (ids : List Nat) (m : Mem) : (release ids m).heap = m.heap := rfl

theorem release_allocs (ids : List Nat) (m : Mem) : (release ids m).allocs = m.allocs := rfl

theorem release_pool_of_not_mem (ids : List Nat) : ∀ (m : Mem) (a : Nat), a ∉ ids →
    (release ids m).pool a = m.pool a := by
  induction ids with
  | nil => intro m a _; rfl
  | cons b ids ih =>
    intro m a ha
    rw [release_cons, ih _ a (fun h => ha (List.mem_cons_of_mem b h))]
    exact pool_set_ne m b a none m.heap m.allocs (fun h => ha (h ▸ List.mem_cons_self b ids))

theorem release_pool_of_mem (ids : List Nat) : ∀ (m : Mem) (a : Nat), a ∈ ids →
    (release ids m).pool a = none := by
  induction ids with
  | nil => intro m a ha; cases ha
  | cons b ids ih =>
    intro m a ha
    rw [release_cons]
    by_cases hin : a ∈ ids
    · exact ih _ a hin
    · rw [release_pool_of_not_mem ids _ a hin]
      have hab : a = b := by
        rcases List.mem_cons.mp ha with h | h
        · exact h
        · exact absurd h hin
      subst hab
      exact pool_set_self_none m a m.heap m.allocs

theorem pool_heap_irrel (m : Mem) (h : Heap) (al : List Bool) (a : Nat) :
    Mem.pool { pools := m.pools, heap := h, allocs := al } a = m.pool a := rfl

theorem exit_get_ok (kvstore : ib_kvstore_t) (values : ValueArray) (merged_value : Ptr)
    (rc : ib_status_t) (val : Ptr) (w : World) (h : Heap)
    (hptr : values.ptr ≠ Ptr.null) (hc : Candidates w.mem values.cells)
    (hfree : kvstore.free.run kvstore.addr values.ptr kvstore.free_cbdata w.mem.heap = some h)
    (hm : merged_value = Ptr.null ∨ merged_value ∈ values.cells ∨
      ∃ a, owned_arena w.mem merged_value = some a ∧ a ∉ arenas_of w.mem values.cells) :
    exit_get kvstore values values.cells.length merged_value rc val w =
      some (rc, val, { mem := exit_mem w.mem values merged_value h,
                       log := w.log ++ exit_events kvstore values merged_value }) := by
  have hloop := destroy_values_ok values.ptr hptr values.cells [] merged_value w hc
  simp only [List.nil_append, List.length_nil] at hloop
  unfold exit_get
  rw [hloop]
  simp only [ne_eq, hptr, not_false_eq_true, if_true, release_heap, hfree]
  by_cases hin : merged_value ∈ values.cells
  · simp [hin, exit_mem, exit_events, residual, arenas_of, release_nil, release_allocs]
  · by_cases hnull : merged_value = Ptr.null
    · simp [hnull, exit_mem, exit_events, residual, arenas_of, release_nil, release_allocs]
    · rcases hm with hm | hm | ⟨a, ha, hnot⟩
      · exact absurd hm hnull
      · exact absurd hm hin
      · have ho : owned_arena
            { pools := (release (arenas_of w.mem values.cells) w.mem).pools, heap := h,
              allocs := (release (arenas_of w.mem values.cells) w.mem).allocs }
            merged_value = some a :=
          owned_arena_congr w.mem _ merged_value a ha
            (release_pool_of_not_mem _ w.mem a hnot)
        have hres : residual merged_value values.cells = [merged_value] := by
          simp [residual, hin, hnull]
        simp only [if_neg hin, hnull, if_true, not_false_eq_true]
        rw [destroy_owned _ merged_value a ho]
        simp only [exit_mem, exit_events, hres, arenas_of,
          List.filterMap_cons, ha, List.filterMap_nil, release_cons, release_nil,
          List.map_cons, List.map_nil, List.append_assoc, release_allocs]

theorem pool_lt_length (m : Mem) (a : Nat) (bs : List Block) (h : m.pool a = some bs) :
    a < m.pools.length := by
  unfold Mem.pool at h
  by_contra hc
  rw [List.getElem?_eq_none (Nat.le_of_not_lt hc)] at h
  simp at h

theorem owned_arena_lt (m : Mem) (c : Ptr) (a : Nat) (h : owned_arena m c = some a) :
    a < m.pools.length := by
  obtain ⟨_, _, bs, _, hp, _⟩ := owned_arena_spec m c a h
  exact pool_lt_length m a bs hp

theorem arenas_of_lt (m : Mem) (cs : List Ptr) (a : Nat) (h : a ∈ arenas_of m cs) :
    a < m.pools.length := by
  unfold arenas_of at h
  obtain ⟨c, _, hc⟩ := List.mem_filterMap.mp h
  exact owned_arena_lt m c a hc

theorem owned_arena_dup_mem (m : Mem) (v : ib_kvstore_value_t) (pb tb : List Nat) (c : Ptr)
    (a : Nat) (h : owned_arena m c = some a) :
    owned_arena (dup_mem m v pb tb) c = some a := by
  obtain ⟨_, _, bs, _, hp, _⟩ := owned_arena_spec m c a h
  refine owned_arena_congr m _ c a h ?_
  rw [hp]
  exact pool_snoc_old m _ _ a bs hp

theorem candidates_dup_mem (m : Mem) (v : ib_kvstore_value_t) (pb tb : List Nat)
    (cs : List Ptr) (hc : Candidates m cs) :
    Candidates (dup_mem m v pb tb) cs ∧ arenas_of (dup_mem m v pb tb) cs = arenas_of m cs := by
  have hfr : ∀ p ∈ cs, owned_arena (dup_mem m v pb tb) p = owned_arena m p := by
    intro p hp
    obtain ⟨a, ha⟩ := Option.ne_none_iff_exists'.mp (hc.1 p hp)
    rw [ha]
    exact owned_arena_dup_mem m v pb tb p a ha
  refine ⟨⟨?_, ?_⟩, List.filterMap_congr hfr⟩
  · intro p hp
    rw [hfr p hp]
    exact hc.1 p hp
  · rw [List.map_congr_left hfr]
    exact hc.2

theorem value_data_of_pool (m : Mem) (L : Nat) (v : ib_kvstore_value_t) (pb tb : List Nat)
    (hp : m.pool L = some [Block.value (dup_struct L v), Block.bytes pb, Block.bytes tb])
    (hpb : pb.length = v.value_length) (htb : tb.length = v.type_length) :
    value_data m (Ptr.pool L 0) = some (dup_data v pb tb) := by
  have r1 : read_bytes m (Ptr.pool L 1) v.value_length = some pb := by
    simp only [read_bytes, hp]
    rw [← hpb]
    simp
  have r2 : read_bytes m (Ptr.pool L 2) v.type_length = some tb := by
    simp only [read_bytes, hp]
    rw [← htb]
    simp
  have r0 : load_value m (Ptr.pool L 0) = some (dup_struct L v) := by
    simp [load_value, hp]
  simp only [value_data, r0, dup_struct, r1, r2, dup_data]

theorem value_data_src (m : Mem) (src : Ptr) (v : ib_kvstore_value_t) (pb tb : List Nat)
    (hv : load_value m src = some v)
    (hp : read_bytes m v.value v.value_length = some pb)
    (ht : read_bytes m v.type v.type_length = some tb) :
    value_data m src = some (dup_data v pb tb) := by
  simp [value_data, hv, hp, ht, dup_data]

theorem value_data_inv (m : Mem) (src : Ptr) (d : ValueData) (h : value_data m src = some d) :
    ∃ v pb tb, load_value m src = some v ∧ read_bytes m v.value v.value_length = some pb ∧
      read_bytes m v.type v.type_length = some tb ∧ d = dup_data v pb tb := by
  unfold value_data at h
  cases hv : load_value m src with
  | none => simp [hv] at h
  | some v =>
    simp only [hv] at h
    cases hp : read_bytes m v.value v.value_length with
    | none => simp [hp] at h
    | some pb =>
      cases ht : read_bytes m v.type v.type_length with
      | none => simp [hp, ht] at h
      | some tb =>
        simp only [hp, ht, Option.some.injEq] at h
        exact ⟨v, pb, tb, rfl, hp, ht, h.symm⟩

theorem dup_mem_pool_new (m : Mem) (v : ib_kvstore_value_t) (pb tb : List Nat) :
    (dup_mem m v pb tb).pool m.pools.length =
      some [Block.value (dup_struct m.pools.length v), Block.bytes pb, Block.bytes tb] :=
  pool_snoc_new _ _ _ _

theorem exit_mem_pool_of_not_mem (m : Mem) (values : ValueArray) (merged_value : Ptr)
    (h : Heap) (a : Nat) (h1 : a ∉ arenas_of m values.cells)
    (h2 : a ∉ arenas_of m (residual merged_value values.cells)) :
    (exit_mem m values merged_value h).pool a = m.pool a := by
  have e1 := release_pool_of_not_mem (arenas_of m (residual merged_value values.cells))
    (release (arenas_of m values.cells) m) a h2
  have e2 := release_pool_of_not_mem (arenas_of m values.cells) m a h1
  rw [← e2, ← e1]
  rfl

theorem exit_mem_pool_of_mem (m : Mem) (values : ValueArray) (merged_value : Ptr)
    (h : Heap) (a : Nat)
    (h1 : a ∈ arenas_of m values.cells ∨ a ∈ arenas_of m (residual merged_value values.cells)) :
    (exit_mem m values merged_value h).pool a = none := by
  have key : (release (arenas_of m (residual merged_value values.cells))
      (release (arenas_of m values.cells) m)).pool a = none := by
    by_cases h2 : a ∈ arenas_of m (residual merged_value values.cells)
    · exact release_pool_of_mem _ _ a h2
    · rw [release_pool_of_not_mem _ _ a h2]
      rcases h1 with h1 | h1
      · exact release_pool_of_mem _ _ a h1
      · exact absurd h1 h2
  rw [← key]
  rfl

theorem preserves_refl (m : Mem) : Preserves m m := ⟨fun _ _ h => h, rfl⟩

theorem preserves_dup_mem (m : Mem) (v : ib_kvstore_value_t) (pb tb : List Nat) :
    Preserves m (dup_mem m v pb tb) :=
  ⟨fun a bs h => pool_snoc_old m _ _ a bs h, rfl⟩

theorem preserves_dup_fail_mem (m : Mem) (k : Nat) : Preserves m (dup_fail_mem m k) := by
  refine ⟨fun a bs h => ?_, rfl⟩
  unfold dup_fail_mem
  split
  · exact h
  · exact pool_snoc_old m _ _ a bs h

theorem owned_arena_preserved (m m2 : Mem) (hpr : Preserves m m2) (c : Ptr) (a : Nat)
    (h : owned_arena m c = some a) : owned_arena m2 c = some a := by
  obtain ⟨_, _, bs, _, hp, _⟩ := owned_arena_spec m c a h
  refine owned_arena_congr m _ c a h ?_
  rw [hp]
  exact hpr.1 a bs hp

theorem candidates_preserved (m m2 : Mem) (hpr : Preserves m m2) (cs : List Ptr)
    (hc : Candidates m cs) :
    Candidates m2 cs ∧ arenas_of m2 cs = arenas_of m cs := by
  have hfr : ∀ p ∈ cs, owned_arena m2 p = owned_arena m p := by
    intro p hp
    obtain ⟨a, ha⟩ := Option.ne_none_iff_exists'.mp (hc.1 p hp)
    rw [ha]
    exact owned_arena_preserved m m2 hpr p a ha
  refine ⟨⟨?_, ?_⟩, List.filterMap_congr hfr⟩
  · intro p hp
    rw [hfr p hp]
    exact hc.1 p hp
  · rw [List.map_congr_left hfr]
    exact hc.2

theorem dup_total (m : Mem) (src slot : Ptr) (v : ib_kvstore_value_t) (pb tb : List Nat)
    (hv : load_value m src = some v)
    (hp : read_bytes m v.value v.value_length = some pb)
    (ht : read_bytes m v.type v.type_length = some tb) :
    ∃ rc out m2, ib_kvstore_value_dup src slot m = some (rc, out, m2) ∧ Preserves m m2 ∧
      ((rc = IB_OK ∧ out = Ptr.pool m.pools.length 0 ∧ m2 = dup_mem m v pb tb) ∨
       (rc = IB_EALLOC ∧ out = slot ∧ ∃ k, k ≤ 3 ∧ m2 = dup_fail_mem m k)) := by
  have hsrc : src ≠ Ptr.null := by
    intro h; rw [h] at hv; simp [load_value] at hv
  cases h0 : m.allocs.headD true with
  | false =>
    exact ⟨_, _, _, dup_fail0 m src slot hsrc h0, preserves_dup_fail_mem m 0,
      Or.inr ⟨rfl, rfl, 0, by omega, rfl⟩⟩
  | true =>
    cases h1 : m.allocs.tail.headD true with
    | false =>
      exact ⟨_, _, _, dup_fail1 m src slot hsrc h0 h1, preserves_dup_fail_mem m 1,
        Or.inr ⟨rfl, rfl, 1, by omega, rfl⟩⟩
    | true =>
      cases h2 : m.allocs.tail.tail.headD true with
      | false =>
        exact ⟨_, _, _, dup_fail2 m src slot v h0 h1 h2 hv, preserves_dup_fail_mem m 2,
          Or.inr ⟨rfl, rfl, 2, by omega, rfl⟩⟩
      | true =>
        cases h3 : m.allocs.tail.tail.tail.headD true with
        | false =>
          exact ⟨_, _, _, dup_fail3 m src slot v pb h0 h1 h2 h3 hv hp,
            preserves_dup_fail_mem m 3, Or.inr ⟨rfl, rfl, 3, by omega, rfl⟩⟩
        | true =>
          exact ⟨_, _, _, dup_ok4 m src slot v pb tb h0 h1 h2 h3 hv hp ht,
            preserves_dup_mem m v pb tb, Or.inl ⟨rfl, rfl, rfl⟩⟩

/-! ## The paths of `ib_kvstore_get` -/

theorem get_policy_eq (kvstore : ib_kvstore_t)
    (override : Option ib_kvstore_merge_policy_fn_t) :
    (match override with
      | none => kvstore.default_merge_policy
      | some f => f) = effective_merge_policy kvstore override := by
  cases override <;> rfl

theorem get_backend_error (kvstore : ib_kvstore_t)
    (override : Option ib_kvstore_merge_policy_fn_t) (key : ib_kvstore_key_t) (val : Ptr)
    (w : World) (rc : ib_status_t) (values : ValueArray) (n : Nat) (m0 : Mem)
    (hget : kvstore.get.run kvstore.addr key kvstore.get_cbdata w.mem = ((rc, values, n), m0))
    (hrc : rc ≠ IB_OK) :
    ib_kvstore_get kvstore override key val w =
      some (rc, Ptr.null, { mem := m0, log := w.log ++ [get_event kvstore key] }) := by
  simp only [ib_kvstore_get, hget, ne_eq, hrc, not_false_eq_true, if_true, get_event]

theorem get_zero (kvstore : ib_kvstore_t)
    (override : Option ib_kvstore_merge_policy_fn_t) (key : ib_kvstore_key_t) (val : Ptr)
    (w : World) (values : ValueArray) (m0 : Mem)
    (hget : kvstore.get.run kvstore.addr key kvstore.get_cbdata w.mem =
      ((IB_OK, values, 0), m0)) :
    ib_kvstore_get kvstore override key val w =
      (if values.ptr ≠ Ptr.null then
        match kvstore.free.run kvstore.addr values.ptr kvstore.free_cbdata m0.heap with
        | none => none
        | some h => some (IB_ENOENT, Ptr.null,
            { mem := { m0 with heap := h },
              log := w.log ++ [get_event kvstore key,
                Event.free kvstore.free.sym kvstore.addr values.ptr kvstore.free_cbdata] })
      else some (IB_ENOENT, Ptr.null,
        { mem := m0, log := w.log ++ [get_event kvstore key] })) := by
  simp only [ib_kvstore_get, hget, ne_eq, not_true_eq_false, if_false, gt_iff_lt,
    Nat.not_lt_zero, exit_get, destroy_values, get_event,
    show ¬ ((0 : Nat) = 1) by decide]
  by_cases hp : values.ptr = Ptr.null
  · simp [hp]
  · simp only [hp, not_false_eq_true, if_true]
    cases kvstore.free.run kvstore.addr values.ptr kvstore.free_cbdata m0.heap <;> simp

theorem get_merge_ok (kvstore : ib_kvstore_t)
    (override : Option ib_kvstore_merge_policy_fn_t) (key : ib_kvstore_key_t) (val : Ptr)
    (w : World) (values : ValueArray) (n : Nat) (m0 m1 : Mem) (merged : Ptr)
    (v : ib_kvstore_value_t) (pb tb : List Nat) (h : Heap)
    (hget : kvstore.get.run kvstore.addr key kvstore.get_cbdata w.mem =
      ((IB_OK, values, n), m0))
    (hn : n = values.cells.length) (hN : 1 < n) (hptr : values.ptr ≠ Ptr.null)
    (hpol : (effective_merge_policy kvstore override).run kvstore.addr key values n Ptr.null
      kvstore.merge_policy_cbdata m0 = some (IB_OK, merged, m1))
    (hA : AllocOk m1) (hc : Candidates m1 values.cells)
    (hv : load_value m1 merged = some v)
    (hp : read_bytes m1 v.value v.value_length = some pb)
    (ht : read_bytes m1 v.type v.type_length = some tb)
    (hm : merged ∈ values.cells ∨
      ∃ a, owned_arena m1 merged = some a ∧ a ∉ arenas_of m1 values.cells)
    (hfree : kvstore.free.run kvstore.addr values.ptr kvstore.free_cbdata m1.heap = some h) :
    ib_kvstore_get kvstore override key val w =
      some (IB_OK, Ptr.pool m1.pools.length 0,
        { mem := exit_mem (dup_mem m1 v pb tb) values merged h,
          log := w.log ++ ([get_event kvstore key,
              merge_event kvstore (effective_merge_policy kvstore override) key values n,
              Event.value_dup merged] ++
            exit_events kvstore values merged) }) := by
  obtain ⟨hc2, har⟩ := candidates_dup_mem m1 v pb tb values.cells hc
  have hm2 : merged = Ptr.null ∨ merged ∈ values.cells ∨
      ∃ a, owned_arena (dup_mem m1 v pb tb) merged = some a ∧
        a ∉ arenas_of (dup_mem m1 v pb tb) values.cells := by
    rcases hm with hm | ⟨a, ha, hna⟩
    · exact Or.inr (Or.inl hm)
    · exact Or.inr (Or.inr ⟨a, owned_arena_dup_mem m1 v pb tb merged a ha, by rw [har]; exact hna⟩)
  have hexit := exit_get_ok kvstore values merged IB_OK (Ptr.pool m1.pools.length 0)
    { mem := dup_mem m1 v pb tb,
      log := w.log ++ [get_event kvstore key] ++
        [merge_event kvstore (effective_merge_policy kvstore override) key values n] ++
        [Event.value_dup merged] } h hptr hc2 hfree hm2
  unfold ib_kvstore_get
  simp only [get_policy_eq, hget, ne_eq, not_true_eq_false, if_false, gt_iff_lt, hN, if_true,
    hpol, dup_ok m1 merged val v pb tb hA hv hp ht]
  rw [hn] at hexit ⊢
  simp only [get_event, merge_event] at hexit ⊢
  rw [hexit]
  simp only [List.append_assoc, List.singleton_append, List.cons_append, List.nil_append]

theorem get_single_ok (kvstore : ib_kvstore_t)
    (override : Option ib_kvstore_merge_policy_fn_t) (key : ib_kvstore_key_t) (val : Ptr)
    (w : World) (values : ValueArray) (m0 : Mem) (c : Ptr)
    (v : ib_kvstore_value_t) (pb tb : List Nat) (h : Heap)
    (hget : kvstore.get.run kvstore.addr key kvstore.get_cbdata w.mem =
      ((IB_OK, values, 1), m0))
    (hcells : values.cells = [c]) (hptr : values.ptr ≠ Ptr.null)
    (hA : AllocOk m0) (hc : Candidates m0 values.cells)
    (hv : load_value m0 c = some v)
    (hp : read_bytes m0 v.value v.value_length = some pb)
    (ht : read_bytes m0 v.type v.type_length = some tb)
    (hfree : kvstore.free.run kvstore.addr values.ptr kvstore.free_cbdata m0.heap = some h) :
    ib_kvstore_get kvstore override key val w =
      some (IB_OK, Ptr.pool m0.pools.length 0,
        { mem := exit_mem (dup_mem m0 v pb tb) values Ptr.null h,
          log := w.log ++ ([get_event kvstore key, Event.value_dup c] ++
            exit_events kvstore values Ptr.null) }) := by
  obtain ⟨hc2, _⟩ := candidates_dup_mem m0 v pb tb values.cells hc
  have hexit := exit_get_ok kvstore values Ptr.null IB_OK (Ptr.pool m0.pools.length 0)
    { mem := dup_mem m0 v pb tb,
      log := w.log ++ [get_event kvstore key] ++ [Event.value_dup c] } h hptr hc2 hfree
    (Or.inl rfl)
  have hlen : values.cells.length = 1 := by rw [hcells]; rfl
  have h0 : values.cells[0]? = some c := by rw [hcells]; rfl
  unfold ib_kvstore_get
  simp only [hget, ne_eq, not_true_eq_false, if_false, gt_iff_lt, Nat.lt_irrefl, if_true,
    hptr, h0, dup_ok m0 c val v pb tb hA hv hp ht]
  rw [hlen] at hexit
  simp only [get_event] at hexit ⊢
  rw [hexit]
  simp only [List.append_assoc, List.singleton_append, List.cons_append, List.nil_append]

theorem merged_preserved (m1 m2 : Mem) (hpr : Preserves m1 m2) (cs : List Ptr)
    (hc : Candidates m1 cs) (merged : Ptr)
    (hm : merged = Ptr.null ∨ merged ∈ cs ∨
      ∃ a, owned_arena m1 merged = some a ∧ a ∉ arenas_of m1 cs) :
    merged = Ptr.null ∨ merged ∈ cs ∨
      ∃ a, owned_arena m2 merged = some a ∧ a ∉ arenas_of m2 cs := by
  rcases hm with hm | hm | ⟨a, ha, hna⟩
  · exact Or.inl hm
  · exact Or.inr (Or.inl hm)
  · refine Or.inr (Or.inr ⟨a, owned_arena_preserved m1 m2 hpr merged a ha, ?_⟩)
    rw [(candidates_preserved m1 m2 hpr cs hc).2]
    exact hna

theorem get_merge_total (kvstore : ib_kvstore_t)
    (override : Option ib_kvstore_merge_policy_fn_t) (key : ib_kvstore_key_t) (val : Ptr)
    (w : World) (values : ValueArray) (n : Nat) (m0 m1 : Mem) (rcp : ib_status_t)
    (merged : Ptr) (h : Heap)
    (hget : kvstore.get.run kvstore.addr key kvstore.get_cbdata w.mem =
      ((IB_OK, values, n), m0))
    (hn : n = values.cells.length) (hN : 1 < n) (hptr : values.ptr ≠ Ptr.null)
    (hpol : (effective_merge_policy kvstore override).run kvstore.addr key values n Ptr.null
      kvstore.merge_policy_cbdata m0 = some (rcp, merged, m1))
    (hc : Candidates m1 values.cells)
    (hm : merged = Ptr.null ∨ merged ∈ values.cells ∨
      ∃ a, owned_arena m1 merged = some a ∧ a ∉ arenas_of m1 values.cells)
    (hok : rcp = IB_OK → ∃ d, value_data m1 merged = some d)
    (hfree : kvstore.free.run kvstore.addr values.ptr kvstore.free_cbdata m1.heap = some h) :
    ∃ rc out m2, Preserves m1 m2 ∧
      ib_kvstore_get kvstore override key val w =
        some (rc, out,
          { mem := exit_mem m2 values merged h,
            log := w.log ++ ([get_event kvstore key,
                merge_event kvstore (effective_merge_policy kvstore override) key values n] ++
              (if rcp = IB_OK then [Event.value_dup merged] else []) ++
              exit_events kvstore values merged) }) ∧
      (rcp ≠ IB_OK → rc = rcp ∧ out = val ∧ m2 = m1) ∧
      (rcp = IB_OK →
        (∃ v pb tb, load_value m1 merged = some v ∧
            read_bytes m1 v.value v.value_length = some pb ∧
            read_bytes m1 v.type v.type_length = some tb ∧
            rc = IB_OK ∧ out = Ptr.pool m1.pools.length 0 ∧ m2 = dup_mem m1 v pb tb) ∨
        (rc = IB_EALLOC ∧ out = val)) := by
  by_cases hrcp : rcp = IB_OK
  · obtain ⟨d, hd⟩ := hok hrcp
    obtain ⟨v, pb, tb, hv, hp, ht, _⟩ := value_data_inv m1 merged d hd
    obtain ⟨rc, out, m2, hdup, hpr, hcase⟩ := dup_total m1 merged val v pb tb hv hp ht
    obtain ⟨hc2, _⟩ := candidates_preserved m1 m2 hpr values.cells hc
    have hm2 := merged_preserved m1 m2 hpr values.cells hc merged hm
    have hfree2 : kvstore.free.run kvstore.addr values.ptr kvstore.free_cbdata m2.heap =
        some h := by rw [hpr.2]; exact hfree
    have hexit := exit_get_ok kvstore values merged rc out
      { mem := m2,
        log := w.log ++ [get_event kvstore key] ++
          [merge_event kvstore (effective_merge_policy kvstore override) key values n] ++
          [Event.value_dup merged] } h hptr hc2 hfree2 hm2
    refine ⟨rc, out, m2, hpr, ?_, fun hne => absurd hrcp hne, fun _ => ?_⟩
    · unfold ib_kvstore_get
      simp only [get_policy_eq, hget, ne_eq, not_true_eq_false, if_false, gt_iff_lt, hN,
        if_true, hpol, hrcp, hdup]
      rw [hn] at hexit ⊢
      simp only [get_event, merge_event] at hexit ⊢
      rw [hexit]
      simp only [List.append_assoc, List.singleton_append, List.cons_append, List.nil_append]
    · rcases hcase with ⟨h1, h2, h3⟩ | ⟨h1, h2, _⟩
      · exact Or.inl ⟨v, pb, tb, hv, hp, ht, h1, h2, h3⟩
      · exact Or.inr ⟨h1, h2⟩
  · have hexit := exit_get_ok kvstore values merged rcp val
      { mem := m1,
        log := w.log ++ [get_event kvstore key] ++
          [merge_event kvstore (effective_merge_policy kvstore override) key values n] }
      h hptr hc hfree hm
    refine ⟨rcp, val, m1, preserves_refl m1, ?_, fun _ => ⟨rfl, rfl, rfl⟩,
      fun he => absurd he hrcp⟩
    unfold ib_kvstore_get
    simp only [get_policy_eq, hget, ne_eq, not_true_eq_false, if_false, gt_iff_lt, hN,
      if_true, hpol, hrcp, not_false_eq_true]
    rw [hn] at hexit ⊢
    simp only [get_event, merge_event] at hexit ⊢
    rw [hexit]
    simp only [List.append_assoc, List.singleton_append, List.cons_append, List.nil_append]

theorem exit_mem_released (m1 m2 : Mem) (hpr : Preserves m1 m2) (values : ValueArray)
    (hc : Candidates m1 values.cells) (merged : Ptr) (h : Heap) (a : Nat)
    (ha : a ∈ arenas_of m1 values.cells) :
    (exit_mem m2 values merged h).pool a = none := by
  refine exit_mem_pool_of_mem m2 values merged h a (Or.inl ?_)
  rw [(candidates_preserved m1 m2 hpr values.cells hc).2]
  exact ha

theorem get_single_total (kvstore : ib_kvstore_t)
    (override : Option ib_kvstore_merge_policy_fn_t) (key : ib_kvstore_key_t) (val : Ptr)
    (w : World) (values : ValueArray) (m0 : Mem) (c : Ptr)
    (v : ib_kvstore_value_t) (pb tb : List Nat) (h : Heap)
    (hget : kvstore.get.run kvstore.addr key kvstore.get_cbdata w.mem =
      ((IB_OK, values, 1), m0))
    (hcells : values.cells = [c]) (hptr : values.ptr ≠ Ptr.null)
    (hc : Candidates m0 values.cells)
    (hv : load_value m0 c = some v)
    (hp : read_bytes m0 v.value v.value_length = some pb)
    (ht : read_bytes m0 v.type v.type_length = some tb)
    (hfree : kvstore.free.run kvstore.addr values.ptr kvstore.free_cbdata m0.heap = some h) :
    ∃ rc out m2, Preserves m0 m2 ∧
      ib_kvstore_get kvstore override key val w =
        some (rc, out,
          { mem := exit_mem m2 values Ptr.null h,
            log := w.log ++ ([get_event kvstore key, Event.value_dup c] ++
              exit_events kvstore values Ptr.null) }) ∧
      ((rc = IB_OK ∧ out = Ptr.pool m0.pools.length 0 ∧ m2 = dup_mem m0 v pb tb) ∨
       (rc = IB_EALLOC ∧ out = val)) := by
  obtain ⟨rc, out, m2, hdup, hpr, hcase⟩ := dup_total m0 c val v pb tb hv hp ht
  obtain ⟨hc2, _⟩ := candidates_preserved m0 m2 hpr values.cells hc
  have hfree2 : kvstore.free.run kvstore.addr values.ptr kvstore.free_cbdata m2.heap =
      some h := by rw [hpr.2]; exact hfree
  have hexit := exit_get_ok kvstore values Ptr.null rc out
    { mem := m2, log := w.log ++ [get_event kvstore key] ++ [Event.value_dup c] } h hptr hc2
    hfree2 (Or.inl rfl)
  have hlen : values.cells.length = 1 := by rw [hcells]; rfl
  have h0 : values.cells[0]? = some c := by rw [hcells]; rfl
  refine ⟨rc, out, m2, hpr, ?_, ?_⟩
  · unfold ib_kvstore_get
    simp only [hget, ne_eq, not_true_eq_false, if_false, gt_iff_lt, Nat.lt_irrefl, if_true,
      hptr, h0, hdup]
    rw [hlen] at hexit
    simp only [get_event] at hexit ⊢
    rw [hexit]
    simp only [List.append_assoc, List.singleton_append, List.cons_append, List.nil_append]
  · rcases hcase with ⟨h1, h2, h3⟩ | ⟨h1, h2, _⟩
    · exact Or.inl ⟨h1, h2, h3⟩
    · exact Or.inr ⟨h1, h2⟩

/-! ## Counting calls in the log -/

theorem filter_merge_destroys (cs : List Ptr) :
    (cs.map Event.value_destroy).filter Event.is_merge = [] := by
  induction cs with
  | nil => rfl
  | cons c cs ih => simp [List.filter_cons, Event.is_merge, ih]

theorem filter_dup_destroys (cs : List Ptr) :
    (cs.map Event.value_destroy).filter Event.is_dup = [] := by
  induction cs with
  | nil => rfl
  | cons c cs ih => simp [List.filter_cons, Event.is_dup, ih]

theorem filter_destroy_destroys (cs : List Ptr) :
    (cs.map Event.value_destroy).filter Event.is_destroy = cs.map Event.value_destroy := by
  induction cs with
  | nil => rfl
  | cons c cs ih => simp [List.filter_cons, Event.is_destroy, ih]

theorem filter_merge_exit_events (kvstore : ib_kvstore_t) (values : ValueArray) (merged : Ptr) :
    (exit_events kvstore values merged).filter Event.is_merge = [] := by
  simp [exit_events, List.filter_append, filter_merge_destroys, Event.is_merge]

theorem filter_dup_exit_events (kvstore : ib_kvstore_t) (values : ValueArray) (merged : Ptr) :
    (exit_events kvstore values merged).filter Event.is_dup = [] := by
  simp [exit_events, List.filter_append, filter_dup_destroys, Event.is_dup]

theorem filter_destroy_exit_events (kvstore : ib_kvstore_t) (values : ValueArray)
    (merged : Ptr) :
    (exit_events kvstore values merged).filter Event.is_destroy =
      (values.cells ++ residual merged values.cells).map Event.value_destroy := by
  simp [exit_events, List.filter_append, filter_destroy_destroys, Event.is_destroy]

theorem candidates_nodup (m : Mem) (cs : List Ptr) (hc : Candidates m cs) : cs.Nodup :=
  List.Nodup.of_map _ hc.2

theorem count_destroy_map (p : Ptr) (l : List Ptr) :
    (l.map Event.value_destroy).count (Event.value_destroy p) = l.count p :=
  List.count_map_of_injective l Event.value_destroy
    (fun a b hab => by injection hab) p

theorem destroy_count_exit_events (kvstore : ib_kvstore_t) (values : ValueArray)
    (merged p : Ptr) :
    destroy_count (exit_events kvstore values merged) p =
      values.cells.count p + (residual merged values.cells).count p := by
  simp [destroy_count, exit_events, count_destroy_map, List.count_cons]

theorem destroy_count_merge_log (kvstore : ib_kvstore_t)
    (f : ib_kvstore_merge_policy_fn_t) (key : ib_kvstore_key_t) (values : ValueArray)
    (n : Nat) (rcp : ib_status_t) (merged p : Ptr) :
    destroy_count ([get_event kvstore key, merge_event kvstore f key values n] ++
        (if rcp = IB_OK then [Event.value_dup merged] else []) ++
        exit_events kvstore values merged) p =
      values.cells.count p + (residual merged values.cells).count p := by
  have h := destroy_count_exit_events kvstore values merged p
  unfold destroy_count at h ⊢
  by_cases hr : rcp = IB_OK <;>
    simp [hr, List.count_cons, get_event, merge_event, h]

theorem residual_count_of_mem (merged p : Ptr) (cs : List Ptr) (hp : p ∈ cs) :
    (residual merged cs).count p = 0 := by
  unfold residual
  split
  · rfl
  · rename_i hne
    have : merged ≠ p := fun h => hne (Or.inr (h ▸ hp))
    simp [List.count_cons, this]

theorem residual_count_le_one (merged p : Ptr) (cs : List Ptr) :
    (residual merged cs).count p ≤ 1 := by
  unfold residual
  split
  · simp
  · simp only [List.count_cons, List.count_nil]
    split <;> omega

theorem residual_length_alias (merged : Ptr) (cs : List Ptr) (h : merged ∈ cs) :
    residual merged cs = [] := by
  simp [residual, h]

theorem residual_fresh (merged : Ptr) (cs : List Ptr) (h1 : merged ≠ Ptr.null)
    (h2 : merged ∉ cs) : residual merged cs = [merged] := by
  simp [residual, h1, h2]


theorem dup_value_data_final (m1 : Mem) (values : ValueArray) (merged : Ptr) (h : Heap)
    (v : ib_kvstore_value_t) (pb tb : List Nat) (hc : Candidates m1 values.cells)
    (hp : read_bytes m1 v.value v.value_length = some pb)
    (ht : read_bytes m1 v.type v.type_length = some tb)
    (hm : merged = Ptr.null ∨ merged ∈ values.cells ∨
      ∃ a, owned_arena m1 merged = some a ∧ a ∉ arenas_of m1 values.cells) :
    value_data (exit_mem (dup_mem m1 v pb tb) values merged h) (Ptr.pool m1.pools.length 0) =
      some (dup_data v pb tb) := by
  have hL1 : m1.pools.length ∉ arenas_of (dup_mem m1 v pb tb) values.cells := by
    rw [(candidates_dup_mem m1 v pb tb values.cells hc).2]
    intro hin
    exact Nat.lt_irrefl _ (arenas_of_lt m1 _ _ hin)
  have hL2 : m1.pools.length ∉
      arenas_of (dup_mem m1 v pb tb) (residual merged values.cells) := by
    intro hin
    unfold arenas_of residual at hin
    split at hin
    · simp at hin
    · rename_i hne
      simp only [List.filterMap_cons, List.filterMap_nil] at hin
      rcases hm with hm | hm | ⟨a, ha, _⟩
      · exact hne (Or.inl hm)
      · exact hne (Or.inr hm)
      · rw [owned_arena_dup_mem m1 v pb tb merged a ha] at hin
        simp only [List.mem_singleton] at hin
        have := owned_arena_lt m1 merged a ha
        omega
  refine value_data_of_pool _ _ v pb tb ?_ (read_bytes_length m1 _ _ _ hp)
    (read_bytes_length m1 _ _ _ ht)
  rw [exit_mem_pool_of_not_mem _ values merged h _ hL1 hL2]
  exact dup_mem_pool_new m1 v pb tb

theorem candidates_singleton (m : Mem) (c : Ptr) (a : Nat) (h : owned_arena m c = some a) :
    Candidates m [c] := by
  refine ⟨?_, by simp⟩
  intro p hp
  rw [List.mem_singleton.mp hp, h]
  simp

theorem pool_new_after_exit (m1 : Mem) (values : ValueArray) (merged : Ptr) (h : Heap)
    (v : ib_kvstore_value_t) (pb tb : List Nat) (hc : Candidates m1 values.cells)
    (hm : merged = Ptr.null ∨ merged ∈ values.cells ∨
      ∃ a, owned_arena m1 merged = some a ∧ a ∉ arenas_of m1 values.cells) :
    (exit_mem (dup_mem m1 v pb tb) values merged h).pool m1.pools.length =
      some [Block.value (dup_struct m1.pools.length v), Block.bytes pb, Block.bytes tb] := by
  have hL1 : m1.pools.length ∉ arenas_of (dup_mem m1 v pb tb) values.cells := by
    rw [(candidates_dup_mem m1 v pb tb values.cells hc).2]
    intro hin
    exact Nat.lt_irrefl _ (arenas_of_lt m1 _ _ hin)
  have hL2 : m1.pools.length ∉
      arenas_of (dup_mem m1 v pb tb) (residual merged values.cells) := by
    intro hin
    unfold arenas_of residual at hin
    split at hin
    · simp at hin
    · rename_i hne
      simp only [List.filterMap_cons, List.filterMap_nil] at hin
      rcases hm with hm | hm | ⟨a, ha, _⟩
      · exact hne (Or.inl hm)
      · exact hne (Or.inr hm)
      · rw [owned_arena_dup_mem m1 v pb tb merged a ha] at hin
        simp only [List.mem_singleton] at hin
        have := owned_arena_lt m1 merged a ha
        omega
  rw [exit_mem_pool_of_not_mem _ values merged h _ hL1 hL2]
  exact dup_mem_pool_new m1 v pb tb

theorem value_arena_of_pool (m : Mem) (L : Nat) (v : ib_kvstore_value_t) (rest : List Block)
    (hp : m.pool L = some (Block.value v :: rest)) :
    value_arena m (Ptr.pool L 0) = v.mp := by
  simp [value_arena, load_value, hp]

theorem pool_live_length (m : Mem) : pool_live m m.pools.length = false := by
  simp [pool_live, Mem.pool]

theorem load_value_preserved (m m2 : Mem) (hpr : Preserves m m2) (p : Ptr)
    (v : ib_kvstore_value_t) (h : load_value m p = some v) : load_value m2 p = some v := by
  cases p with
  | pool mp idx =>
    cases hp : m.pool mp with
    | none => simp [load_value, hp] at h
    | some bs =>
      rw [← h]
      exact load_value_congr m m2 mp idx (by rw [hp]; exact hpr.1 mp bs hp)
  | _ => simp [load_value] at h

theorem read_bytes_preserved (m m2 : Mem) (hpr : Preserves m m2) (p : Ptr) (n : Nat)
    (bs : List Nat) (h : read_bytes m p n = some bs) : read_bytes m2 p n = some bs := by
  cases p with
  | pool mp idx =>
    cases hp : m.pool mp with
    | none => simp [read_bytes, hp] at h
    | some blocks =>
      rw [← h]
      simp only [read_bytes, hp, hpr.1 mp blocks hp]
  | null => simp [read_bytes] at h
  | empty_str => simpa [read_bytes] using h
  | heap id =>
    rw [← h]
    simp only [read_bytes, hpr.2]

theorem value_data_preserved (m m2 : Mem) (hpr : Preserves m m2) (p : Ptr) (d : ValueData)
    (h : value_data m p = some d) : value_data m2 p = some d := by
  obtain ⟨v, pb, tb, hv, hp, ht, hdd⟩ := value_data_inv m p d h
  rw [hdd]
  exact value_data_src m2 p v pb tb (load_value_preserved m m2 hpr p v hv)
    (read_bytes_preserved m m2 hpr _ _ _ hp) (read_bytes_preserved m m2 hpr _ _ _ ht)

theorem allocOk_dup_mem (m : Mem) (v : ib_kvstore_value_t) (pb tb : List Nat)
    (hA : AllocOk m) : AllocOk (dup_mem m v pb tb) := by
  unfold AllocOk at hA ⊢
  exact all_true_tail _ (all_true_tail _ (all_true_tail _ (all_true_tail _ hA)))

theorem value_data_dup_mem_new (m : Mem) (v : ib_kvstore_value_t) (pb tb : List Nat)
    (hp : read_bytes m v.value v.value_length = some pb)
    (ht : read_bytes m v.type v.type_length = some tb) :
    value_data (dup_mem m v pb tb) (Ptr.pool m.pools.length 0) = some (dup_data v pb tb) :=
  value_data_of_pool _ _ v pb tb (dup_mem_pool_new m v pb tb) (read_bytes_length m _ _ _ hp)
    (read_bytes_length m _ _ _ ht)

theorem dup_mem_length (m : Mem) (v : ib_kvstore_value_t) (pb tb : List Nat) :
    (dup_mem m v pb tb).pools.length = m.pools.length + 1 := by
  simp [dup_mem]

theorem default_merge_policy_eq (kvstore : Nat) (key : ib_kvstore_key_t)
    (values : ValueArray) (value_size : Nat) (resultant_value : Ptr) (cbdata : Nat) (m : Mem)
    (hptr : values.ptr ≠ Ptr.null) (hn : value_size = values.cells.length) :
    default_merge_policy kvstore key values value_size resultant_value cbdata m =
      some (IB_OK,
        (match values.cells with
         | [] => resultant_value
         | c :: _ => c),
        m) := by
  unfold default_merge_policy
  rw [if_neg hptr, hn]
  cases values.cells with
  | nil => simp
  | cons c cs => simp

theorem set_null (kvstore : ib_kvstore_t) (override : Option ib_kvstore_merge_policy_fn_t)
    (key : ib_kvstore_key_t) (w : World) :
    ib_kvstore_set kvstore override key Ptr.null w = none := by
  unfold ib_kvstore_set
  rw [if_pos rfl]

theorem alloc_outcome_zero (m : Mem) : alloc_outcome m 0 = m.allocs.headD true := rfl

theorem alloc_outcome_one (m : Mem) : alloc_outcome m 1 = m.allocs.tail.headD true := by
  unfold alloc_outcome
  cases m.allocs <;> rfl

theorem alloc_outcome_two (m : Mem) : alloc_outcome m 2 = m.allocs.tail.tail.headD true := by
  unfold alloc_outcome
  rw [tail_tail_eq_drop]

theorem alloc_outcome_three (m : Mem) :
    alloc_outcome m 3 = m.allocs.tail.tail.tail.headD true := by
  unfold alloc_outcome
  rw [tail_tail_tail_eq_drop]

theorem pool_snoc_none (m : Mem) (H : Heap) (al : List Bool) (a : Nat) :
    Mem.pool { pools := m.pools ++ [none], heap := H, allocs := al } a = m.pool a := by
  unfold Mem.pool
  by_cases h : a < m.pools.length
  · simp only [List.getElem?_append_left h]
  · have hle : m.pools.length ≤ a := Nat.le_of_not_lt h
    rw [List.getElem?_eq_none hle]
    by_cases he : a = m.pools.length
    · subst he
      simp
    · rw [List.getElem?_eq_none (by simp; omega)]

theorem pool_live_dup_fail_mem (m : Mem) (k a : Nat) :
    pool_live (dup_fail_mem m k) a = pool_live m a := by
  unfold pool_live dup_fail_mem
  split
  · rfl
  · rw [pool_snoc_none]

theorem create_ok_of_allocOk (m : Mem) (slot : Ptr) (hA : AllocOk m) :
    ib_kvstore_value_create slot m = some (IB_OK, Ptr.pool m.pools.length 0,
      { pools := m.pools ++ [some [Block.value
          { mp := some m.pools.length, value := Ptr.empty_str, value_length := 0,
            type := Ptr.empty_str, type_length := 0, expiration := 0, creation := 0 }]],
        heap := m.heap, allocs := m.allocs.tail.tail }) := by
  unfold AllocOk at hA
  exact create_ok m slot (all_true_headD _ hA) (all_true_headD _ (all_true_tail _ hA))

theorem ne_null_of_load (m : Mem) (p : Ptr) (v : ib_kvstore_value_t)
    (hv : load_value m p = some v) : p ≠ Ptr.null := by
  intro h
  rw [h] at hv
  simp [load_value] at hv

theorem dup_fail_at (m : Mem) (value slot : Ptr) (v : ib_kvstore_value_t) (pb : List Nat)
    (k : Nat) (hk : k ≤ 3)
    (hv : load_value m value = some v)
    (hp : read_bytes m v.value v.value_length = some pb)
    (hbefore : ∀ i, i < k → alloc_outcome m i = true)
    (hfail : alloc_outcome m k = false) :
    ib_kvstore_value_dup value slot m = some (IB_EALLOC, slot, dup_fail_mem m k) := by
  have hsrc := ne_null_of_load m value v hv
  have e0 := alloc_outcome_zero m
  have e1 := alloc_outcome_one m
  have e2 := alloc_outcome_two m
  have e3 := alloc_outcome_three m
  interval_cases k
  · exact dup_fail0 m value slot hsrc (e0 ▸ hfail)
  · exact dup_fail1 m value slot hsrc (e0 ▸ hbefore 0 (by omega)) (e1 ▸ hfail)
  · exact dup_fail2 m value slot v (e0 ▸ hbefore 0 (by omega)) (e1 ▸ hbefore 1 (by omega))
      (e2 ▸ hfail) hv
  · exact dup_fail3 m value slot v pb (e0 ▸ hbefore 0 (by omega))
      (e1 ▸ hbefore 1 (by omega)) (e2 ▸ hbefore 2 (by omega)) (e3 ▸ hfail) hv hp

theorem destroy_eq (m : Mem) (p : Ptr) (v : ib_kvstore_value_t) (a : Nat) (bs : List Block)
    (hv : load_value m p = some v) (hmp : v.mp = some a) (hp : m.pool a = some bs) :
    ib_kvstore_value_destroy p m =
      some { pools := m.pools.set a none, heap := m.heap, allocs := m.allocs } := by
  simp only [ib_kvstore_value_destroy, hv, hmp, ib_mpool_lite_destroy, hp]

theorem preserves_trans (m1 m2 m3 : Mem) (h12 : Preserves m1 m2) (h23 : Preserves m2 m3) :
    Preserves m1 m3 :=
  ⟨fun a bs h => h23.1 a bs (h12.1 a bs h), by rw [h23.2, h12.2]⟩

theorem preserves_set_none (m m2 : Mem) (c : Nat) (hpr : Preserves m m2)
    (hc : m.pool c = none) :
    Preserves m { pools := m2.pools.set c none, heap := m2.heap, allocs := m2.allocs } := by
  refine ⟨fun a bs h => ?_, hpr.2⟩
  have hne : c ≠ a := by
    intro he
    rw [he, h] at hc
    cases hc
  rw [pool_set_ne m2 c a none m2.heap m2.allocs hne]
  exact hpr.1 a bs h

theorem pool_none_of_ge (m : Mem) (a : Nat) (h : m.pools.length ≤ a) : m.pool a = none := by
  unfold Mem.pool
  rw [List.getElem?_eq_none h]

theorem pool_live_set_none (m : Mem) (a : Nat) :
    pool_live { pools := m.pools.set a none, heap := m.heap, allocs := m.allocs } a = false := by
  simp [pool_live, pool_set_self_none]

theorem value_arena_eq (m : Mem) (p : Ptr) (v : ib_kvstore_value_t)
    (hv : load_value m p = some v) : value_arena m p = v.mp := by
  simp [value_arena, hv]

theorem pool_of_live (m : Mem) (a : Nat) (h : pool_live m a = true) :
    ∃ bs, m.pool a = some bs := by
  unfold pool_live at h
  exact Option.isSome_iff_exists.mp h

/-- Everything that destroying the value at `p`, which owns arena `c`, does
to a memory `m2` seen from the values of an earlier memory `m`. -/
theorem destroy_frame (m m2 : Mem) (p : Ptr) (vp : ib_kvstore_value_t) (c : Nat)
    (bs : List Block) (hv : load_value m2 p = some vp) (hmp : vp.mp = some c)
    (hp : m2.pool c = some bs) :
    ∃ m3, ib_kvstore_value_destroy p m2 = some m3 ∧ pool_live m3 c = false ∧
      (∀ b, b ≠ c → m3.pool b = m2.pool b) ∧ m3.heap = m2.heap ∧
      (Preserves m m2 → m.pool c = none → Preserves m m3) :=
  ⟨_, destroy_eq m2 p vp c bs hv hmp hp, pool_live_set_none m2 c,
    fun b hb => pool_set_ne m2 c b none m2.heap m2.allocs (Ne.symm hb), rfl,
    fun hpr hc => preserves_set_none m m2 c hpr hc⟩

theorem pool_set_self (m : Mem) (a : Nat) (bs bs2 : List Block) (H : Heap) (al : List Bool)
    (hp : m.pool a = some bs) :
    Mem.pool { pools := m.pools.set a (some bs2), heap := H, allocs := al } a = some bs2 := by
  have hlt := pool_lt_length m a bs hp
  unfold Mem.pool
  simp [List.getElem?_set_self hlt]

theorem load_value_inv (m : Mem) (p : Ptr) (v : ib_kvstore_value_t)
    (hv : load_value m p = some v) :
    ∃ mp idx blocks, p = Ptr.pool mp idx ∧ m.pool mp = some blocks ∧
      blocks[idx]? = some (Block.value v) := by
  cases p with
  | pool mp idx =>
    simp only [load_value] at hv
    cases hp : m.pool mp with
    | none => simp [hp] at hv
    | some blocks =>
      simp only [hp] at hv
      cases hb : blocks[idx]? with
      | none => simp [hb] at hv
      | some b =>
        cases b with
        | bytes bs => simp [hb] at hv
        | value v2 =>
          simp only [hb, Option.some.injEq] at hv
          subst hv
          exact ⟨mp, idx, blocks, rfl, hp, hb⟩
  | _ => simp [load_value] at hv

theorem modify_value_spec (m : Mem) (p : Ptr) (v : ib_kvstore_value_t)
    (f : ib_kvstore_value_t → ib_kvstore_value_t) (hv : load_value m p = some v) :
    ∃ m2, modify_value p f m = some m2 ∧ load_value m2 p = some (f v) ∧
      (∀ q, q ≠ p → load_value m2 q = load_value m q) ∧
      (∀ q k, read_bytes m2 q k = read_bytes m q k) ∧
      m2.heap = m.heap ∧ m2.allocs = m.allocs ∧ m2.pools.length = m.pools.length ∧
      (∀ a, pool_live m2 a = pool_live m a) := by
  obtain ⟨mp, idx, blocks, rfl, hp, hb⟩ := load_value_inv m p v hv
  have hidx : idx < blocks.length := by
    by_contra hc
    rw [List.getElem?_eq_none (Nat.le_of_not_lt hc)] at hb
    cases hb
  have hself := pool_set_self m mp blocks (blocks.set idx (Block.value (f v))) m.heap m.allocs hp
  have hother : ∀ b, b ≠ mp →
      Mem.pool { pools := m.pools.set mp (some (blocks.set idx (Block.value (f v)))),
                 heap := m.heap, allocs := m.allocs } b = m.pool b :=
    fun b hb => pool_set_ne m mp b _ m.heap m.allocs (Ne.symm hb)
  refine ⟨{ pools := m.pools.set mp (some (blocks.set idx (Block.value (f v)))),
            heap := m.heap, allocs := m.allocs }, ?_, ?_, ?_, ?_, rfl, rfl, by simp, ?_⟩
  · simp only [modify_value, hv, store_value, hp, hb]
  · simp only [load_value, hself, List.getElem?_set_self hidx]
  · intro q hq
    cases q with
    | pool b j =>
      by_cases hbm : b = mp
      · subst hbm
        have hj : idx ≠ j := by
          intro he
          subst he
          exact hq rfl
        simp only [load_value, hself, hp, List.getElem?_set_ne hj]
      · simp only [load_value, hother b hbm]
    | _ => rfl
  · intro q k
    cases q with
    | pool b j =>
      by_cases hbm : b = mp
      · subst hbm
        by_cases hj : idx = j
        · subst hj
          simp only [read_bytes, hself, hp, List.getElem?_set_self hidx, hb]
        · simp only [read_bytes, hself, hp, List.getElem?_set_ne hj]
      · simp only [read_bytes, hother b hbm]
    | _ => rfl
  · intro a
    by_cases ham : a = mp
    · subst ham
      simp only [pool_live, hself, hp, Option.isSome_some]
    · simp only [pool_live, hother a ham]

theorem modify_value_same_except (m : Mem) (p : Ptr) (v : ib_kvstore_value_t)
    (f : ib_kvstore_value_t → ib_kvstore_value_t) (hv : load_value m p = some v) :
    ∃ m2, modify_value p f m = some m2 ∧ load_value m2 p = some (f v) ∧
      SameExceptValue p m m2 := by
  obtain ⟨m2, h1, h2, h3, h4, h5, h6, _, h8⟩ := modify_value_spec m p v f hv
  exact ⟨m2, h1, h2, h3, h4, h5, h6, h8⟩

theorem get_merge_paths (kvstore : ib_kvstore_t)
    (override : Option ib_kvstore_merge_policy_fn_t) (key : ib_kvstore_key_t) (val : Ptr)
    (w : World) (values : ValueArray) (n : Nat) (m0 m1 : Mem) (rcp : ib_status_t)
    (merged : Ptr) (h : Heap)
    (hget : kvstore.get.run kvstore.addr key kvstore.get_cbdata w.mem =
      ((IB_OK, values, n), m0))
    (hn : n = values.cells.length) (hN : 1 < n) (hptr : values.ptr ≠ Ptr.null)
    (hpol : (effective_merge_policy kvstore override).run kvstore.addr key values n Ptr.null
      kvstore.merge_policy_cbdata m0 = some (rcp, merged, m1))
    (hc : Candidates m1 values.cells)
    (hm : merged = Ptr.null ∨ merged ∈ values.cells ∨
      ∃ a, owned_arena m1 merged = some a ∧ a ∉ arenas_of m1 values.cells)
    (hok : rcp = IB_OK → ∃ d, value_data m1 merged = some d)
    (hfree : kvstore.free.run kvstore.addr values.ptr kvstore.free_cbdata m1.heap = some h) :
    ∃ rc out m2, Preserves m1 m2 ∧
      ib_kvstore_get kvstore override key val w =
        some (rc, out,
          { mem := exit_mem m2 values merged h,
            log := w.log ++ ([get_event kvstore key,
                merge_event kvstore (effective_merge_policy kvstore override) key values n] ++
              (if rcp = IB_OK then [Event.value_dup merged] else []) ++
              exit_events kvstore values merged) }) ∧
      (rcp ≠ IB_OK → rc = rcp ∧ out = val ∧ m2 = m1) ∧
      (rcp = IB_OK →
        ib_kvstore_value_dup merged val m1 = some (rc, out, m2) ∧
        ((∃ v pb tb, load_value m1 merged = some v ∧
            read_bytes m1 v.value v.value_length = some pb ∧
            read_bytes m1 v.type v.type_length = some tb ∧
            rc = IB_OK ∧ out = Ptr.pool m1.pools.length 0 ∧ m2 = dup_mem m1 v pb tb) ∨
        (rc = IB_EALLOC ∧ out = val))) := by
  by_cases hrcp : rcp = IB_OK
  · obtain ⟨d, hd⟩ := hok hrcp
    obtain ⟨v, pb, tb, hv, hp, ht, _⟩ := value_data_inv m1 merged d hd
    obtain ⟨rc, out, m2, hdup, hpr, hcase⟩ := dup_total m1 merged val v pb tb hv hp ht
    obtain ⟨hc2, _⟩ := candidates_preserved m1 m2 hpr values.cells hc
    have hm2 := merged_preserved m1 m2 hpr values.cells hc merged hm
    have hfree2 : kvstore.free.run kvstore.addr values.ptr kvstore.free_cbdata m2.heap =
        some h := by rw [hpr.2]; exact hfree
    have hexit := exit_get_ok kvstore values merged rc out
      { mem := m2,
        log := w.log ++ [get_event kvstore key] ++
          [merge_event kvstore (effective_merge_policy kvstore override) key values n] ++
          [Event.value_dup merged] } h hptr hc2 hfree2 hm2
    refine ⟨rc, out, m2, hpr, ?_, fun hne => absurd hrcp hne, fun _ => ⟨hdup, ?_⟩⟩
    · unfold ib_kvstore_get
      simp only [get_policy_eq, hget, ne_eq, not_true_eq_false, if_false, gt_iff_lt, hN,
        if_true, hpol, hrcp, hdup]
      rw [hn] at hexit ⊢
      simp only [get_event, merge_event] at hexit ⊢
      rw [hexit]
      simp only [List.append_assoc, List.singleton_append, List.cons_append, List.nil_append]
    · rcases hcase with ⟨h1, h2, h3⟩ | ⟨h1, h2, _⟩
      · exact Or.inl ⟨v, pb, tb, hv, hp, ht, h1, h2, h3⟩
      · exact Or.inr ⟨h1, h2⟩
  · obtain ⟨rc, out, m2, hpr, hg, hne, _⟩ := get_merge_total kvstore override key val w values
      n m0 m1 rcp merged h hget hn hN hptr hpol hc hm hok hfree
    exact ⟨rc, out, m2, hpr, hg, hne, fun he => absurd he hrcp⟩

theorem get_single_paths (kvstore : ib_kvstore_t)
    (override : Option ib_kvstore_merge_policy_fn_t) (key : ib_kvstore_key_t) (val : Ptr)
    (w : World) (values : ValueArray) (m0 : Mem) (c : Ptr) (d : ValueData) (h : Heap)
    (hget : kvstore.get.run kvstore.addr key kvstore.get_cbdata w.mem =
      ((IB_OK, values, 1), m0))
    (hcells : values.cells = [c]) (hptr : values.ptr ≠ Ptr.null)
    (hc : Candidates m0 values.cells)
    (hd : value_data m0 c = some d)
    (hfree : kvstore.free.run kvstore.addr values.ptr kvstore.free_cbdata m0.heap = some h) :
    ∃ rc out m2, Preserves m0 m2 ∧
      ib_kvstore_get kvstore override key val w =
        some (rc, out,
          { mem := exit_mem m2 values Ptr.null h,
            log := w.log ++ ([get_event kvstore key, Event.value_dup c] ++
              exit_events kvstore values Ptr.null) }) ∧
      ib_kvstore_value_dup c val m0 = some (rc, out, m2) ∧
      ((rc = IB_OK ∧ out = Ptr.pool m0.pools.length 0) ∨ (rc = IB_EALLOC ∧ out = val)) := by
  obtain ⟨v, pb, tb, hv, hp, ht, _⟩ := value_data_inv m0 c d hd
  obtain ⟨rc, out, m2, hdup, hpr, hcase⟩ := dup_total m0 c val v pb tb hv hp ht
  obtain ⟨hc2, _⟩ := candidates_preserved m0 m2 hpr values.cells hc
  have hfree2 : kvstore.free.run kvstore.addr values.ptr kvstore.free_cbdata m2.heap =
      some h := by rw [hpr.2]; exact hfree
  have hexit := exit_get_ok kvstore values Ptr.null rc out
    { mem := m2, log := w.log ++ [get_event kvstore key] ++ [Event.value_dup c] } h hptr hc2
    hfree2 (Or.inl rfl)
  have hlen : values.cells.length = 1 := by rw [hcells]; rfl
  have h0 : values.cells[0]? = some c := by rw [hcells]; rfl
  refine ⟨rc, out, m2, hpr, ?_, hdup, ?_⟩
  · unfold ib_kvstore_get
    simp only [hget, ne_eq, not_true_eq_false, if_false, gt_iff_lt, Nat.lt_irrefl, if_true,
      hptr, h0, hdup]
    rw [hlen] at hexit
    simp only [get_event] at hexit ⊢
    rw [hexit]
    simp only [List.append_assoc, List.singleton_append, List.cons_append, List.nil_append]
  · rcases hcase with ⟨h1, h2, _⟩ | ⟨h1, h2, _⟩
    · exact Or.inl ⟨h1, h2⟩
    · exact Or.inr ⟨h1, h2⟩

theorem filter_free_destroys (cs : List Ptr) :
    (cs.map Event.value_destroy).filter Event.is_free = [] := by
  induction cs with
  | nil => rfl
  | cons c cs ih => simp [List.filter_cons, Event.is_free, ih]

theorem filter_free_exit_events (kvstore : ib_kvstore_t) (values : ValueArray) (merged : Ptr) :
    (exit_events kvstore values merged).filter Event.is_free =
      [Event.free kvstore.free.sym kvstore.addr values.ptr kvstore.free_cbdata] := by
  simp [exit_events, List.filter_append, filter_free_destroys, Event.is_free]

theorem destroy_count_single_log (kvstore : ib_kvstore_t) (key : ib_kvstore_key_t)
    (values : ValueArray) (c p : Ptr) :
    destroy_count ([get_event kvstore key, Event.value_dup c] ++
        exit_events kvstore values Ptr.null) p = values.cells.count p := by
  have h := destroy_count_exit_events kvstore values Ptr.null p
  unfold destroy_count at h ⊢
  simp [List.count_cons, get_event, h, residual]

theorem released_after_exit (m1 m2 : Mem) (hpr : Preserves m1 m2) (values : ValueArray)
    (hc : Candidates m1 values.cells) (merged : Ptr) (h : Heap) :
    ∀ a ∈ arenas_of m1 values.cells, pool_live (exit_mem m2 values merged h) a = false := by
  intro a ha
  simp [pool_live, exit_mem_released m1 m2 hpr values hc merged h a ha]

/-- Every path of `ib_kvstore_get` on which the backend `get` succeeded, in
one statement.  `rcp`, `merged` and `m1` are the status, the result and the
memory after the merge policy when N>1; when N=1, `merged` is the single
candidate and `m1` the memory after the backend call. -/
theorem get_after_backend_ok (kvstore : ib_kvstore_t)
    (override : Option ib_kvstore_merge_policy_fn_t) (key : ib_kvstore_key_t) (val : Ptr)
    (w : World) (values : ValueArray) (n : Nat) (m0 m1 : Mem) (rcp : ib_status_t)
    (merged : Ptr) (h : Heap)
    (hget : kvstore.get.run kvstore.addr key kvstore.get_cbdata w.mem =
      ((IB_OK, values, n), m0))
    (hn : n = values.cells.length)
    (hptr : 0 < n → values.ptr ≠ Ptr.null)
    (hpol : 1 < n →
      (effective_merge_policy kvstore override).run kvstore.addr key values n Ptr.null
        kvstore.merge_policy_cbdata m0 = some (rcp, merged, m1))
    (hm : 1 < n → merged = Ptr.null ∨ merged ∈ values.cells ∨
      ∃ a, owned_arena m1 merged = some a ∧ a ∉ arenas_of m1 values.cells)
    (hone : n ≤ 1 → m1 = m0)
    (hcell : n = 1 → values.cells = [merged])
    (hc : Candidates m1 values.cells)
    (hok : 0 < n → (1 < n → rcp = IB_OK) → ∃ d, value_data m1 merged = some d)
    (hfree : values.ptr ≠ Ptr.null →
      kvstore.free.run kvstore.addr values.ptr kvstore.free_cbdata m1.heap = some h) :
    ∃ rc out mf evs,
      ib_kvstore_get kvstore override key val w =
        some (rc, out, { mem := mf, log := w.log ++ evs }) ∧
      evs.filter Event.is_merge =
        (if 1 < n then
          [merge_event kvstore (effective_merge_policy kvstore override) key values n]
         else []) ∧
      evs.filter Event.is_free =
        (if values.ptr = Ptr.null then []
         else [Event.free kvstore.free.sym kvstore.addr values.ptr kvstore.free_cbdata]) ∧
      (∀ c ∈ values.cells, destroy_count evs c = 1) ∧
      (∀ p, destroy_count evs p ≤ 1) ∧
      (∀ a ∈ arenas_of m1 values.cells, pool_live mf a = false) ∧
      (n = 0 → rc = IB_ENOENT ∧ out = Ptr.null) ∧
      (1 < n → rcp ≠ IB_OK → rc = rcp ∧ out = val) ∧
      (0 < n → (1 < n → rcp = IB_OK) →
        ∃ m2, ib_kvstore_value_dup merged val m1 = some (rc, out, m2) ∧
          (rc = IB_OK ∨ (rc = IB_EALLOC ∧ out = val))) := by
  have hnd := candidates_nodup m1 values.cells hc
  rcases Nat.lt_trichotomy n 1 with hlt | heq | hgt
  · have h0 : n = 0 := by omega
    subst h0
    have hm01 := hone (by omega)
    subst hm01
    have hnil : values.cells = [] := List.eq_nil_of_length_eq_zero hn.symm
    have hz := get_zero kvstore override key val w values m1 hget
    by_cases hp : values.ptr = Ptr.null
    · refine ⟨IB_ENOENT, Ptr.null, m1, [get_event kvstore key], ?_, ?_, ?_, ?_, ?_, ?_,
        fun _ => ⟨rfl, rfl⟩, fun hh => by omega, fun hh => by omega⟩
      · rw [hz]; simp [hp]
      · simp [get_event, Event.is_merge]
      · simp [get_event, Event.is_free, hp]
      · intro c hcm; rw [hnil] at hcm; cases hcm
      · intro q; simp [destroy_count, get_event, List.count_cons]
      · intro a ha; rw [hnil] at ha; simp [arenas_of] at ha
    · refine ⟨IB_ENOENT, Ptr.null, { m1 with heap := h }, [get_event kvstore key,
        Event.free kvstore.free.sym kvstore.addr values.ptr kvstore.free_cbdata], ?_, ?_, ?_,
        ?_, ?_, ?_, fun _ => ⟨rfl, rfl⟩, fun hh => by omega, fun hh => by omega⟩
      · rw [hz]; simp [hp, hfree hp]
      · simp [get_event, Event.is_merge]
      · simp [get_event, Event.is_free, hp]
      · intro c hcm; rw [hnil] at hcm; cases hcm
      · intro q; simp [destroy_count, get_event, List.count_cons]
      · intro a ha; rw [hnil] at ha; simp [arenas_of] at ha
  · subst heq
    have hm01 := hone (by omega)
    subst hm01
    obtain ⟨d, hd⟩ := hok (by omega) (fun hh => by omega)
    have hpt := hptr (by omega)
    have hcells := hcell rfl
    obtain ⟨rc, out, m2, hpr, hg, hdup, hcase⟩ := get_single_paths kvstore override key val w
      values m1 merged d h hget hcells hpt hc hd (hfree hpt)
    refine ⟨rc, out, _, _, hg, ?_, ?_, ?_, ?_,
      released_after_exit m1 m2 hpr values hc Ptr.null h, fun hh => by omega,
      fun hh => by omega, fun _ _ => ⟨m2, hdup, ?_⟩⟩
    · simp [List.filter_cons, filter_merge_exit_events, get_event, Event.is_merge]
    · simp [List.filter_cons, filter_free_exit_events, get_event, Event.is_free, hpt]
    · intro c hcm
      rw [destroy_count_single_log, List.count_eq_one_of_mem hnd hcm]
    · intro q
      rw [destroy_count_single_log]
      exact List.nodup_iff_count_le_one.mp hnd q
    · rcases hcase with ⟨h1, _⟩ | h1
      · exact Or.inl h1
      · exact Or.inr h1
  · have hpt := hptr (by omega)
    obtain ⟨rc, out, m2, hpr, hg, hne, hcase⟩ := get_merge_paths kvstore override key val w
      values n m0 m1 rcp merged h hget hn hgt hpt (hpol hgt) hc (hm hgt)
      (fun hr => hok (by omega) (fun _ => hr)) (hfree hpt)
    refine ⟨rc, out, _, _, hg, ?_, ?_, ?_, ?_,
      released_after_exit m1 m2 hpr values hc merged h, fun hh => by omega,
      fun _ hr => ⟨(hne hr).1, (hne hr).2.1⟩, fun _ hr => ?_⟩
    · by_cases hr : rcp = IB_OK <;>
        simp [hr, hgt, List.filter_cons, List.filter_append, filter_merge_exit_events,
          get_event, merge_event, Event.is_merge]
    · by_cases hr : rcp = IB_OK <;>
        simp [hr, hpt, List.filter_cons, List.filter_append, filter_free_exit_events,
          get_event, merge_event, Event.is_free]
    · intro c hcm
      rw [destroy_count_merge_log, residual_count_of_mem merged c _ hcm,
        List.count_eq_one_of_mem hnd hcm]
    · intro q
      rw [destroy_count_merge_log]
      by_cases hpm : q ∈ values.cells
      · rw [residual_count_of_mem merged q _ hpm, List.count_eq_one_of_mem hnd hpm]
      · rw [List.count_eq_zero_of_not_mem hpm]
        have := residual_count_le_one merged q values.cells
        omega
    · obtain ⟨hdup, hc2⟩ := hcase (hr hgt)
      refine ⟨m2, hdup, ?_⟩
      rcases hc2 with ⟨_, _, _, _, _, _, h1, _⟩ | h1
      · exact Or.inl h1
      · exact Or.inr h1

theorem pool_ne_of_load (m : Mem) (p : Ptr) (v : ib_kvstore_value_t) (i : Nat)
    (hv : load_value m p = some v) : Ptr.pool m.pools.length i ≠ p := by
  obtain ⟨mp, idx, blocks, rfl, hp, _⟩ := load_value_inv m p v hv
  have hlt := pool_lt_length m mp blocks hp
  intro he
  injection he with h1 _
  omega

theorem new_not_candidate (m : Mem) (cs : List Ptr) (hc : Candidates m cs) (i : Nat) :
    Ptr.pool m.pools.length i ∉ cs := by
  intro hin
  obtain ⟨a, ha⟩ := Option.ne_none_iff_exists'.mp (hc.1 _ hin)
  obtain ⟨idx, _, bs, he, hp, _⟩ := owned_arena_spec m _ a ha
  have hlt := pool_lt_length m a bs hp
  injection he with h1 _
  omega

theorem filter_destroy_merge_log (kvstore : ib_kvstore_t)
    (f : ib_kvstore_merge_policy_fn_t) (key : ib_kvstore_key_t) (values : ValueArray)
    (n : Nat) (rcp : ib_status_t) (merged : Ptr) :
    ([get_event kvstore key, merge_event kvstore f key values n] ++
        (if rcp = IB_OK then [Event.value_dup merged] else []) ++
        exit_events kvstore values merged).filter Event.is_destroy =
      (values.cells ++ residual merged values.cells).map Event.value_destroy := by
  by_cases hr : rcp = IB_OK <;>
    simp [hr, List.filter_cons, List.filter_append, filter_destroy_exit_events, get_event,
      merge_event, Event.is_destroy]

theorem filter_dup_merge_log (kvstore : ib_kvstore_t)
    (f : ib_kvstore_merge_policy_fn_t) (key : ib_kvstore_key_t) (values : ValueArray)
    (n : Nat) (rcp : ib_status_t) (merged : Ptr) :
    ([get_event kvstore key, merge_event kvstore f key values n] ++
        (if rcp = IB_OK then [Event.value_dup merged] else []) ++
        exit_events kvstore values merged).filter Event.is_dup =
      (if rcp = IB_OK then [Event.value_dup merged] else []) := by
  by_cases hr : rcp = IB_OK <;>
    simp [hr, List.filter_cons, List.filter_append, filter_dup_exit_events, get_event,
      merge_event, Event.is_dup]

theorem exit_mem_residual_released (m1 m2 : Mem) (hpr : Preserves m1 m2)
    (values : ValueArray) (merged : Ptr) (h : Heap) (a : Nat)
    (ha : owned_arena m1 merged = some a)
    (hres : residual merged values.cells = [merged]) :
    pool_live (exit_mem m2 values merged h) a = false := by
  have hin : a ∈ arenas_of m2 (residual merged values.cells) := by
    rw [hres]
    simp [arenas_of, owned_arena_preserved m1 m2 hpr merged a ha]
  simp [pool_live, exit_mem_pool_of_mem m2 values merged h a (Or.inr hin)]

theorem connect_live (code : Code) (addr : Nat) (ws : List Nat) (w : World)
    (fp cbdata : Nat) (f : ib_kvstore_connect_fn_t)
    (hh : load_handle w.mem (Ptr.heap addr) = some ws)
    (h1 : ws[connect_field]? = some fp) (h2 : ws[connect_cbdata_field]? = some cbdata)
    (h3 : fn_at code.connect fp = some f) :
    ib_kvstore_connect code (Ptr.heap addr) w =
      some ((f.run addr cbdata w.mem).1,
        { mem := (f.run addr cbdata w.mem).2,
          log := w.log ++ [Event.connect f.sym addr cbdata] }) := by
  simp only [ib_kvstore_connect, hh, h1, h2, h3]

theorem disconnect_live (code : Code) (addr : Nat) (ws : List Nat) (w : World)
    (fp cbdata : Nat) (f : ib_kvstore_connect_fn_t)
    (hh : load_handle w.mem (Ptr.heap addr) = some ws)
    (h1 : ws[disconnect_field]? = some fp) (h2 : ws[disconnect_cbdata_field]? = some cbdata)
    (h3 : fn_at code.connect fp = some f) :
    ib_kvstore_disconnect code (Ptr.heap addr) w =
      some ((f.run addr cbdata w.mem).1,
        { mem := (f.run addr cbdata w.mem).2,
          log := w.log ++ [Event.disconnect f.sym addr cbdata] }) := by
  simp only [ib_kvstore_disconnect, hh, h1, h2, h3]

theorem remove_live (code : Code) (addr : Nat) (ws : List Nat) (key : ib_kvstore_key_t)
    (w : World) (fp cbdata : Nat) (f : ib_kvstore_remove_fn_t)
    (hh : load_handle w.mem (Ptr.heap addr) = some ws)
    (h1 : ws[remove_field]? = some fp) (h2 : ws[remove_cbdata_field]? = some cbdata)
    (h3 : fn_at code.remove fp = some f) :
    ib_kvstore_remove code (Ptr.heap addr) key w =
      some ((f.run addr key cbdata w.mem).1,
        { mem := (f.run addr key cbdata w.mem).2,
          log := w.log ++ [Event.remove f.sym addr key cbdata] }) := by
  simp only [ib_kvstore_remove, hh, h1, h2, h3]

theorem fn_at_ne_zero {α : Type} (table : Nat → Option α) (fp : Nat) (f : α)
    (h : fn_at table fp = some f) : fp ≠ 0 := by
  intro h0
  unfold fn_at at h
  rw [if_pos h0] at h
  cases h

theorem destroy_live (code : Code) (addr : Nat) (ws : List Nat) (w : World)
    (fp cbdata : Nat) (f : ib_kvstore_destroy_fn_t)
    (hh : load_handle w.mem (Ptr.heap addr) = some ws)
    (h1 : ws[destroy_field]? = some fp) (h2 : ws[destroy_cbdata_field]? = some cbdata)
    (h3 : fn_at code.destroy fp = some f) :
    ib_kvstore_destroy code (Ptr.heap addr) w =
      some { mem := f.run addr cbdata w.mem,
             log := w.log ++ [Event.destroy f.sym addr cbdata] } := by
  simp only [ib_kvstore_destroy, hh, h1, h2, h3, if_neg (fn_at_ne_zero _ _ _ h3)]

/-! ## The claims -/

/-- C1: when the backend `get` succeeds with N>1 candidates, `ib_kvstore_get`
calls the effective merge policy exactly once, on the array and length the
backend returned; and when the policy reports OK and the allocations succeed,
it returns OK with a non-null value that reads the same as the policy's
resultant value (payload bytes and length, type bytes and length, expiration,
creation), having made exactly one duplicate, the duplicate of that
resultant. -/
theorem get_merges_once_and_returns_duplicate (kvstore : ib_kvstore_t)
    (override : Option ib_kvstore_merge_policy_fn_t) (key : ib_kvstore_key_t) (val : Ptr)
    (w : World) (values : ValueArray) (n : Nat) (m0 m1 : Mem) (rcp : ib_status_t)
    (merged : Ptr) (h : Heap)
    (hget : kvstore.get.run kvstore.addr key kvstore.get_cbdata w.mem =
      ((IB_OK, values, n), m0))
    (hn : n = values.cells.length) (hN : 1 < n) (hptr : values.ptr ≠ Ptr.null)
    (hpol : (effective_merge_policy kvstore override).run kvstore.addr key values n Ptr.null
      kvstore.merge_policy_cbdata m0 = some (rcp, merged, m1))
    (hc : Candidates m1 values.cells)
    (hm : merged = Ptr.null ∨ merged ∈ values.cells ∨
      ∃ a, owned_arena m1 merged = some a ∧ a ∉ arenas_of m1 values.cells)
    (hok : rcp = IB_OK → ∃ d, value_data m1 merged = some d)
    (hfree : kvstore.free.run kvstore.addr values.ptr kvstore.free_cbdata m1.heap = some h) :
    ∃ rc out mf evs,
      ib_kvstore_get kvstore override key val w =
        some (rc, out, { mem := mf, log := w.log ++ evs }) ∧
      evs.filter Event.is_merge =
        [merge_event kvstore (effective_merge_policy kvstore override) key values n] ∧
      (rcp = IB_OK → AllocOk m1 →
        rc = IB_OK ∧ out ≠ Ptr.null ∧
        evs.filter Event.is_dup = [Event.value_dup merged] ∧
        ∃ d, value_data m1 merged = some d ∧ value_data mf out = some d) := by
  by_cases hs : rcp = IB_OK ∧ AllocOk m1
  · obtain ⟨hrcp, hA⟩ := hs
    obtain ⟨d, hd⟩ := hok hrcp
    obtain ⟨v, pb, tb, hv, hp, ht, hdd⟩ := value_data_inv m1 merged d hd
    have hm2 : merged ∈ values.cells ∨
        ∃ a, owned_arena m1 merged = some a ∧ a ∉ arenas_of m1 values.cells := by
      rcases hm with hm | hm | hm
      · rw [hm] at hv; simp [load_value] at hv
      · exact Or.inl hm
      · exact Or.inr hm
    subst hrcp
    refine ⟨IB_OK, Ptr.pool m1.pools.length 0, exit_mem (dup_mem m1 v pb tb) values merged h, _,
      get_merge_ok kvstore override key val w values n m0 m1 merged v pb tb h hget hn hN hptr
        hpol hA hc hv hp ht hm2 hfree, ?_, fun _ _ => ⟨rfl, by simp, ?_, d, hd, ?_⟩⟩
    · simp [List.filter_cons, filter_merge_exit_events, get_event, merge_event, Event.is_merge]
    · simp [List.filter_cons, filter_dup_exit_events, get_event, merge_event, Event.is_dup]
    · rw [hdd]
      exact dup_value_data_final m1 values merged h v pb tb hc hp ht hm
  · obtain ⟨rc, out, m2, _, hg, _, _⟩ := get_merge_total kvstore override key val w values n
      m0 m1 rcp merged h hget hn hN hptr hpol hc hm hok hfree
    refine ⟨rc, out, _, _, hg, ?_, fun h1 h2 => absurd ⟨h1, h2⟩ hs⟩
    by_cases hr : rcp = IB_OK <;>
      simp [hr, List.filter_cons, List.filter_append, filter_merge_exit_events, get_event,
        merge_event, Event.is_merge]

/-- Two versions stored under `"k"`: the merge policy is called once with the
two candidates and `get` returns OK with a duplicate of the first of them. -/
theorem get_merges_once_and_returns_duplicate_witness :
    ∃ out mf evs,
      ib_kvstore_get (store_with two_versions_get) none key_k Ptr.null two_versions_world =
        some (IB_OK, out, { mem := mf, log := two_versions_world.log ++ evs }) ∧
      evs.filter Event.is_merge =
        [Event.merge_policy FnSym.default_merge_policy 1 key_k
          { ptr := Ptr.heap 0, cells := [Ptr.pool 0 0, Ptr.pool 1 0] } 2 0] ∧
      evs.filter Event.is_dup = [Event.value_dup (Ptr.pool 0 0)] ∧
      value_data mf out =
        some { payload := [118, 49], value_length := 2, type_bytes := [116], type_length := 1,
               expiration := 10, creation := 1 } := by
  obtain ⟨rc, out, mf, evs, hg, hmerge, hrest⟩ :=
    get_merges_once_and_returns_duplicate (store_with two_versions_get) none key_k Ptr.null
      two_versions_world { ptr := Ptr.heap 0, cells := [Ptr.pool 0 0, Ptr.pool 1 0] } 2
      two_versions_mem two_versions_mem IB_OK (Ptr.pool 0 0) [none]
      rfl rfl (by decide) (by decide) rfl (by decide) (Or.inr (Or.inl (by decide)))
      (fun _ => ⟨_, rfl⟩) rfl
  obtain ⟨hrc, _, hdup, d, hd, hout⟩ := hrest rfl (by decide)
  subst hrc
  have hd2 : d = ValueData.mk [118, 49] 2 [116] 1 10 1 := (Option.some.inj hd).symm
  subst hd2
  exact ⟨out, mf, evs, hg, hmerge, hdup, hout⟩

/-- C2: when the backend returns N>1 candidates, each a live value with an
arena of its own, `ib_kvstore_get` destroys each candidate exactly once and
destroys no value twice, whether the merge result is one of the candidates, a
freshly built value or `NULL`, and whatever the policy and the duplicate
report: the destroys are the N candidates in order, then the merge result if
it is not a candidate, and every candidate arena goes from live to released. -/
theorem get_destroys_each_candidate_once (kvstore : ib_kvstore_t)
    (override : Option ib_kvstore_merge_policy_fn_t) (key : ib_kvstore_key_t) (val : Ptr)
    (w : World) (values : ValueArray) (n : Nat) (m0 m1 : Mem) (rcp : ib_status_t)
    (merged : Ptr) (h : Heap)
    (hget : kvstore.get.run kvstore.addr key kvstore.get_cbdata w.mem =
      ((IB_OK, values, n), m0))
    (hn : n = values.cells.length) (hN : 1 < n) (hptr : values.ptr ≠ Ptr.null)
    (hpol : (effective_merge_policy kvstore override).run kvstore.addr key values n Ptr.null
      kvstore.merge_policy_cbdata m0 = some (rcp, merged, m1))
    (hc : Candidates m1 values.cells)
    (hm : merged = Ptr.null ∨ merged ∈ values.cells ∨
      ∃ a, owned_arena m1 merged = some a ∧ a ∉ arenas_of m1 values.cells)
    (hok : rcp = IB_OK → ∃ d, value_data m1 merged = some d)
    (hfree : kvstore.free.run kvstore.addr values.ptr kvstore.free_cbdata m1.heap = some h) :
    ∃ rc out mf evs,
      ib_kvstore_get kvstore override key val w =
        some (rc, out, { mem := mf, log := w.log ++ evs }) ∧
      (∀ c ∈ values.cells, destroy_count evs c = 1) ∧
      (∀ p, destroy_count evs p ≤ 1) ∧
      evs.filter Event.is_destroy =
        (values.cells ++ residual merged values.cells).map Event.value_destroy ∧
      (∀ a ∈ arenas_of m1 values.cells, pool_live m1 a = true ∧ pool_live mf a = false) := by
  obtain ⟨rc, out, m2, hpr, hg, _, _⟩ := get_merge_total kvstore override key val w values n
    m0 m1 rcp merged h hget hn hN hptr hpol hc hm hok hfree
  have hnd := candidates_nodup m1 values.cells hc
  refine ⟨rc, out, _, _, hg, ?_, ?_, ?_, ?_⟩
  · intro c hcm
    rw [destroy_count_merge_log, residual_count_of_mem merged c _ hcm,
      List.count_eq_one_of_mem hnd hcm]
  · intro p
    rw [destroy_count_merge_log]
    by_cases hpm : p ∈ values.cells
    · rw [residual_count_of_mem merged p _ hpm, List.count_eq_one_of_mem hnd hpm]
    · rw [List.count_eq_zero_of_not_mem hpm]
      have := residual_count_le_one merged p values.cells
      omega
  · by_cases hr : rcp = IB_OK <;>
      simp [hr, List.filter_cons, List.filter_append, filter_destroy_exit_events, get_event,
        merge_event, Event.is_destroy]
  · intro a ha
    refine ⟨?_, ?_⟩
    · unfold arenas_of at ha
      obtain ⟨c, _, hca⟩ := List.mem_filterMap.mp ha
      obtain ⟨_, _, bs, _, hp, _⟩ := owned_arena_spec m1 c a hca
      simp [pool_live, hp]
    · simp [pool_live, exit_mem_released m1 m2 hpr values hc merged h a ha]

/-- Two versions under `"k"` and a policy that builds a fresh copy of the last
one: both candidates and the fresh merge result are destroyed once each. -/
theorem get_destroys_each_candidate_once_witness :
    ∃ rc out mf evs,
      ib_kvstore_get (store_with two_versions_get) (some copy_last_policy) key_k Ptr.null
          two_versions_world =
        some (rc, out, { mem := mf, log := two_versions_world.log ++ evs }) ∧
      destroy_count evs (Ptr.pool 0 0) = 1 ∧
      destroy_count evs (Ptr.pool 1 0) = 1 ∧
      evs.filter Event.is_destroy =
        [Event.value_destroy (Ptr.pool 0 0), Event.value_destroy (Ptr.pool 1 0),
         Event.value_destroy (Ptr.pool 2 0)] ∧
      pool_live mf 0 = false ∧ pool_live mf 1 = false := by
  obtain ⟨rc, out, mf, evs, hg, hone, _, hlist, hrel⟩ :=
    get_destroys_each_candidate_once (store_with two_versions_get) (some copy_last_policy)
      key_k Ptr.null two_versions_world
      { ptr := Ptr.heap 0, cells := [Ptr.pool 0 0, Ptr.pool 1 0] } 2
      two_versions_mem two_versions_copied_mem IB_OK (Ptr.pool 2 0) [none]
      rfl rfl (by decide) (by decide) rfl (by decide)
      (Or.inr (Or.inr ⟨2, rfl, by decide⟩)) (fun _ => ⟨_, rfl⟩) rfl
  exact ⟨rc, out, mf, evs, hg, hone _ (by decide), hone _ (by decide), hlist,
    (hrel 0 (by decide)).2, (hrel 1 (by decide)).2⟩

/-- C3: when the backend `get` succeeds with exactly one candidate `c`, a
live value owning arena `a`, and the allocations succeed, `ib_kvstore_get`
returns OK with a value that reads the same as `c` (payload bytes and length,
type bytes and length, expiration, creation) and whose arena is a new one,
different from `a`; `c` is destroyed exactly once, no merge policy is called,
and the returned value is read here in the final memory, in which `a` has
been released. -/
theorem get_single_candidate_returns_independent_copy (kvstore : ib_kvstore_t)
    (override : Option ib_kvstore_merge_policy_fn_t) (key : ib_kvstore_key_t) (val : Ptr)
    (w : World) (values : ValueArray) (m0 : Mem) (c : Ptr) (a : Nat) (d : ValueData)
    (h : Heap)
    (hget : kvstore.get.run kvstore.addr key kvstore.get_cbdata w.mem =
      ((IB_OK, values, 1), m0))
    (hcells : values.cells = [c]) (hptr : values.ptr ≠ Ptr.null)
    (hA : AllocOk m0) (hown : owned_arena m0 c = some a)
    (hd : value_data m0 c = some d)
    (hfree : kvstore.free.run kvstore.addr values.ptr kvstore.free_cbdata m0.heap = some h) :
    ∃ out mf evs,
      ib_kvstore_get kvstore override key val w =
        some (IB_OK, out, { mem := mf, log := w.log ++ evs }) ∧
      out ≠ Ptr.null ∧
      value_data mf out = some d ∧
      value_arena mf out = some m0.pools.length ∧ m0.pools.length ≠ a ∧
      pool_live m0 m0.pools.length = false ∧ pool_live mf m0.pools.length = true ∧
      destroy_count evs c = 1 ∧
      evs.filter Event.is_destroy = [Event.value_destroy c] ∧
      evs.filter Event.is_merge = [] ∧
      pool_live m0 a = true ∧ pool_live mf a = false := by
  obtain ⟨v, pb, tb, hv, hp, ht, hdd⟩ := value_data_inv m0 c d hd
  have hc : Candidates m0 values.cells := by
    rw [hcells]; exact candidates_singleton m0 c a hown
  have hpool := pool_new_after_exit m0 values Ptr.null h v pb tb hc (Or.inl rfl)
  have hres : residual Ptr.null [c] = [] := by simp [residual]
  have hars : a ∈ arenas_of m0 values.cells := by
    rw [hcells]; simp [arenas_of, hown]
  refine ⟨Ptr.pool m0.pools.length 0, exit_mem (dup_mem m0 v pb tb) values Ptr.null h, _,
    get_single_ok kvstore override key val w values m0 c v pb tb h hget hcells hptr hA hc
      hv hp ht hfree, by simp, ?_, ?_, ?_, pool_live_length m0, ?_, ?_, ?_, ?_, ?_, ?_⟩
  · rw [hdd]
    exact dup_value_data_final m0 values Ptr.null h v pb tb hc hp ht (Or.inl rfl)
  · rw [value_arena_of_pool _ _ _ _ hpool]; rfl
  · exact Nat.ne_of_gt (owned_arena_lt m0 c a hown)
  · simp [pool_live, hpool]
  · have hcnt := destroy_count_exit_events kvstore values Ptr.null c
    unfold destroy_count at hcnt ⊢
    simp [List.count_cons, get_event, hcnt, hres, hcells]
  · simp [List.filter_cons, filter_destroy_exit_events, get_event, Event.is_destroy, hres,
      hcells]
  · simp [List.filter_cons, filter_merge_exit_events, get_event, Event.is_merge]
  · obtain ⟨_, _, bs, _, hpa, _⟩ := owned_arena_spec m0 c a hown
    simp [pool_live, hpa]
  · simp [pool_live, exit_mem_released m0 _ (preserves_dup_mem m0 v pb tb) values hc
      Ptr.null h a hars]

/-- One stored version `"v1"` in arena 0: `get` returns a copy in the new
arena 2, and the candidate's arena 0 is released. -/
theorem get_single_candidate_returns_independent_copy_witness :
    ∃ out mf evs,
      ib_kvstore_get (store_with one_version_get) none key_k Ptr.null two_versions_world =
        some (IB_OK, out, { mem := mf, log := two_versions_world.log ++ evs }) ∧
      out ≠ Ptr.null ∧
      value_data mf out = some (ValueData.mk [118, 49] 2 [116] 1 10 1) ∧
      value_arena mf out = some 2 ∧ 2 ≠ 0 ∧
      pool_live two_versions_mem 2 = false ∧ pool_live mf 2 = true ∧
      destroy_count evs (Ptr.pool 0 0) = 1 ∧
      evs.filter Event.is_destroy = [Event.value_destroy (Ptr.pool 0 0)] ∧
      evs.filter Event.is_merge = [] ∧
      pool_live two_versions_mem 0 = true ∧ pool_live mf 0 = false :=
  get_single_candidate_returns_independent_copy (store_with one_version_get) none key_k
    Ptr.null two_versions_world { ptr := Ptr.heap 0, cells := [Ptr.pool 0 0] }
    two_versions_mem (Ptr.pool 0 0) 0 (ValueData.mk [118, 49] 2 [116] 1 10 1) [none]
    rfl rfl (by decide) (by decide) rfl rfl rfl

/-- C4: when the backend `get` succeeds with zero candidates, `ib_kvstore_get`
returns IB_ENOENT and sets the output slot to `NULL`; it calls no merge policy,
makes no duplicate and destroys nothing, and leaves the arenas as the backend
left them. -/
theorem get_zero_candidates_not_found (kvstore : ib_kvstore_t)
    (override : Option ib_kvstore_merge_policy_fn_t) (key : ib_kvstore_key_t) (val : Ptr)
    (w : World) (values : ValueArray) (m0 : Mem)
    (hget : kvstore.get.run kvstore.addr key kvstore.get_cbdata w.mem =
      ((IB_OK, values, 0), m0))
    (hfree : values.ptr ≠ Ptr.null →
      kvstore.free.run kvstore.addr values.ptr kvstore.free_cbdata m0.heap ≠ none) :
    ∃ mf evs,
      ib_kvstore_get kvstore override key val w =
        some (IB_ENOENT, Ptr.null, { mem := mf, log := w.log ++ evs }) ∧
      evs.filter Event.is_merge = [] ∧
      evs.filter Event.is_dup = [] ∧
      evs.filter Event.is_destroy = [] ∧
      mf.pools = m0.pools := by
  rw [get_zero kvstore override key val w values m0 hget]
  by_cases hp : values.ptr = Ptr.null
  · exact ⟨m0, [get_event kvstore key], by simp [hp], by simp [get_event, Event.is_merge],
      by simp [get_event, Event.is_dup], by simp [get_event, Event.is_destroy], rfl⟩
  · obtain ⟨h, hh⟩ := Option.ne_none_iff_exists'.mp (hfree hp)
    exact ⟨{ m0 with heap := h }, [get_event kvstore key,
        Event.free kvstore.free.sym kvstore.addr values.ptr kvstore.free_cbdata],
      by simp [hp, hh], by simp [get_event, Event.is_merge],
      by simp [get_event, Event.is_dup], by simp [get_event, Event.is_destroy], rfl⟩

/-- The key `"missing"` against an empty backend: NotFound, a `NULL` output
slot, and no merge, duplicate or destroy. -/
theorem get_zero_candidates_not_found_witness :
    ∃ mf evs,
      ib_kvstore_get (store_with empty_get) none key_missing (Ptr.pool 9 9)
          { mem := empty_mem, log := [] } =
        some (IB_ENOENT, Ptr.null, { mem := mf, log := [] ++ evs }) ∧
      evs.filter Event.is_merge = [] ∧
      evs.filter Event.is_dup = [] ∧
      evs.filter Event.is_destroy = [] ∧
      mf.pools = empty_mem.pools :=
  get_zero_candidates_not_found (store_with empty_get) none key_missing (Ptr.pool 9 9)
    { mem := empty_mem, log := [] } { ptr := Ptr.null, cells := [] } empty_mem rfl
    (fun hp => absurd rfl hp)

/-- C6: when the backend `get` reports a status other than OK,
`ib_kvstore_get` returns that status and sets the output slot to `NULL`; the
one call it makes is the backend `get` call (no retry, no merge policy, no
duplicate, no destroy, no free), and memory is as the backend left it. -/
theorem get_backend_error_propagates (kvstore : ib_kvstore_t)
    (override : Option ib_kvstore_merge_policy_fn_t) (key : ib_kvstore_key_t) (val : Ptr)
    (w : World) (s : ib_status_t) (values : ValueArray) (n : Nat) (m0 : Mem)
    (hget : kvstore.get.run kvstore.addr key kvstore.get_cbdata w.mem = ((s, values, n), m0))
    (hs : s ≠ IB_OK) :
    ib_kvstore_get kvstore override key val w =
      some (s, Ptr.null,
        { mem := m0,
          log := w.log ++ [Event.get kvstore.get.sym kvstore.addr key kvstore.get_cbdata] }) :=
  get_backend_error kvstore override key val w s values n m0 hget hs

/-- A backend whose `get` fails with the backend-defined status 7. -/
theorem get_backend_error_propagates_witness :
    ib_kvstore_get (store_with failing_get) none key_k (Ptr.pool 9 9) two_versions_world =
      some (IB_EOTHER 7, Ptr.null,
        { mem := two_versions_mem,
          log := [Event.get (FnSym.user 3) 1 key_k 0] }) :=
  get_backend_error_propagates (store_with failing_get) none key_k (Ptr.pool 9 9)
    two_versions_world (IB_EOTHER 7) { ptr := Ptr.null, cells := [] } 0 two_versions_mem
    rfl (by decide)

/-- C8: the default merge policy, on any array at a non-null address holding
`value_size` candidates: with zero candidates it returns OK and leaves the
output slot holding what it held; with one or more it returns OK and the slot
holds `values[0]` itself; in both cases memory, and so every candidate, is
unchanged. -/
theorem default_merge_policy_selects_first (kvstore : Nat) (key : ib_kvstore_key_t)
    (values : ValueArray) (value_size : Nat) (resultant_value : Ptr) (cbdata : Nat) (m : Mem)
    (hptr : values.ptr ≠ Ptr.null) (hn : value_size = values.cells.length) :
    default_merge_policy kvstore key values value_size resultant_value cbdata m =
      some (IB_OK,
        (match values.cells with
         | [] => resultant_value
         | c :: _ => c),
        m) :=
  default_merge_policy_eq kvstore key values value_size resultant_value cbdata m hptr hn

/-- With no candidate the slot keeps its content; with the two stored
versions the slot holds the first. -/
theorem default_merge_policy_selects_first_witness :
    default_merge_policy 1 key_k { ptr := Ptr.heap 0, cells := [] } 0 (Ptr.pool 5 0) 0
        two_versions_mem = some (IB_OK, Ptr.pool 5 0, two_versions_mem) ∧
    default_merge_policy 1 key_k { ptr := Ptr.heap 0, cells := [Ptr.pool 0 0, Ptr.pool 1 0] } 2
        Ptr.null 0 two_versions_mem = some (IB_OK, Ptr.pool 0 0, two_versions_mem) :=
  ⟨default_merge_policy_selects_first 1 key_k { ptr := Ptr.heap 0, cells := [] } 0
      (Ptr.pool 5 0) 0 two_versions_mem (by decide) rfl,
   default_merge_policy_selects_first 1 key_k
      { ptr := Ptr.heap 0, cells := [Ptr.pool 0 0, Ptr.pool 1 0] } 2 Ptr.null 0
      two_versions_mem (by decide) rfl⟩

/-- C10: for a readable value whose arena `a` is live, when the allocations
succeed `ib_kvstore_value_dup` returns OK and a new value that reads the same
as the source (payload bytes and length, type bytes and length, expiration,
creation) and whose arena is a newly created one, different from `a`; the
source and every arena that existed before are unchanged.  A second duplicate
of the same source reads the same again, and the two duplicates are different
values in two different arenas. -/
theorem value_dup_deep_copies (m : Mem) (value slot slot2 : Ptr) (a : Nat) (d : ValueData)
    (hA : AllocOk m) (hd : value_data m value = some d)
    (ha : value_arena m value = some a) (hlive : pool_live m a = true) :
    ∃ out m2 out2 m3,
      ib_kvstore_value_dup value slot m = some (IB_OK, out, m2) ∧
      out ≠ Ptr.null ∧
      value_data m2 out = some d ∧
      value_arena m2 out = some m.pools.length ∧ m.pools.length ≠ a ∧
      pool_live m m.pools.length = false ∧ pool_live m2 m.pools.length = true ∧
      load_value m2 value = load_value m value ∧
      value_arena m2 value = some a ∧
      value_data m2 value = some d ∧
      Preserves m m2 ∧
      ib_kvstore_value_dup value slot2 m2 = some (IB_OK, out2, m3) ∧
      value_data m3 out2 = some d ∧
      value_data m3 out = some d ∧
      out2 ≠ out ∧
      value_arena m3 out = some m.pools.length ∧
      value_arena m3 out2 = some (m.pools.length + 1) := by
  obtain ⟨v, pb, tb, hv, hp, ht, hdd⟩ := value_data_inv m value d hd
  have hpr := preserves_dup_mem m v pb tb
  have hv2 := load_value_preserved m _ hpr value v hv
  have hp2 := read_bytes_preserved m _ hpr _ _ _ hp
  have ht2 := read_bytes_preserved m _ hpr _ _ _ ht
  have hpr2 := preserves_dup_mem (dup_mem m v pb tb) v pb tb
  have hnew := value_data_dup_mem_new m v pb tb hp ht
  have hnew2 := value_data_dup_mem_new (dup_mem m v pb tb) v pb tb hp2 ht2
  have hlen := dup_mem_length m v pb tb
  refine ⟨Ptr.pool m.pools.length 0, dup_mem m v pb tb,
    Ptr.pool (dup_mem m v pb tb).pools.length 0, dup_mem (dup_mem m v pb tb) v pb tb,
    dup_ok m value slot v pb tb hA hv hp ht, by simp, ?_, ?_, ?_, pool_live_length m, ?_, ?_,
    ?_, ?_, hpr, dup_ok _ value slot2 v pb tb (allocOk_dup_mem m v pb tb hA) hv2 hp2 ht2, ?_, ?_,
    ?_, ?_, ?_⟩
  · rw [hdd]; exact hnew
  · rw [value_arena_of_pool _ _ _ _ (dup_mem_pool_new m v pb tb)]; rfl
  · intro hEq
    have hl : pool_live m m.pools.length = false := pool_live_length m
    rw [hEq, hlive] at hl
    cases hl
  · simp [pool_live, dup_mem_pool_new]
  · rw [hv2, hv]
  · rw [← ha]; simp only [value_arena, hv2, hv]
  · exact value_data_preserved m _ hpr value d hd
  · rw [hdd]; exact hnew2
  · rw [hdd]; exact value_data_preserved _ _ hpr2 _ _ hnew
  · rw [hlen]; simp
  · have hpool := hpr2.1 _ _ (dup_mem_pool_new m v pb tb)
    rw [value_arena_of_pool _ _ _ _ hpool]; rfl
  · rw [← hlen, value_arena_of_pool _ _ _ _ (dup_mem_pool_new (dup_mem m v pb tb) v pb tb)]
    rfl

/-- Scenario A: a created value whose payload is set to the five bytes
`"hello"`, no type set, duplicates to a value with payload `"hello"` in
another arena. -/
theorem value_dup_deep_copies_witness :
    (match ib_kvstore_value_create Ptr.null hello_heap with
      | some (_, p, m) => ib_kvstore_value_value_set p (Ptr.heap 0) 5 m
      | none => none) = some hello_mem ∧
    ∃ out m2 out2 m3,
      ib_kvstore_value_dup (Ptr.pool 0 0) Ptr.null hello_mem = some (IB_OK, out, m2) ∧
      out ≠ Ptr.null ∧
      value_data m2 out = some (ValueData.mk [104, 101, 108, 108, 111] 5 [] 0 0 0) ∧
      value_arena m2 out = some 1 ∧ 1 ≠ 0 ∧
      pool_live hello_mem 1 = false ∧ pool_live m2 1 = true ∧
      load_value m2 (Ptr.pool 0 0) = load_value hello_mem (Ptr.pool 0 0) ∧
      value_arena m2 (Ptr.pool 0 0) = some 0 ∧
      value_data m2 (Ptr.pool 0 0) = some (ValueData.mk [104, 101, 108, 108, 111] 5 [] 0 0 0) ∧
      Preserves hello_mem m2 ∧
      ib_kvstore_value_dup (Ptr.pool 0 0) Ptr.null m2 = some (IB_OK, out2, m3) ∧
      value_data m3 out2 = some (ValueData.mk [104, 101, 108, 108, 111] 5 [] 0 0 0) ∧
      value_data m3 out = some (ValueData.mk [104, 101, 108, 108, 111] 5 [] 0 0 0) ∧
      out2 ≠ out ∧
      value_arena m3 out = some 1 ∧
      value_arena m3 out2 = some (1 + 1) :=
  ⟨rfl, value_dup_deep_copies hello_mem (Ptr.pool 0 0) Ptr.null Ptr.null 0
    (ValueData.mk [104, 101, 108, 108, 111] 5 [] 0 0 0) (by decide) rfl rfl rfl⟩

/-- C9, with the condition the code needs: `ib_kvstore_init` returns OK and
installs `kvstore_malloc`, `kvstore_free` and `default_merge_policy`, leaving
the backend `get` slot as it was; after it, a `get` with no override on a key
for which the backend returns N>=1 live candidates returns OK, provided the
allocations of the duplicate succeed, with a value that reads the same as
`candidates[0]`: payload, type, expiration and creation. -/
theorem init_then_get_first_seen_wins (kvstore : ib_kvstore_t) (key : ib_kvstore_key_t)
    (val : Ptr) (w : World) (values : ValueArray) (n : Nat) (m0 : Mem) (c : Ptr)
    (d : ValueData) (h : Heap)
    (hget : kvstore.get.run kvstore.addr key kvstore.get_cbdata w.mem =
      ((IB_OK, values, n), m0))
    (hn : n = values.cells.length) (h1 : 1 ≤ n) (hptr : values.ptr ≠ Ptr.null)
    (hc0 : values.cells.head? = some c)
    (hA : AllocOk m0) (hc : Candidates m0 values.cells)
    (hd : value_data m0 c = some d)
    (hfree : kvstore_free kvstore.addr values.ptr kvstore.free_cbdata m0.heap = some h) :
    (ib_kvstore_init kvstore).1 = IB_OK ∧
    (ib_kvstore_init kvstore).2.malloc.sym = FnSym.kvstore_malloc ∧
    (ib_kvstore_init kvstore).2.malloc.run = kvstore_malloc ∧
    (ib_kvstore_init kvstore).2.free.sym = FnSym.kvstore_free ∧
    (ib_kvstore_init kvstore).2.free.run = kvstore_free ∧
    (ib_kvstore_init kvstore).2.default_merge_policy.sym = FnSym.default_merge_policy ∧
    (ib_kvstore_init kvstore).2.default_merge_policy.run = default_merge_policy ∧
    (ib_kvstore_init kvstore).2.get = kvstore.get ∧
    ∃ out mf evs,
      ib_kvstore_get (ib_kvstore_init kvstore).2 none key val w =
        some (IB_OK, out, { mem := mf, log := w.log ++ evs }) ∧
      out ≠ Ptr.null ∧
      value_data mf out = some d := by
  refine ⟨rfl, rfl, rfl, rfl, rfl, rfl, rfl, rfl, ?_⟩
  obtain ⟨v, pb, tb, hv, hp, ht, hdd⟩ := value_data_inv m0 c d hd
  obtain ⟨cs, hcs⟩ : ∃ cs, values.cells = c :: cs := by
    cases hl : values.cells with
    | nil => rw [hl] at hc0; cases hc0
    | cons x xs =>
      rw [hl] at hc0
      simp only [List.head?_cons, Option.some.injEq] at hc0
      exact ⟨xs, by rw [hc0]⟩
  have hmem : c ∈ values.cells := by rw [hcs]; exact List.mem_cons_self c cs
  by_cases hN : 1 < n
  · have hpol : (effective_merge_policy (ib_kvstore_init kvstore).2 none).run
        (ib_kvstore_init kvstore).2.addr key values n Ptr.null
        (ib_kvstore_init kvstore).2.merge_policy_cbdata m0 = some (IB_OK, c, m0) := by
      have := default_merge_policy_eq kvstore.addr key values n Ptr.null
        kvstore.merge_policy_cbdata m0 hptr hn
      rw [hcs] at this
      exact this
    refine ⟨Ptr.pool m0.pools.length 0, exit_mem (dup_mem m0 v pb tb) values c h, _,
      get_merge_ok (ib_kvstore_init kvstore).2 none key val w values n m0 m0 c v pb tb h
        hget hn hN hptr hpol hA hc hv hp ht (Or.inl hmem) hfree, by simp, ?_⟩
    rw [hdd]
    exact dup_value_data_final m0 values c h v pb tb hc hp ht (Or.inr (Or.inl hmem))
  · have hn1 : n = 1 := by omega
    subst hn1
    have hcells : values.cells = [c] := by
      rw [hcs] at hn ⊢
      simp only [List.length_cons] at hn
      have : cs = [] := List.eq_nil_of_length_eq_zero (by omega)
      rw [this]
    refine ⟨Ptr.pool m0.pools.length 0, exit_mem (dup_mem m0 v pb tb) values Ptr.null h, _,
      get_single_ok (ib_kvstore_init kvstore).2 none key val w values m0 c v pb tb h
        hget hcells hptr hA hc hv hp ht hfree, by simp, ?_⟩
    rw [hdd]
    exact dup_value_data_final m0 values Ptr.null h v pb tb hc hp ht (Or.inl rfl)

/-- A handle initialised by `ib_kvstore_init` over the backend holding two
versions: `get` returns a copy of the first version, `"v1"`. -/
theorem init_then_get_first_seen_wins_witness :
    ∃ out mf evs,
      ib_kvstore_get (ib_kvstore_init (store_with two_versions_get)).2 none key_k Ptr.null
          two_versions_world =
        some (IB_OK, out, { mem := mf, log := two_versions_world.log ++ evs }) ∧
      out ≠ Ptr.null ∧
      value_data mf out = some (ValueData.mk [118, 49] 2 [116] 1 10 1) :=
  (init_then_get_first_seen_wins (store_with two_versions_get) key_k Ptr.null
    two_versions_world { ptr := Ptr.heap 0, cells := [Ptr.pool 0 0, Ptr.pool 1 0] } 2
    two_versions_mem (Ptr.pool 0 0) (ValueData.mk [118, 49] 2 [116] 1 10 1) [none]
    rfl rfl (by decide) (by decide) rfl (by decide) (by decide) rfl rfl).2.2.2.2.2.2.2.2

/-- C5: absence and a valid empty value are not conflated.  For a backend
that does not itself report IB_ENOENT and a merge policy that reports OK, over
live candidates: `ib_kvstore_get` returns, and its status is IB_ENOENT exactly
when the backend `get` succeeded with zero candidates, whether or not the
allocations succeed; and when the backend returns exactly one candidate whose
payload length is 0 and the allocations succeed, it returns OK with a
non-null value whose payload is empty, of length 0.  (`merged` and `m1` are
the merge result and the memory after the policy when N>1, and the single
candidate and the memory after the backend call when N=1.) -/
theorem get_not_found_iff_zero_candidates (kvstore : ib_kvstore_t)
    (override : Option ib_kvstore_merge_policy_fn_t) (key : ib_kvstore_key_t) (val : Ptr)
    (w : World) (rcb : ib_status_t) (values : ValueArray) (n : Nat) (m0 m1 : Mem)
    (merged : Ptr) (d : ValueData) (h : Heap)
    (hget : kvstore.get.run kvstore.addr key kvstore.get_cbdata w.mem =
      ((rcb, values, n), m0))
    (hrcb : rcb ≠ IB_ENOENT)
    (hn : n = values.cells.length)
    (hptr : 0 < n → values.ptr ≠ Ptr.null)
    (hpol : 1 < n →
      (effective_merge_policy kvstore override).run kvstore.addr key values n Ptr.null
        kvstore.merge_policy_cbdata m0 = some (IB_OK, merged, m1))
    (hm : 1 < n → merged ∈ values.cells ∨
      ∃ a, owned_arena m1 merged = some a ∧ a ∉ arenas_of m1 values.cells)
    (hone : n ≤ 1 → m1 = m0)
    (hcell : n = 1 → values.cells = [merged])
    (hc : Candidates m1 values.cells)
    (hd : 0 < n → value_data m1 merged = some d)
    (hfree : values.ptr ≠ Ptr.null →
      kvstore.free.run kvstore.addr values.ptr kvstore.free_cbdata m1.heap = some h) :
    ∃ rc out mf evs,
      ib_kvstore_get kvstore override key val w =
        some (rc, out, { mem := mf, log := w.log ++ evs }) ∧
      (rc = IB_ENOENT ↔ rcb = IB_OK ∧ n = 0) ∧
      (rcb = IB_OK → n = 1 → d.value_length = 0 → AllocOk m1 →
        rc = IB_OK ∧ out ≠ Ptr.null ∧ value_data mf out = some d ∧ d.payload = []) := by
  by_cases hb : rcb = IB_OK
  · subst hb
    rcases Nat.lt_trichotomy n 1 with hlt | heq | hgt
    · have h0 : n = 0 := by omega
      subst h0
      have hm01 := hone (by omega)
      subst hm01
      have hz := get_zero kvstore override key val w values m1 hget
      by_cases hp : values.ptr = Ptr.null
      · refine ⟨IB_ENOENT, Ptr.null, m1, [get_event kvstore key], ?_, by simp,
          fun _ h1 => by omega⟩
        rw [hz]; simp [hp]
      · refine ⟨IB_ENOENT, Ptr.null, { m1 with heap := h }, [get_event kvstore key,
          Event.free kvstore.free.sym kvstore.addr values.ptr kvstore.free_cbdata], ?_,
          by simp, fun _ h1 => by omega⟩
        rw [hz]; simp [hp, hfree hp]
    · subst heq
      have hm01 := hone (by omega)
      subst hm01
      have hdd := hd (by omega)
      obtain ⟨v, pb, tb, hv, hp, ht, hde⟩ := value_data_inv m1 merged d hdd
      have hpt := hptr (by omega)
      by_cases hA : AllocOk m1
      · refine ⟨IB_OK, Ptr.pool m1.pools.length 0,
          exit_mem (dup_mem m1 v pb tb) values Ptr.null h, _,
          get_single_ok kvstore override key val w values m1 merged v pb tb h hget
            (hcell rfl) hpt hA hc hv hp ht (hfree hpt), by simp,
          fun _ _ hlen _ => ⟨rfl, by simp, ?_, ?_⟩⟩
        · rw [hde]
          exact dup_value_data_final m1 values Ptr.null h v pb tb hc hp ht (Or.inl rfl)
        · have hl := read_bytes_length m1 _ _ _ hp
          rw [hde] at hlen ⊢
          simp only [dup_data] at hlen ⊢
          exact List.eq_nil_of_length_eq_zero (by omega)
      · obtain ⟨rc, out, m2, _, hg, hcase⟩ := get_single_total kvstore override key val w
          values m1 merged v pb tb h hget (hcell rfl) hpt hc hv hp ht (hfree hpt)
        refine ⟨rc, out, _, _, hg, ?_, fun _ _ _ hA2 => absurd hA2 hA⟩
        constructor
        · intro hcontra
          rcases hcase with ⟨h1, _⟩ | ⟨h1, _⟩ <;> rw [h1] at hcontra <;> cases hcontra
        · intro ⟨_, h0⟩; omega
    · have hdd := hd (by omega)
      have hpt := hptr (by omega)
      obtain ⟨rc, out, m2, _, hg, _, hcase⟩ := get_merge_total kvstore override key val w
        values n m0 m1 IB_OK merged h hget hn hgt hpt (hpol hgt) hc (Or.inr (hm hgt))
        (fun _ => ⟨d, hdd⟩) (hfree hpt)
      refine ⟨rc, out, _, _, hg, ?_, fun _ h1 => by omega⟩
      constructor
      · intro hcontra
        rcases hcase rfl with ⟨_, _, _, _, _, _, h1, _⟩ | ⟨h1, _⟩ <;>
          rw [h1] at hcontra <;> cases hcontra
      · intro ⟨_, h0⟩; omega
  · refine ⟨rcb, Ptr.null, m0, [get_event kvstore key],
      get_backend_error kvstore override key val w rcb values n m0 hget hb, ?_,
      fun h1 => absurd h1 hb⟩
    constructor
    · intro hcontra; exact absurd hcontra hrcb
    · intro ⟨h1, _⟩; exact absurd h1 hb

/-- One stored version whose payload is empty: `get` returns OK, not
IB_ENOENT, with a non-null value whose payload is the empty byte sequence. -/
theorem get_not_found_iff_zero_candidates_witness :
    ∃ out mf evs,
      ib_kvstore_get (store_with one_version_get) none key_k Ptr.null
          { mem := empty_payload_mem, log := [] } =
        some (IB_OK, out, { mem := mf, log := [] ++ evs }) ∧
      out ≠ Ptr.null ∧
      value_data mf out = some (ValueData.mk [] 0 [116] 1 5 6) := by
  obtain ⟨rc, out, mf, evs, hg, _, hempty⟩ :=
    get_not_found_iff_zero_candidates (store_with one_version_get) none key_k Ptr.null
      { mem := empty_payload_mem, log := [] } IB_OK
      { ptr := Ptr.heap 0, cells := [Ptr.pool 0 0] } 1 empty_payload_mem empty_payload_mem
      (Ptr.pool 0 0) (ValueData.mk [] 0 [116] 1 5 6) [none]
      rfl (by decide) rfl (fun _ => by decide) (fun hlt => absurd hlt (by decide))
      (fun hlt => absurd hlt (by decide)) (fun _ => rfl) (fun _ => rfl)
      (by decide) (fun _ => rfl) (fun _ => rfl)
  obtain ⟨hrc, hout, hdat, _⟩ := hempty rfl rfl rfl (by decide)
  subst hrc
  exact ⟨out, mf, evs, hg, hout, hdat⟩

/-- C9 as stated fails when an allocation fails: on an initialised handle
whose backend returns the two stored versions, a `get` with no override in a
memory whose next allocation attempt fails returns IB_EALLOC, not OK, and
leaves the output slot as it was. -/
theorem init_then_get_alloc_failure :
    (ib_kvstore_init (store_with two_versions_get)).1 = IB_OK ∧
    Candidates two_versions_no_memory.mem [Ptr.pool 0 0, Ptr.pool 1 0] ∧
    ∃ wf, ib_kvstore_get (ib_kvstore_init (store_with two_versions_get)).2 none key_k
        (Ptr.pool 9 9) two_versions_no_memory = some (IB_EALLOC, Ptr.pool 9 9, wf) :=
  ⟨rfl, by decide, _, rfl⟩

/-- C13: when the allocations succeed, `ib_kvstore_value_create` returns OK
and writes to the output slot a value in a newly created arena (not live
before, live after) whose getters return an empty payload and an empty type
through non-null pointers with length 0, and zero expiration and creation;
the arenas that existed before are unchanged. -/
theorem value_create_makes_zeroed_value (m : Mem) (slot : Ptr) (hA : AllocOk m) :
    ∃ out m2,
      ib_kvstore_value_create slot m = some (IB_OK, out, m2) ∧
      out ≠ Ptr.null ∧
      value_arena m2 out = some m.pools.length ∧
      pool_live m m.pools.length = false ∧ pool_live m2 m.pools.length = true ∧
      (∃ p, ib_kvstore_value_value_get out m2 = some (p, 0) ∧ p ≠ Ptr.null ∧
        read_bytes m2 p 0 = some []) ∧
      (∃ t, ib_kvstore_value_type_get out m2 = some (t, 0) ∧ t ≠ Ptr.null ∧
        read_bytes m2 t 0 = some []) ∧
      ib_kvstore_value_expiration_get out m2 = some 0 ∧
      ib_kvstore_value_creation_get out m2 = some 0 ∧
      value_data m2 out = some (ValueData.mk [] 0 [] 0 0 0) ∧
      Preserves m m2 := by
  refine ⟨_, _, create_ok_of_allocOk m slot hA, by simp, ?_, pool_live_length m, ?_,
    ⟨Ptr.empty_str, ?_, by simp, by simp [read_bytes]⟩,
    ⟨Ptr.empty_str, ?_, by simp, by simp [read_bytes]⟩, ?_, ?_, ?_,
    ⟨fun a bs h => pool_snoc_old m _ _ a bs h, rfl⟩⟩
  · simp [value_arena, load_value_snoc_new]
  · simp [pool_live, pool_snoc_new]
  · simp [ib_kvstore_value_value_get, load_value_snoc_new]
  · simp [ib_kvstore_value_type_get, load_value_snoc_new]
  · simp [ib_kvstore_value_expiration_get, load_value_snoc_new]
  · simp [ib_kvstore_value_creation_get, load_value_snoc_new]
  · simp [value_data, load_value_snoc_new, read_bytes]

/-- A value created in a memory that holds only the bytes `"hello"`. -/
theorem value_create_makes_zeroed_value_witness :
    ∃ out m2,
      ib_kvstore_value_create Ptr.null hello_heap = some (IB_OK, out, m2) ∧
      out ≠ Ptr.null ∧
      value_arena m2 out = some 0 ∧
      pool_live hello_heap 0 = false ∧ pool_live m2 0 = true ∧
      (∃ p, ib_kvstore_value_value_get out m2 = some (p, 0) ∧ p ≠ Ptr.null ∧
        read_bytes m2 p 0 = some []) ∧
      (∃ t, ib_kvstore_value_type_get out m2 = some (t, 0) ∧ t ≠ Ptr.null ∧
        read_bytes m2 t 0 = some []) ∧
      ib_kvstore_value_expiration_get out m2 = some 0 ∧
      ib_kvstore_value_creation_get out m2 = some 0 ∧
      value_data m2 out = some (ValueData.mk [] 0 [] 0 0 0) ∧
      Preserves hello_heap m2 :=
  value_create_makes_zeroed_value hello_heap Ptr.null (by decide)

/-- C14: when the arena cannot be allocated, or the arena can and the value
struct cannot, `ib_kvstore_value_create` returns IB_EALLOC and leaves the
output slot holding what it held; the set of live arenas is what it was
before the call (an arena created before the struct allocation failed has
been released again), and the arenas and the heap that existed are
unchanged. -/
theorem value_create_fails_without_leak (m : Mem) (slot : Ptr)
    (hfail : alloc_outcome m 0 = false ∨
      (alloc_outcome m 0 = true ∧ alloc_outcome m 1 = false)) :
    ∃ m2,
      ib_kvstore_value_create slot m = some (IB_EALLOC, slot, m2) ∧
      (∀ a, pool_live m2 a = pool_live m a) ∧
      Preserves m m2 ∧
      (alloc_outcome m 0 = false → m2.pools = m.pools) ∧
      (alloc_outcome m 0 = true → m2.pools = m.pools ++ [none]) := by
  rcases hfail with h0 | ⟨h0, h1⟩
  · rw [alloc_outcome_zero] at h0
    refine ⟨_, create_fail0 m slot h0, fun a => rfl, ⟨fun a bs h => h, rfl⟩, fun _ => rfl,
      fun ht => ?_⟩
    rw [alloc_outcome_zero, h0] at ht
    cases ht
  · have h0c := h0
    rw [alloc_outcome_zero] at h0
    rw [alloc_outcome_one] at h1
    refine ⟨_, create_fail1 m slot h0 h1, fun a => ?_,
      ⟨fun a bs h => pool_snoc_old m _ _ a bs h, rfl⟩, fun hf => ?_, fun _ => rfl⟩
    · simp only [pool_live, pool_snoc_none]
    · rw [h0c] at hf
      cases hf

/-- The arena is allocated and the struct is not: IB_EALLOC, the slot keeps
its content, and arena 0, created during the call, is not live afterwards. -/
theorem value_create_fails_without_leak_witness :
    ∃ m2,
      ib_kvstore_value_create (Ptr.pool 7 7) hello_heap_one_alloc =
        some (IB_EALLOC, Ptr.pool 7 7, m2) ∧
      m2.pools = [none] ∧ pool_live m2 0 = false ∧ m2.heap = hello_heap_one_alloc.heap := by
  obtain ⟨m2, hc, hlive, hpr, _, hp⟩ :=
    value_create_fails_without_leak hello_heap_one_alloc (Ptr.pool 7 7)
      (Or.inr ⟨rfl, rfl⟩)
  exact ⟨m2, hc, hp rfl, by rw [hlive 0]; rfl, hpr.2⟩

/-- C12: `ib_kvstore_value_dup` is atomic on failure.  When allocation attempt
`k` of the call is the first to fail (0 the arena and 1 the struct, which is
creating the new value; 2 the payload byte copy; 3 the type byte copy), it
returns IB_EALLOC and leaves the output slot holding what it held; the source
value reads as before; the arena of the partly built value, if it was
created, has been released, once, and the set of live arenas is what it was
before the call. -/
theorem value_dup_atomic_on_failure (m : Mem) (value slot : Ptr) (d : ValueData) (k : Nat)
    (hd : value_data m value = some d) (hk : k ≤ 3)
    (hbefore : ∀ i, i < k → alloc_outcome m i = true)
    (hfail : alloc_outcome m k = false) :
    ∃ m2,
      ib_kvstore_value_dup value slot m = some (IB_EALLOC, slot, m2) ∧
      load_value m2 value = load_value m value ∧
      value_data m2 value = some d ∧
      (∀ a, pool_live m2 a = pool_live m a) ∧
      Preserves m m2 ∧
      (k = 0 → m2.pools = m.pools) ∧
      (0 < k → m2.pools = m.pools ++ [none] ∧ pool_live m2 m.pools.length = false) := by
  obtain ⟨v, pb, tb, hv, hp, _, _⟩ := value_data_inv m value d hd
  have hpr := preserves_dup_fail_mem m k
  refine ⟨dup_fail_mem m k, dup_fail_at m value slot v pb k hk hv hp hbefore hfail, ?_,
    value_data_preserved m _ hpr value d hd, pool_live_dup_fail_mem m k, hpr, ?_, ?_⟩
  · rw [load_value_preserved m _ hpr value v hv, hv]
  · intro h0
    simp [dup_fail_mem, h0]
  · intro h0
    have hne : k ≠ 0 := by omega
    refine ⟨by simp [dup_fail_mem, hne], ?_⟩
    rw [pool_live_dup_fail_mem]
    exact pool_live_length m

/-- The payload copy of a duplicate of the `"hello"` value fails: IB_EALLOC,
the slot keeps its content, the source still reads `"hello"`, and arena 1,
created for the duplicate, is not live afterwards. -/
theorem value_dup_atomic_on_failure_witness :
    ∃ m2,
      ib_kvstore_value_dup (Ptr.pool 0 0) (Ptr.pool 7 7) hello_mem_two_allocs =
        some (IB_EALLOC, Ptr.pool 7 7, m2) ∧
      value_data m2 (Ptr.pool 0 0) = some (ValueData.mk [104, 101, 108, 108, 111] 5 [] 0 0 0) ∧
      pool_live m2 0 = true ∧ pool_live m2 1 = false ∧
      m2.pools = hello_mem_two_allocs.pools ++ [none] := by
  obtain ⟨m2, hdup, _, hdat, hlive, _, _, hp⟩ :=
    value_dup_atomic_on_failure hello_mem_two_allocs (Ptr.pool 0 0) (Ptr.pool 7 7)
      (ValueData.mk [104, 101, 108, 108, 111] 5 [] 0 0 0) 2 rfl (by decide)
      (by decide) rfl
  exact ⟨m2, hdup, hdat, by rw [hlive 0]; rfl, (hp (by decide)).2, (hp (by decide)).1⟩

/-- C11: for a readable value `v` whose arena `a` is live and `d` its
duplicate (the allocations succeeding): the struct, the payload bytes and the
type bytes of `d` are blocks 0, 1 and 2 of the arena of `d`;
`ib_kvstore_value_destroy(v)` releases arena `a` and changes no other arena,
and `d` reads afterwards what it read before; `ib_kvstore_value_destroy(d)`
releases the arena of `d` and no other, and `v` reads afterwards what it
read before; and of two duplicates of `v`, destroying either leaves the
other, and `v`, reading what they read before. -/
theorem value_destroy_leaves_duplicates_intact (m : Mem) (value slot slot2 : Ptr) (a : Nat)
    (dv : ValueData)
    (hA : AllocOk m) (hd : value_data m value = some dv)
    (ha : value_arena m value = some a) (hlive : pool_live m a = true) :
    ∃ out m2,
      ib_kvstore_value_dup value slot m = some (IB_OK, out, m2) ∧
      (∃ vd, load_value m2 out = some vd ∧ out = Ptr.pool m.pools.length 0 ∧
        vd.mp = some m.pools.length ∧
        vd.value = Ptr.pool m.pools.length 1 ∧ vd.type = Ptr.pool m.pools.length 2) ∧
      value_data m2 out = some dv ∧
      (∃ m3, ib_kvstore_value_destroy value m2 = some m3 ∧ pool_live m3 a = false ∧
        (∀ b, b ≠ a → m3.pool b = m2.pool b) ∧ m3.heap = m2.heap ∧
        value_data m3 out = some dv) ∧
      (∃ m4, ib_kvstore_value_destroy out m2 = some m4 ∧
        pool_live m4 m.pools.length = false ∧
        (∀ b, b ≠ m.pools.length → m4.pool b = m2.pool b) ∧ m4.heap = m2.heap ∧
        value_data m4 value = some dv) ∧
      (∃ out2 m5, ib_kvstore_value_dup value slot2 m2 = some (IB_OK, out2, m5) ∧
        value_data m5 out = some dv ∧ value_data m5 out2 = some dv ∧
        (∃ m6, ib_kvstore_value_destroy out m5 = some m6 ∧
          value_data m6 out2 = some dv ∧ value_data m6 value = some dv) ∧
        (∃ m7, ib_kvstore_value_destroy out2 m5 = some m7 ∧
          value_data m7 out = some dv ∧ value_data m7 value = some dv)) := by
  obtain ⟨v, pb, tb, hv, hp, ht, hdd⟩ := value_data_inv m value dv hd
  obtain ⟨bsa, hpa⟩ := pool_of_live m a hlive
  have hmp : v.mp = some a := by rw [← value_arena_eq m value v hv]; exact ha
  have hlenp := read_bytes_length m _ _ _ hp
  have hlent := read_bytes_length m _ _ _ ht
  have haL : a ≠ m.pools.length := Nat.ne_of_lt (pool_lt_length m a bsa hpa)
  have hLnone : m.pool m.pools.length = none := pool_none_of_ge m _ (Nat.le_refl _)
  have hL1none : m.pool (m.pools.length + 1) = none := pool_none_of_ge m _ (by omega)
  -- the first duplicate
  have hpr := preserves_dup_mem m v pb tb
  have hv2 := load_value_preserved m _ hpr value v hv
  have hp2 := read_bytes_preserved m _ hpr _ _ _ hp
  have ht2 := read_bytes_preserved m _ hpr _ _ _ ht
  have hpoolL := dup_mem_pool_new m v pb tb
  have hloadL : load_value (dup_mem m v pb tb) (Ptr.pool m.pools.length 0) =
      some (dup_struct m.pools.length v) := by simp [load_value, hpoolL]
  -- the second duplicate
  have hlen2 := dup_mem_length m v pb tb
  have hpr2 := preserves_dup_mem (dup_mem m v pb tb) v pb tb
  have hpr02 := preserves_trans m _ _ hpr hpr2
  have hpoolL2 := dup_mem_pool_new (dup_mem m v pb tb) v pb tb
  rw [hlen2] at hpoolL2
  have hpoolL5 := hpr2.1 _ _ hpoolL
  have hloadL5 : load_value (dup_mem (dup_mem m v pb tb) v pb tb)
      (Ptr.pool m.pools.length 0) = some (dup_struct m.pools.length v) := by
    simp [load_value, hpoolL5]
  have hloadL2 : load_value (dup_mem (dup_mem m v pb tb) v pb tb)
      (Ptr.pool (m.pools.length + 1) 0) = some (dup_struct (m.pools.length + 1) v) := by
    simp [load_value, hpoolL2]
  -- the four destroys
  obtain ⟨m3, hd3, hl3, hf3, hh3, _⟩ := destroy_frame m (dup_mem m v pb tb) value v a bsa
    hv2 hmp (hpr.1 a bsa hpa)
  obtain ⟨m4, hd4, hl4, hf4, hh4, hpr4⟩ := destroy_frame m (dup_mem m v pb tb)
    (Ptr.pool m.pools.length 0) _ m.pools.length _ hloadL rfl hpoolL
  obtain ⟨m6, hd6, _, hf6, _, hpr6⟩ := destroy_frame m (dup_mem (dup_mem m v pb tb) v pb tb)
    (Ptr.pool m.pools.length 0) _ m.pools.length _ hloadL5 rfl hpoolL5
  obtain ⟨m7, hd7, _, hf7, _, hpr7⟩ := destroy_frame m (dup_mem (dup_mem m v pb tb) v pb tb)
    (Ptr.pool (m.pools.length + 1) 0) _ (m.pools.length + 1) _ hloadL2 rfl hpoolL2
  subst hdd
  refine ⟨Ptr.pool m.pools.length 0, dup_mem m v pb tb,
    dup_ok m value slot v pb tb hA hv hp ht,
    ⟨_, hloadL, rfl, rfl, rfl, rfl⟩,
    value_data_of_pool _ _ v pb tb hpoolL hlenp hlent,
    ⟨m3, hd3, hl3, hf3, hh3, ?_⟩, ⟨m4, hd4, hl4, hf4, hh4, ?_⟩,
    ⟨Ptr.pool (m.pools.length + 1) 0, dup_mem (dup_mem m v pb tb) v pb tb, ?_, ?_, ?_,
      ⟨m6, hd6, ?_, ?_⟩, ⟨m7, hd7, ?_, ?_⟩⟩⟩
  · refine value_data_of_pool _ _ v pb tb ?_ hlenp hlent
    rw [hf3 _ (Ne.symm haL)]; exact hpoolL
  · exact value_data_preserved m m4 (hpr4 hpr hLnone) value _ hd
  · rw [← hlen2]
    exact dup_ok _ value slot2 v pb tb (allocOk_dup_mem m v pb tb hA) hv2 hp2 ht2
  · exact value_data_of_pool _ _ v pb tb hpoolL5 hlenp hlent
  · exact value_data_of_pool _ _ v pb tb hpoolL2 hlenp hlent
  · refine value_data_of_pool _ _ v pb tb ?_ hlenp hlent
    rw [hf6 _ (by omega)]; exact hpoolL2
  · exact value_data_preserved m m6 (hpr6 hpr02 hLnone) value _ hd
  · refine value_data_of_pool _ _ v pb tb ?_ hlenp hlent
    rw [hf7 _ (by omega)]; exact hpoolL5
  · exact value_data_preserved m m7 (hpr7 hpr02 hL1none) value _ hd

/-- Scenario A continued: after the `"hello"` value is duplicated, destroying
the original releases arena 0 and the duplicate still reads `"hello"`;
destroying the duplicate instead leaves the original reading `"hello"`. -/
theorem value_destroy_leaves_duplicates_intact_witness :
    ∃ out m2 m3 m4,
      ib_kvstore_value_dup (Ptr.pool 0 0) Ptr.null hello_mem = some (IB_OK, out, m2) ∧
      out = Ptr.pool 1 0 ∧
      ib_kvstore_value_destroy (Ptr.pool 0 0) m2 = some m3 ∧
      pool_live m3 0 = false ∧
      value_data m3 out = some (ValueData.mk [104, 101, 108, 108, 111] 5 [] 0 0 0) ∧
      ib_kvstore_value_destroy out m2 = some m4 ∧
      pool_live m4 1 = false ∧
      value_data m4 (Ptr.pool 0 0) =
        some (ValueData.mk [104, 101, 108, 108, 111] 5 [] 0 0 0) := by
  obtain ⟨out, m2, hdup, ⟨_, _, hout, _⟩, _, ⟨m3, hd3, hl3, _, _, hv3⟩,
      ⟨m4, hd4, hl4, _, _, hv4⟩, _⟩ :=
    value_destroy_leaves_duplicates_intact hello_mem (Ptr.pool 0 0) Ptr.null Ptr.null 0
      (ValueData.mk [104, 101, 108, 108, 111] 5 [] 0 0 0) (by decide) rfl rfl rfl
  exact ⟨out, m2, m3, m4, hdup, hout, hd3, hl3, hv3, hd4, hl4, hv4⟩

/-- C15: the value mutators store verbatim and change only their own
fields.  For a live value struct at `kv`, a non-null pointer `p` and a length
`n`: after `ib_kvstore_value_value_set(kv, p, n)` the getter returns `(p, n)`,
the pointer itself, and the type pointer and length, the expiration, the
creation and the arena are what they were; the same for
`ib_kvstore_value_type_set` with the type getter, and for the expiration and
creation setters with their getters.  The setters touch nothing else: every
other value, every byte buffer, the heap and the set of live arenas are
unchanged (nothing is copied or allocated).  The getters return the stored
fields and, being reads, leave memory as it is. -/
theorem value_mutators_store_verbatim (m : Mem) (kv : Ptr) (v : ib_kvstore_value_t)
    (p : Ptr) (n : Nat) (t : Ptr) (tn e c : Nat)
    (hv : load_value m kv = some v) (hp : p ≠ Ptr.null) (ht : t ≠ Ptr.null) :
    (∃ m2, ib_kvstore_value_value_set kv p n m = some m2 ∧
      ib_kvstore_value_value_get kv m2 = some (p, n) ∧
      ib_kvstore_value_type_get kv m2 = ib_kvstore_value_type_get kv m ∧
      ib_kvstore_value_expiration_get kv m2 = ib_kvstore_value_expiration_get kv m ∧
      ib_kvstore_value_creation_get kv m2 = ib_kvstore_value_creation_get kv m ∧
      value_arena m2 kv = value_arena m kv ∧
      SameExceptValue kv m m2) ∧
    (∃ m2, ib_kvstore_value_type_set kv t tn m = some m2 ∧
      ib_kvstore_value_type_get kv m2 = some (t, tn) ∧
      ib_kvstore_value_value_get kv m2 = ib_kvstore_value_value_get kv m ∧
      ib_kvstore_value_expiration_get kv m2 = ib_kvstore_value_expiration_get kv m ∧
      ib_kvstore_value_creation_get kv m2 = ib_kvstore_value_creation_get kv m ∧
      value_arena m2 kv = value_arena m kv ∧
      SameExceptValue kv m m2) ∧
    (∃ m2, ib_kvstore_value_expiration_set kv e m = some m2 ∧
      ib_kvstore_value_expiration_get kv m2 = some e ∧
      ib_kvstore_value_value_get kv m2 = ib_kvstore_value_value_get kv m ∧
      ib_kvstore_value_type_get kv m2 = ib_kvstore_value_type_get kv m ∧
      ib_kvstore_value_creation_get kv m2 = ib_kvstore_value_creation_get kv m ∧
      value_arena m2 kv = value_arena m kv ∧
      SameExceptValue kv m m2) ∧
    (∃ m2, ib_kvstore_value_creation_set kv c m = some m2 ∧
      ib_kvstore_value_creation_get kv m2 = some c ∧
      ib_kvstore_value_value_get kv m2 = ib_kvstore_value_value_get kv m ∧
      ib_kvstore_value_type_get kv m2 = ib_kvstore_value_type_get kv m ∧
      ib_kvstore_value_expiration_get kv m2 = ib_kvstore_value_expiration_get kv m ∧
      value_arena m2 kv = value_arena m kv ∧
      SameExceptValue kv m m2) ∧
    ib_kvstore_value_value_get kv m = some (v.value, v.value_length) ∧
    ib_kvstore_value_type_get kv m = some (v.type, v.type_length) ∧
    ib_kvstore_value_expiration_get kv m = some v.expiration ∧
    ib_kvstore_value_creation_get kv m = some v.creation := by
  refine ⟨?_, ?_, ?_, ?_, ?_, ?_, ?_, ?_⟩
  · obtain ⟨m2, h1, h2, h3⟩ := modify_value_same_except m kv v
      (fun v => { v with value := p, value_length := n }) hv
    refine ⟨m2, by simp only [ib_kvstore_value_value_set, if_neg hp, h1], ?_, ?_, ?_, ?_, ?_,
      h3⟩ <;>
    simp [ib_kvstore_value_value_get, ib_kvstore_value_type_get,
      ib_kvstore_value_expiration_get, ib_kvstore_value_creation_get, value_arena, h2, hv]
  · obtain ⟨m2, h1, h2, h3⟩ := modify_value_same_except m kv v
      (fun v => { v with type := t, type_length := tn }) hv
    refine ⟨m2, by simp only [ib_kvstore_value_type_set, if_neg ht, h1], ?_, ?_, ?_, ?_, ?_,
      h3⟩ <;>
    simp [ib_kvstore_value_value_get, ib_kvstore_value_type_get,
      ib_kvstore_value_expiration_get, ib_kvstore_value_creation_get, value_arena, h2, hv]
  · obtain ⟨m2, h1, h2, h3⟩ := modify_value_same_except m kv v
      (fun v => { v with expiration := e }) hv
    refine ⟨m2, by simp only [ib_kvstore_value_expiration_set, h1], ?_, ?_, ?_, ?_, ?_, h3⟩ <;>
    simp [ib_kvstore_value_value_get, ib_kvstore_value_type_get,
      ib_kvstore_value_expiration_get, ib_kvstore_value_creation_get, value_arena, h2, hv]
  · obtain ⟨m2, h1, h2, h3⟩ := modify_value_same_except m kv v
      (fun v => { v with creation := c }) hv
    refine ⟨m2, by simp only [ib_kvstore_value_creation_set, h1], ?_, ?_, ?_, ?_, ?_, h3⟩ <;>
    simp [ib_kvstore_value_value_get, ib_kvstore_value_type_get,
      ib_kvstore_value_expiration_get, ib_kvstore_value_creation_get, value_arena, h2, hv]
  · simp [ib_kvstore_value_value_get, hv]
  · simp [ib_kvstore_value_type_get, hv]
  · simp [ib_kvstore_value_expiration_get, hv]
  · simp [ib_kvstore_value_creation_get, hv]

/-- On the `"hello"` value: setting the payload to the first three bytes of
heap buffer 0 makes the getter return that pointer and 3 and leaves the type
getter returning the empty literal; setting the expiration to 9 makes its
getter return 9 and leaves the payload getter returning `(heap 0, 5)`. -/
theorem value_mutators_store_verbatim_witness :
    (∃ m2, ib_kvstore_value_value_set (Ptr.pool 0 0) (Ptr.heap 0) 3 hello_mem = some m2 ∧
      ib_kvstore_value_value_get (Ptr.pool 0 0) m2 = some (Ptr.heap 0, 3) ∧
      ib_kvstore_value_type_get (Ptr.pool 0 0) m2 = some (Ptr.empty_str, 0) ∧
      read_bytes m2 (Ptr.heap 0) 5 = some [104, 101, 108, 108, 111]) ∧
    (∃ m2, ib_kvstore_value_expiration_set (Ptr.pool 0 0) 9 hello_mem = some m2 ∧
      ib_kvstore_value_expiration_get (Ptr.pool 0 0) m2 = some 9 ∧
      ib_kvstore_value_value_get (Ptr.pool 0 0) m2 = some (Ptr.heap 0, 5)) := by
  obtain ⟨⟨m2, hs, hg, htg, _, _, _, hsame⟩, _, ⟨m3, hes, heg, hvg, _⟩, _⟩ :=
    value_mutators_store_verbatim hello_mem (Ptr.pool 0 0)
      { mp := some 0, value := Ptr.heap 0, value_length := 5, type := Ptr.empty_str,
        type_length := 0, expiration := 0, creation := 0 }
      (Ptr.heap 0) 3 (Ptr.heap 0) 2 9 8 rfl (by decide) (by decide)
  exact ⟨⟨m2, hs, hg, htg, by rw [hsame.2.1]; rfl⟩, ⟨m3, hes, heg, hvg⟩⟩

/-- C16: `ib_kvstore_connect`, `ib_kvstore_disconnect` and `ib_kvstore_remove`
are pure delegation.  On a live handle whose slot holds a function, each
returns; the calls it makes are exactly one, of the function in the slot of
that name, with the handle pointer, the context data in that callback's own
slot and, for `remove`, the caller's key; its status is the status that call
reports; and memory afterwards is memory as that call left it, so the
function itself writes no word of the handle and does not free it: the
handle reads as the callback left it, and as before the call when the
callback leaves it alone.  `ib_kvstore_destroy`, on a live handle whose
`destroy` slot is not `NULL`, makes exactly one call, of the function in that
slot with the handle pointer and its context data, and likewise neither
writes nor frees the handle. -/
theorem connect_disconnect_remove_destroy_delegate (code : Code) (addr : Nat) (ws : List Nat)
    (key : ib_kvstore_key_t) (w : World)
    (hh : load_handle w.mem (Ptr.heap addr) = some ws) :
    (∀ fp cbdata f, ws[connect_field]? = some fp → ws[connect_cbdata_field]? = some cbdata →
      fn_at code.connect fp = some f →
      ∃ w2, ib_kvstore_connect code (Ptr.heap addr) w =
          some ((f.run addr cbdata w.mem).1, w2) ∧
        w2.log = w.log ++ [Event.connect f.sym addr cbdata] ∧
        w2.mem = (f.run addr cbdata w.mem).2 ∧
        load_handle w2.mem (Ptr.heap addr) =
          load_handle (f.run addr cbdata w.mem).2 (Ptr.heap addr) ∧
        (load_handle (f.run addr cbdata w.mem).2 (Ptr.heap addr) = some ws →
          load_handle w2.mem (Ptr.heap addr) = some ws)) ∧
    (∀ fp cbdata f, ws[disconnect_field]? = some fp →
      ws[disconnect_cbdata_field]? = some cbdata → fn_at code.connect fp = some f →
      ∃ w2, ib_kvstore_disconnect code (Ptr.heap addr) w =
          some ((f.run addr cbdata w.mem).1, w2) ∧
        w2.log = w.log ++ [Event.disconnect f.sym addr cbdata] ∧
        w2.mem = (f.run addr cbdata w.mem).2 ∧
        load_handle w2.mem (Ptr.heap addr) =
          load_handle (f.run addr cbdata w.mem).2 (Ptr.heap addr) ∧
        (load_handle (f.run addr cbdata w.mem).2 (Ptr.heap addr) = some ws →
          load_handle w2.mem (Ptr.heap addr) = some ws)) ∧
    (∀ fp cbdata f, ws[remove_field]? = some fp → ws[remove_cbdata_field]? = some cbdata →
      fn_at code.remove fp = some f →
      ∃ w2, ib_kvstore_remove code (Ptr.heap addr) key w =
          some ((f.run addr key cbdata w.mem).1, w2) ∧
        w2.log = w.log ++ [Event.remove f.sym addr key cbdata] ∧
        w2.mem = (f.run addr key cbdata w.mem).2 ∧
        load_handle w2.mem (Ptr.heap addr) =
          load_handle (f.run addr key cbdata w.mem).2 (Ptr.heap addr) ∧
        (load_handle (f.run addr key cbdata w.mem).2 (Ptr.heap addr) = some ws →
          load_handle w2.mem (Ptr.heap addr) = some ws)) ∧
    (∀ fp cbdata f, ws[destroy_field]? = some fp → ws[destroy_cbdata_field]? = some cbdata →
      fn_at code.destroy fp = some f →
      ∃ w2, ib_kvstore_destroy code (Ptr.heap addr) w = some w2 ∧
        w2.log = w.log ++ [Event.destroy f.sym addr cbdata] ∧
        w2.mem = f.run addr cbdata w.mem ∧
        load_handle w2.mem (Ptr.heap addr) =
          load_handle (f.run addr cbdata w.mem) (Ptr.heap addr) ∧
        (load_handle (f.run addr cbdata w.mem) (Ptr.heap addr) = some ws →
          load_handle w2.mem (Ptr.heap addr) = some ws)) := by
  refine ⟨?_, ?_, ?_, ?_⟩
  · intro fp cbdata f h1 h2 h3
    exact ⟨_, connect_live code addr ws w fp cbdata f hh h1 h2 h3, rfl, rfl, rfl, fun h => h⟩
  · intro fp cbdata f h1 h2 h3
    exact ⟨_, disconnect_live code addr ws w fp cbdata f hh h1 h2 h3, rfl, rfl, rfl, fun h => h⟩
  · intro fp cbdata f h1 h2 h3
    exact ⟨_, remove_live code addr ws key w fp cbdata f hh h1 h2 h3, rfl, rfl, rfl, fun h => h⟩
  · intro fp cbdata f h1 h2 h3
    exact ⟨_, destroy_live code addr ws w fp cbdata f hh h1 h2 h3, rfl, rfl, rfl, fun h => h⟩

/-- A handle in heap buffer 0 whose backend refuses the connection:
`ib_kvstore_connect` returns the backend's status 3 after the one call with
the handle and the context data 42; `ib_kvstore_disconnect` and
`ib_kvstore_remove` return OK after their one call with the context data 43
and 44; `ib_kvstore_destroy` makes the one call that frees the backend
context, heap buffer 1.  After each the handle is live and holds the same
words. -/
theorem connect_disconnect_remove_destroy_delegate_witness :
    load_handle refusing_mem (Ptr.heap 0) = some refusing_handle ∧
    (∃ w2, ib_kvstore_connect backend_code (Ptr.heap 0) { mem := refusing_mem, log := [] } =
        some (IB_EOTHER 3, w2) ∧
      w2.log = [Event.connect (FnSym.user 11) 0 42] ∧
      w2.mem = refusing_mem ∧
      load_handle w2.mem (Ptr.heap 0) = some refusing_handle) ∧
    (∃ w2, ib_kvstore_disconnect backend_code (Ptr.heap 0) { mem := refusing_mem, log := [] } =
        some (IB_OK, w2) ∧
      w2.log = [Event.disconnect (FnSym.user 5) 0 43] ∧
      load_handle w2.mem (Ptr.heap 0) = some refusing_handle) ∧
    (∃ w2, ib_kvstore_remove backend_code (Ptr.heap 0) key_k
          { mem := refusing_mem, log := [] } = some (IB_OK, w2) ∧
      w2.log = [Event.remove (FnSym.user 6) 0 key_k 44] ∧
      load_handle w2.mem (Ptr.heap 0) = some refusing_handle) ∧
    (∃ w2, ib_kvstore_destroy backend_code (Ptr.heap 0) { mem := refusing_mem, log := [] } =
        some w2 ∧
      w2.log = [Event.destroy (FnSym.user 12) 0 1] ∧
      w2.mem.heap = [some refusing_handle, none] ∧
      load_handle w2.mem (Ptr.heap 0) = some refusing_handle) := by
  obtain ⟨hc, hd, hr, hy⟩ :=
    connect_disconnect_remove_destroy_delegate backend_code 0 refusing_handle key_k
      { mem := refusing_mem, log := [] } rfl
  obtain ⟨w1, e1, l1, m1, _, k1⟩ := hc 111 42 refusing_connect rfl rfl rfl
  obtain ⟨w2, e2, l2, _, _, k2⟩ := hd 105 43 noop_connect rfl rfl rfl
  obtain ⟨w3, e3, l3, _, _, k3⟩ := hr 106 44 noop_remove rfl rfl rfl
  obtain ⟨w4, e4, l4, m4, _, k4⟩ := hy 112 1 freeing_destroy rfl rfl rfl
  exact ⟨rfl, ⟨w1, e1, l1, m1, k1 rfl⟩, ⟨w2, e2, l2, k2 rfl⟩, ⟨w3, e3, l3, k3 rfl⟩,
    ⟨w4, e4, l4, by rw [m4]; rfl, k4 rfl⟩⟩

/-- C17 as stated fails for a single candidate: the backend returns one
stored version, `ib_kvstore_get` returns OK, and the log of the call holds no
merge-policy call (the one candidate is still destroyed once). -/
theorem get_single_candidate_makes_no_merge_call :
    ∃ out wf,
      ib_kvstore_get (store_with one_version_get) none key_k Ptr.null two_versions_world =
        some (IB_OK, out, wf) ∧
      (wf.log.filter Event.is_merge).length = 0 ∧
      destroy_count wf.log (Ptr.pool 0 0) = 1 :=
  ⟨_, _, rfl, by decide, by decide⟩

/-- C17, with the restriction the code makes: within one `ib_kvstore_get`
call the merge policy is called exactly once when the backend `get`
succeeded with more than one candidate, and not at all otherwise (one
candidate, none, or a backend failure); and whenever the backend succeeded,
every candidate is destroyed exactly once and its arena is released, for
every N.  (`rcp`, `merged`, `m1`: status, result and memory after the policy
when N>1; for N=1 `merged` is the candidate and `m1` the memory after the
backend call.) -/
theorem get_merge_once_iff_several_candidates (kvstore : ib_kvstore_t)
    (override : Option ib_kvstore_merge_policy_fn_t) (key : ib_kvstore_key_t) (val : Ptr)
    (w : World) (rcb : ib_status_t) (values : ValueArray) (n : Nat) (m0 m1 : Mem)
    (rcp : ib_status_t) (merged : Ptr) (h : Heap)
    (hget : kvstore.get.run kvstore.addr key kvstore.get_cbdata w.mem =
      ((rcb, values, n), m0))
    (hn : n = values.cells.length)
    (hptr : 0 < n → values.ptr ≠ Ptr.null)
    (hpol : 1 < n →
      (effective_merge_policy kvstore override).run kvstore.addr key values n Ptr.null
        kvstore.merge_policy_cbdata m0 = some (rcp, merged, m1))
    (hm : 1 < n → merged = Ptr.null ∨ merged ∈ values.cells ∨
      ∃ a, owned_arena m1 merged = some a ∧ a ∉ arenas_of m1 values.cells)
    (hone : n ≤ 1 → m1 = m0)
    (hcell : n = 1 → values.cells = [merged])
    (hc : Candidates m1 values.cells)
    (hok : 0 < n → (1 < n → rcp = IB_OK) → ∃ d, value_data m1 merged = some d)
    (hfree : values.ptr ≠ Ptr.null →
      kvstore.free.run kvstore.addr values.ptr kvstore.free_cbdata m1.heap = some h) :
    ∃ rc out mf evs,
      ib_kvstore_get kvstore override key val w =
        some (rc, out, { mem := mf, log := w.log ++ evs }) ∧
      evs.filter Event.is_merge =
        (if rcb = IB_OK ∧ 1 < n then
          [merge_event kvstore (effective_merge_policy kvstore override) key values n]
         else []) ∧
      (rcb = IB_OK →
        (∀ c ∈ values.cells, destroy_count evs c = 1) ∧
        (∀ a ∈ arenas_of m1 values.cells, pool_live mf a = false)) ∧
      (rcb ≠ IB_OK → evs.filter Event.is_destroy = []) := by
  by_cases hb : rcb = IB_OK
  · subst hb
    obtain ⟨rc, out, mf, evs, hg, hmerge, _, hcnt, _, hrel, _⟩ :=
      get_after_backend_ok kvstore override key val w values n m0 m1 rcp merged h hget hn
        hptr hpol hm hone hcell hc hok hfree
    refine ⟨rc, out, mf, evs, hg, ?_, fun _ => ⟨hcnt, hrel⟩, fun hne => absurd rfl hne⟩
    rw [hmerge]
    by_cases hN : 1 < n <;> simp [hN]
  · refine ⟨rcb, Ptr.null, m0, [get_event kvstore key],
      get_backend_error kvstore override key val w rcb values n m0 hget hb, ?_,
      fun he => absurd he hb, fun _ => ?_⟩
    · simp [hb, get_event, Event.is_merge]
    · simp [get_event, Event.is_destroy]

/-- Two stored versions: one merge call, both candidates destroyed once. -/
theorem get_merge_once_iff_several_candidates_witness :
    ∃ rc out mf evs,
      ib_kvstore_get (store_with two_versions_get) none key_k Ptr.null two_versions_world =
        some (rc, out, { mem := mf, log := two_versions_world.log ++ evs }) ∧
      evs.filter Event.is_merge =
        [Event.merge_policy FnSym.default_merge_policy 1 key_k
          { ptr := Ptr.heap 0, cells := [Ptr.pool 0 0, Ptr.pool 1 0] } 2 0] ∧
      destroy_count evs (Ptr.pool 0 0) = 1 ∧ destroy_count evs (Ptr.pool 1 0) = 1 ∧
      pool_live mf 0 = false ∧ pool_live mf 1 = false := by
  obtain ⟨rc, out, mf, evs, hg, hmerge, hrest, _⟩ :=
    get_merge_once_iff_several_candidates (store_with two_versions_get) none key_k Ptr.null
      two_versions_world IB_OK { ptr := Ptr.heap 0, cells := [Ptr.pool 0 0, Ptr.pool 1 0] } 2
      two_versions_mem two_versions_mem IB_OK (Ptr.pool 0 0) [none]
      rfl rfl (fun _ => by decide) (fun _ => rfl)
      (fun _ => Or.inr (Or.inl (by decide))) (fun hle => absurd hle (by decide))
      (fun he => absurd he (by decide)) (by decide) (fun _ _ => ⟨_, rfl⟩) (fun _ => rfl)
  obtain ⟨hcnt, hrel⟩ := hrest rfl
  exact ⟨rc, out, mf, evs, hg, hmerge, hcnt _ (by decide), hcnt _ (by decide),
    hrel 0 (by decide), hrel 1 (by decide)⟩

/-- C18: on every path of `ib_kvstore_get` after the backend `get` has
succeeded (zero candidates, a failing merge policy, a failing duplicate, or
success), over live candidates each owning an arena of its own: every
candidate is destroyed exactly once, no value twice, and the candidate arenas
are released; the `free` callback is called exactly once, on the array, when
the array pointer is not `NULL`, and not at all when it is; and the status
and the output slot of `get` are those of the duplicate step whenever it is
reached, so a failed duplicate gives IB_EALLOC and an unwritten slot.
(`rcp`, `merged`, `m1`: status, result and memory after the policy when N>1;
for N=1 `merged` is the candidate and `m1` the memory after the backend
call.) -/
theorem get_releases_candidates_on_every_path (kvstore : ib_kvstore_t)
    (override : Option ib_kvstore_merge_policy_fn_t) (key : ib_kvstore_key_t) (val : Ptr)
    (w : World) (values : ValueArray) (n : Nat) (m0 m1 : Mem) (rcp : ib_status_t)
    (merged : Ptr) (h : Heap)
    (hget : kvstore.get.run kvstore.addr key kvstore.get_cbdata w.mem =
      ((IB_OK, values, n), m0))
    (hn : n = values.cells.length)
    (hptr : 0 < n → values.ptr ≠ Ptr.null)
    (hpol : 1 < n →
      (effective_merge_policy kvstore override).run kvstore.addr key values n Ptr.null
        kvstore.merge_policy_cbdata m0 = some (rcp, merged, m1))
    (hm : 1 < n → merged = Ptr.null ∨ merged ∈ values.cells ∨
      ∃ a, owned_arena m1 merged = some a ∧ a ∉ arenas_of m1 values.cells)
    (hone : n ≤ 1 → m1 = m0)
    (hcell : n = 1 → values.cells = [merged])
    (hc : Candidates m1 values.cells)
    (hok : 0 < n → (1 < n → rcp = IB_OK) → ∃ d, value_data m1 merged = some d)
    (hfree : values.ptr ≠ Ptr.null →
      kvstore.free.run kvstore.addr values.ptr kvstore.free_cbdata m1.heap = some h) :
    ∃ rc out mf evs,
      ib_kvstore_get kvstore override key val w =
        some (rc, out, { mem := mf, log := w.log ++ evs }) ∧
      (∀ c ∈ values.cells, destroy_count evs c = 1) ∧
      (∀ p, destroy_count evs p ≤ 1) ∧
      (∀ a ∈ arenas_of m1 values.cells, pool_live mf a = false) ∧
      evs.filter Event.is_free =
        (if values.ptr = Ptr.null then []
         else [Event.free kvstore.free.sym kvstore.addr values.ptr kvstore.free_cbdata]) ∧
      (n = 0 → rc = IB_ENOENT ∧ out = Ptr.null) ∧
      (1 < n → rcp ≠ IB_OK → rc = rcp ∧ out = val) ∧
      (0 < n → (1 < n → rcp = IB_OK) →
        ∃ m2, ib_kvstore_value_dup merged val m1 = some (rc, out, m2) ∧
          (rc = IB_OK ∨ (rc = IB_EALLOC ∧ out = val))) := by
  obtain ⟨rc, out, mf, evs, hg, _, hfr, hcnt, hle, hrel, h0, hfail, hdup⟩ :=
    get_after_backend_ok kvstore override key val w values n m0 m1 rcp merged h hget hn
      hptr hpol hm hone hcell hc hok hfree
  exact ⟨rc, out, mf, evs, hg, hcnt, hle, hrel, hfr, h0, hfail, hdup⟩

/-- Two stored versions and no memory for the duplicate: `get` returns
IB_EALLOC and leaves the slot as it was, both candidates are destroyed once
and the array is freed once. -/
theorem get_releases_candidates_on_every_path_witness :
    ∃ mf evs,
      ib_kvstore_get (store_with two_versions_get) none key_k (Ptr.pool 9 9)
          two_versions_no_memory =
        some (IB_EALLOC, Ptr.pool 9 9,
          { mem := mf, log := two_versions_no_memory.log ++ evs }) ∧
      destroy_count evs (Ptr.pool 0 0) = 1 ∧ destroy_count evs (Ptr.pool 1 0) = 1 ∧
      pool_live mf 0 = false ∧ pool_live mf 1 = false ∧
      evs.filter Event.is_free = [Event.free FnSym.kvstore_free 1 (Ptr.heap 0) 0] := by
  obtain ⟨rc, out, mf, evs, hg, hcnt, _, hrel, hfr, _, _, hdup⟩ :=
    get_releases_candidates_on_every_path (store_with two_versions_get) none key_k
      (Ptr.pool 9 9) two_versions_no_memory
      { ptr := Ptr.heap 0, cells := [Ptr.pool 0 0, Ptr.pool 1 0] } 2
      two_versions_no_memory.mem two_versions_no_memory.mem IB_OK (Ptr.pool 0 0) [none]
      rfl rfl (fun _ => by decide) (fun _ => rfl)
      (fun _ => Or.inr (Or.inl (by decide))) (fun hle => absurd hle (by decide))
      (fun he => absurd he (by decide)) (by decide) (fun _ _ => ⟨_, rfl⟩) (fun _ => rfl)
  obtain ⟨m2, hd, _⟩ := hdup (by decide) (fun _ => rfl)
  have hev : ib_kvstore_value_dup (Ptr.pool 0 0) (Ptr.pool 9 9) two_versions_no_memory.mem =
      some (IB_EALLOC, Ptr.pool 9 9, dup_fail_mem two_versions_no_memory.mem 0) := rfl
  rw [hev] at hd
  simp only [Option.some.injEq, Prod.mk.injEq] at hd
  obtain ⟨hrc, hout, _⟩ := hd
  subst hrc hout
  exact ⟨mf, evs, hg, hcnt _ (by decide), hcnt _ (by decide), hrel 0 (by decide),
    hrel 1 (by decide), hfr⟩

/-- C19: when the merge policy called by `ib_kvstore_get` on N>1 live
candidates reports a status `s` other than OK, `get` returns exactly `s`,
makes no duplicate, and leaves the output slot holding what it held (it is
not set to `NULL`); the N candidates are destroyed, once each, and a non-null
result that the policy had written and that is not one of the candidates is
destroyed as well, once, after them, and its arena is released. -/
theorem get_merge_failure_propagates (kvstore : ib_kvstore_t)
    (override : Option ib_kvstore_merge_policy_fn_t) (key : ib_kvstore_key_t) (val : Ptr)
    (w : World) (values : ValueArray) (n : Nat) (m0 m1 : Mem) (s : ib_status_t)
    (merged : Ptr) (h : Heap)
    (hget : kvstore.get.run kvstore.addr key kvstore.get_cbdata w.mem =
      ((IB_OK, values, n), m0))
    (hn : n = values.cells.length) (hN : 1 < n) (hptr : values.ptr ≠ Ptr.null)
    (hpol : (effective_merge_policy kvstore override).run kvstore.addr key values n Ptr.null
      kvstore.merge_policy_cbdata m0 = some (s, merged, m1))
    (hs : s ≠ IB_OK)
    (hc : Candidates m1 values.cells)
    (hm : merged = Ptr.null ∨ merged ∈ values.cells ∨
      ∃ a, owned_arena m1 merged = some a ∧ a ∉ arenas_of m1 values.cells)
    (hfree : kvstore.free.run kvstore.addr values.ptr kvstore.free_cbdata m1.heap = some h) :
    ∃ mf evs,
      ib_kvstore_get kvstore override key val w =
        some (s, val, { mem := mf, log := w.log ++ evs }) ∧
      evs.filter Event.is_dup = [] ∧
      evs.filter Event.is_destroy =
        (values.cells ++ residual merged values.cells).map Event.value_destroy ∧
      (∀ c ∈ values.cells, destroy_count evs c = 1) ∧
      (∀ a ∈ arenas_of m1 values.cells, pool_live mf a = false) ∧
      (merged = Ptr.null ∨ merged ∈ values.cells → residual merged values.cells = []) ∧
      (merged ≠ Ptr.null → merged ∉ values.cells →
        residual merged values.cells = [merged] ∧ destroy_count evs merged = 1 ∧
        ∃ a, owned_arena m1 merged = some a ∧ pool_live mf a = false) := by
  obtain ⟨rc, out, m2, hpr, hg, hne, _⟩ := get_merge_paths kvstore override key val w values
    n m0 m1 s merged h hget hn hN hptr hpol hc hm (fun he => absurd he hs) hfree
  obtain ⟨hrc, hout, _⟩ := hne hs
  subst hrc hout
  have hnd := candidates_nodup m1 values.cells hc
  refine ⟨_, _, hg, ?_, filter_destroy_merge_log _ _ _ _ _ _ _, ?_,
    released_after_exit m1 m2 hpr values hc merged h, ?_, ?_⟩
  · rw [filter_dup_merge_log, if_neg hs]
  · intro c hcm
    rw [destroy_count_merge_log, residual_count_of_mem merged c _ hcm,
      List.count_eq_one_of_mem hnd hcm]
  · intro hor
    simp [residual, hor]
  · intro hnull hnin
    have hres := residual_fresh merged values.cells hnull hnin
    refine ⟨hres, ?_, ?_⟩
    · rw [destroy_count_merge_log, hres, List.count_eq_zero_of_not_mem hnin]
      simp
    · rcases hm with hm | hm | ⟨a, ha, _⟩
      · exact absurd hm hnull
      · exact absurd hm hnin
      · exact ⟨a, ha, exit_mem_residual_released m1 m2 hpr values merged h a ha hres⟩

/-- Two stored versions and a policy that writes a fresh copy and then fails
with status 9: `get` returns that status, the slot keeps its content, no
duplicate is made, and the two candidates and the fresh copy are destroyed. -/
theorem get_merge_failure_propagates_witness :
    ∃ mf evs,
      ib_kvstore_get (store_with two_versions_get) (some failing_copy_policy) key_k
          (Ptr.pool 9 9) two_versions_world =
        some (IB_EOTHER 9, Ptr.pool 9 9,
          { mem := mf, log := two_versions_world.log ++ evs }) ∧
      evs.filter Event.is_dup = [] ∧
      evs.filter Event.is_destroy =
        [Event.value_destroy (Ptr.pool 0 0), Event.value_destroy (Ptr.pool 1 0),
         Event.value_destroy (Ptr.pool 2 0)] ∧
      pool_live mf 0 = false ∧ pool_live mf 1 = false := by
  obtain ⟨mf, evs, hg, hdup, hdes, _, hrel, _⟩ :=
    get_merge_failure_propagates (store_with two_versions_get) (some failing_copy_policy)
      key_k (Ptr.pool 9 9) two_versions_world
      { ptr := Ptr.heap 0, cells := [Ptr.pool 0 0, Ptr.pool 1 0] } 2
      two_versions_mem two_versions_copied_mem (IB_EOTHER 9) (Ptr.pool 2 0) [none]
      rfl rfl (by decide) (by decide) rfl (by decide) (by decide)
      (Or.inr (Or.inr ⟨2, rfl, by decide⟩)) rfl
  exact ⟨mf, evs, hg, hdup, hdes, hrel 0 (by decide), hrel 1 (by decide)⟩

/-- C20: in `ib_kvstore_get` with N>1 live candidates and a merge policy that
reports OK with a readable result, for every outcome of the allocations:
the log of the call is the backend call, the merge call, the duplicate call
on the result, the N candidate destroys, the free of the array, and then the
destroy of the result if it is not one of the candidates.  So a result that
is no candidate is destroyed exactly once, after the duplicate call, which
releases its arena, and `get` makes N+1 destroys; a result that is a
candidate is destroyed exactly
once, as that candidate, and `get` makes N destroys.  When `get` returns OK
(which it does when the allocations succeed) the value in the output slot is
the duplicate: it is not the result, it is no candidate, `get` never destroys
it, and it reads the same as the result did. -/
theorem get_destroys_fresh_result_after_duplicate (kvstore : ib_kvstore_t)
    (override : Option ib_kvstore_merge_policy_fn_t) (key : ib_kvstore_key_t) (val : Ptr)
    (w : World) (values : ValueArray) (n : Nat) (m0 m1 : Mem) (merged : Ptr)
    (d : ValueData) (h : Heap)
    (hget : kvstore.get.run kvstore.addr key kvstore.get_cbdata w.mem =
      ((IB_OK, values, n), m0))
    (hn : n = values.cells.length) (hN : 1 < n) (hptr : values.ptr ≠ Ptr.null)
    (hpol : (effective_merge_policy kvstore override).run kvstore.addr key values n Ptr.null
      kvstore.merge_policy_cbdata m0 = some (IB_OK, merged, m1))
    (hc : Candidates m1 values.cells)
    (hd : value_data m1 merged = some d)
    (hm : merged ∈ values.cells ∨
      ∃ a, owned_arena m1 merged = some a ∧ a ∉ arenas_of m1 values.cells)
    (hfree : kvstore.free.run kvstore.addr values.ptr kvstore.free_cbdata m1.heap = some h) :
    ∃ rc out mf evs,
      ib_kvstore_get kvstore override key val w =
        some (rc, out, { mem := mf, log := w.log ++ evs }) ∧
      evs = [get_event kvstore key,
          merge_event kvstore (effective_merge_policy kvstore override) key values n,
          Event.value_dup merged] ++
        values.cells.map Event.value_destroy ++
        [Event.free kvstore.free.sym kvstore.addr values.ptr kvstore.free_cbdata] ++
        (residual merged values.cells).map Event.value_destroy ∧
      destroy_count evs merged = 1 ∧
      (merged ∉ values.cells →
        residual merged values.cells = [merged] ∧
        (evs.filter Event.is_destroy).length = n + 1 ∧
        ∃ a, owned_arena m1 merged = some a ∧ pool_live mf a = false) ∧
      (merged ∈ values.cells →
        residual merged values.cells = [] ∧
        (evs.filter Event.is_destroy).length = n) ∧
      (AllocOk m1 → rc = IB_OK) ∧
      (rc = IB_OK →
        out ≠ Ptr.null ∧ out ≠ merged ∧ out ∉ values.cells ∧
        destroy_count evs out = 0 ∧ value_data mf out = some d) := by
  obtain ⟨v, pb, tb, hv, hp, ht, hdd⟩ := value_data_inv m1 merged d hd
  have hnull : merged ≠ Ptr.null := ne_null_of_load m1 merged v hv
  have hm3 : merged = Ptr.null ∨ merged ∈ values.cells ∨
      ∃ a, owned_arena m1 merged = some a ∧ a ∉ arenas_of m1 values.cells := Or.inr hm
  obtain ⟨rc, out, m2, hpr, hg, _, hcase⟩ := get_merge_paths kvstore override key val w values
    n m0 m1 IB_OK merged h hget hn hN hptr hpol hc hm3 (fun _ => ⟨d, hd⟩) hfree
  obtain ⟨hdup, hcase2⟩ := hcase rfl
  rw [if_pos rfl] at hg
  have hnd := candidates_nodup m1 values.cells hc
  have hfilter := filter_destroy_merge_log kvstore
    (effective_merge_policy kvstore override) key values n IB_OK merged
  have hcount := fun q => destroy_count_merge_log kvstore
    (effective_merge_policy kvstore override) key values n IB_OK merged q
  simp only [if_true] at hfilter hcount
  refine ⟨rc, out, _, _, hg, ?_, ?_, ?_, ?_, ?_, ?_⟩
  · simp [exit_events, List.append_assoc]
  · rw [hcount]
    by_cases hin : merged ∈ values.cells
    · rw [residual_count_of_mem merged merged _ hin, List.count_eq_one_of_mem hnd hin]
    · rw [residual_fresh merged values.cells hnull hin, List.count_eq_zero_of_not_mem hin]
      simp
  · intro hin
    have hres := residual_fresh merged values.cells hnull hin
    refine ⟨hres, ?_, ?_⟩
    · rw [hfilter, hres]
      simp [hn]
    · rcases hm with hm | ⟨a, ha, _⟩
      · exact absurd hm hin
      · exact ⟨a, ha, exit_mem_residual_released m1 m2 hpr values merged h a ha hres⟩
  · intro hin
    have hres := residual_length_alias merged values.cells hin
    refine ⟨hres, ?_⟩
    rw [hfilter, hres]
    simp [hn]
  · intro hA
    rw [dup_ok m1 merged val v pb tb hA hv hp ht] at hdup
    simp only [Option.some.injEq, Prod.mk.injEq] at hdup
    exact hdup.1.symm
  · intro hrc
    rcases hcase2 with ⟨v2, pb2, tb2, hv2, hp2, ht2, _, hout, hm2⟩ | ⟨he, _⟩
    · rw [hv] at hv2
      have hvv : v = v2 := Option.some.inj hv2
      subst hvv
      rw [hp] at hp2
      rw [ht] at ht2
      have hpp : pb = pb2 := Option.some.inj hp2
      have htt : tb = tb2 := Option.some.inj ht2
      subst hpp htt hout hm2
      have hnc := new_not_candidate m1 values.cells hc 0
      refine ⟨by simp, pool_ne_of_load m1 merged v 0 hv, hnc, ?_, ?_⟩
      · rw [hcount, List.count_eq_zero_of_not_mem hnc]
        have hnr : Ptr.pool m1.pools.length 0 ∉ residual merged values.cells := by
          intro hin
          unfold residual at hin
          split at hin
          · cases hin
          · rw [List.mem_singleton] at hin
            exact pool_ne_of_load m1 merged v 0 hv hin
        rw [List.count_eq_zero_of_not_mem hnr]
      · rw [hdd]
        exact dup_value_data_final m1 values merged h v pb tb hc hp ht hm3
    · rw [hrc] at he
      cases he

/-- Two stored versions.  With the policy that builds a fresh copy, `get`
makes three destroys, the last of them of the copy, and returns a fourth
value; with the default policy, whose result is the first candidate, it
makes two. -/
theorem get_destroys_fresh_result_after_duplicate_witness :
    (∃ out mf evs,
      ib_kvstore_get (store_with two_versions_get) (some copy_last_policy) key_k Ptr.null
          two_versions_world =
        some (IB_OK, out, { mem := mf, log := two_versions_world.log ++ evs }) ∧
      (evs.filter Event.is_destroy).length = 2 + 1 ∧
      pool_live mf 2 = false ∧
      destroy_count evs (Ptr.pool 2 0) = 1 ∧
      out ≠ Ptr.pool 2 0 ∧ destroy_count evs out = 0 ∧
      value_data mf out = some (ValueData.mk [118, 118, 50] 3 [116] 1 20 2)) ∧
    (∃ out mf evs,
      ib_kvstore_get (store_with two_versions_get) none key_k Ptr.null two_versions_world =
        some (IB_OK, out, { mem := mf, log := two_versions_world.log ++ evs }) ∧
      (evs.filter Event.is_destroy).length = 2 ∧
      destroy_count evs (Ptr.pool 0 0) = 1 ∧
      out ≠ Ptr.pool 0 0 ∧ destroy_count evs out = 0 ∧
      value_data mf out = some (ValueData.mk [118, 49] 2 [116] 1 10 1)) := by
  obtain ⟨rc, out, mf, evs, hg, _, hone, hfresh, _, halloc, hok⟩ :=
    get_destroys_fresh_result_after_duplicate (store_with two_versions_get)
      (some copy_last_policy) key_k Ptr.null two_versions_world
      { ptr := Ptr.heap 0, cells := [Ptr.pool 0 0, Ptr.pool 1 0] } 2
      two_versions_mem two_versions_copied_mem (Ptr.pool 2 0)
      (ValueData.mk [118, 118, 50] 3 [116] 1 20 2) [none]
      rfl rfl (by decide) (by decide) rfl (by decide) rfl
      (Or.inr ⟨2, rfl, by decide⟩) rfl
  obtain ⟨rc2, out2, mf2, evs2, hg2, _, hone2, _, halias2, halloc2, hok2⟩ :=
    get_destroys_fresh_result_after_duplicate (store_with two_versions_get) none key_k
      Ptr.null two_versions_world
      { ptr := Ptr.heap 0, cells := [Ptr.pool 0 0, Ptr.pool 1 0] } 2
      two_versions_mem two_versions_mem (Ptr.pool 0 0)
      (ValueData.mk [118, 49] 2 [116] 1 10 1) [none]
      rfl rfl (by decide) (by decide) rfl (by decide) rfl (Or.inl (by decide)) rfl
  have hrc := halloc (by decide)
  have hrc2 := halloc2 (by decide)
  subst hrc hrc2
  obtain ⟨_, hne, _, hcnt, hdat⟩ := hok rfl
  obtain ⟨_, hne2, _, hcnt2, hdat2⟩ := hok2 rfl
  obtain ⟨_, hlen, a, ha, hrel⟩ := hfresh (by decide)
  have ha2 : a = 2 := (Option.some.inj ha).symm
  subst ha2
  exact ⟨⟨out, mf, evs, hg, hlen, hrel, hone, hne, hcnt, hdat⟩,
    ⟨out2, mf2, evs2, hg2, (halias2 (by decide)).2, hone2, hne2, hcnt2, hdat2⟩⟩

end IronBee
